import Mathlib

/-!
# okinotes: pages, items and the repository they are stored in

A shallow embedding of the business layer of okinotes (`app.go`, `page.go`,
`item.go`, `template.go`, `user.go`, `errors.go`, `repositories.go`) and of the
App Engine repository (`ae/contentRepository.go`), followed by the properties
proved about them.

Conventions of the embedding.

* `time.Time` is a natural number (`Time`), the zero time being `0`; the result
  of `time.Now()` is an argument `now` of the operation that reads the clock.
* The datastore holds, for each kind, the list of its entities.  An entity is
  stored under the key that the repository derives from it (`userKey`,
  `pageKey`, `itemKey`, `usageKey`), a key being the tuple of the names along
  its ancestor path; a name is any string, the empty one included.
* Every call to the datastore service may fail.  A `Repository` carries, next to
  the stored entities, the list `faults` of the outcomes of the coming datastore
  calls (`true`: the call fails and has no effect); past the end of the list
  every call succeeds.  A datastore "without failures" has the empty list.
* A transaction runs its function on the repository; an error of the function,
  or of the commit, restores the entities that were stored before it.
* A Go function returning `(T, error)` returns `Except Error T`; a function
  returning only `error` returns `Option Error` (`none` is `nil`).  Every
  function that reaches the datastore also returns the repository it leaves.
* The functions of other packages are arguments (`markdownToHTML`,
  `generateID`) or are embedded from their documentation (`sort.Search`,
  `sort.Sort`, `regexp.MatchString` for the one pattern of `CreateUser`).
* Log calls are dropped.
-/

namespace Okinotes

/-! ## Data model -/

/-- An instant of `time.Time`. -/
abbrev Time := Nat

/-- The error values of the application: the three error types of `errors.go` and
`repositories.go`, the sentinel `ErrFirstUserConnection`, the errors made with
`errors.New` or `fmt.Errorf`, and the errors reported by the datastore service. -/
inductive Error where
  | NotInDatastoreError (typ : String) (ID : String)
  | NotAuthorizedError (Operation : String)
  | DataError (Field : String) (Message : String)
  | ErrFirstUserConnection
  | errorString (msg : String)
  | datastore
deriving DecidableEq, Repr

/-- Tag of `template.go`: a key and its value. -/
structure Tag where
  Key : String
  Value : String
deriving DecidableEq, Repr

/-- TagList of `template.go`. -/
abbrev TagList := List Tag

/-- TagDescription of `template.go`. -/
structure TagDescription where
  Key : String
  Name : String
  Kind : String
  Description : String
  DefaultValue : String
deriving DecidableEq, Repr

/-- TagDescriptionList of `template.go`. -/
abbrev TagDescriptionList := List TagDescription

/-- Item of `item.go`. -/
structure Item where
  ID : String
  CreationDate : Time
  LastModificationDate : Time
  Kind : String
  Title : String
  Content : String
  HTMLContent : String
  Source : String
  URL : String
  Tags : TagList
deriving DecidableEq, Repr

/-- Policy of `page.go`: a string. -/
abbrev Policy := String

/-- PolicyPRIVATE of `page.go`. -/
def PolicyPRIVATE : Policy := "PRIVATE"

/-- PolicyPUBLIC of `page.go`. -/
def PolicyPUBLIC : Policy := "PUBLIC"

/-- Page of `page.go`. -/
structure Page where
  UserName : String
  Name : String
  CreationDate : Time
  LastModificationDate : Time
  Title : String
  ContentLicense : String
  Policy : Policy
  TemplateID : String
  Tags : TagList
deriving DecidableEq, Repr

/-- Usage of `page.go`. -/
structure Usage where
  UploadInfoKey : String
deriving DecidableEq, Repr

/-- UserKind of `user.go`: a string. -/
abbrev UserKind := String

/-- UserKindUSER of `user.go`. -/
def UserKindUSER : UserKind := "USER"

/-- UserKindORG of `user.go`. -/
def UserKindORG : UserKind := "ORG"

/-- User of `user.go`. -/
structure User where
  Name : String
  Kind : UserKind
  FullName : String
deriving DecidableEq, Repr

/-- Ident of `user.go`: an identity from a third party provider. -/
structure Ident where
  Provider : String
  Identity : String
deriving DecidableEq, Repr

/-- Identity of `user.go`: it embeds an `Ident` and adds the user name. -/
structure Identity extends Ident where
  UserName : String
deriving DecidableEq, Repr

/-! ## Sorted tag lists (`template.go`) -/

/-- The comparison `a < b` of two Go strings: lexicographic order of their
characters, computed on the character lists. -/
def stringLess (a b : String) : Bool :=
  decide (a.data < b.data)

/-- The loop of `sort.Search(n, f)`: binary search of the least index in
`[i, j)` at which `f` holds, `fuel` bounding the number of iterations. -/
def sortSearchLoop (f : Nat → Bool) : Nat → Nat → Nat → Nat
  | 0, i, _ => i
  | fuel + 1, i, j =>
    if i < j then
      let h := (i + j) / 2
      if !f h then sortSearchLoop f fuel (h + 1) j else sortSearchLoop f fuel i h
    else i

/-- The function `sort.Search(n, f)`; the interval shrinks at every iteration, so
`n` iterations are enough. -/
def sortSearch (n : Nat) (f : Nat → Bool) : Nat :=
  sortSearchLoop f n 0 n

/-- The closure `func(i int) bool { return l[i].Key >= key }` of `Tag` and
`SetTag`; `sort.Search` calls it below `len(l)` only. -/
def keyAtLeast (l : TagList) (key : String) (i : Nat) : Bool :=
  match l.get? i with
  | some t => !stringLess t.Key key
  | none => true

/-- TagList.Tag: the value associated to the key, the empty string when the
binary search does not find the key. -/
def TagList.Tag (l : TagList) (key : String) : String :=
  let i := sortSearch l.length (keyAtLeast l key)
  match l.get? i with
  | some t => if t.Key = key then t.Value else ""
  | none => ""

/-- The inner loop of the insertion sort of `sort.Sort`, on a sorted list that
received one more tag `t` at its end: `t` moves towards the front while `Less`
holds, so it stops right after the last tag whose key is not greater. -/
def insertTag (t : Tag) : TagList → TagList
  | [] => [t]
  | u :: rest => if stringLess t.Key u.Key then t :: u :: rest else u :: insertTag t rest

/-- The call `sort.Sort(l)` with `Less(i, j) = l[i].Key < l[j].Key`, as the
insertion sort of the `sort` package (the tags are taken from left to right;
tags with equal keys keep their order). -/
def sortSort (l : TagList) : TagList :=
  l.foldl (fun sorted t => insertTag t sorted) []

/-- TagList.SetTag: replace the value found by the binary search, or append the
tag and sort. -/
def TagList.SetTag (l : TagList) (key value : String) : TagList :=
  let i := sortSearch l.length (keyAtLeast l key)
  match l.get? i with
  | some t => if t.Key = key then l.set i { t with Value := value } else sortSort (l ++ [⟨key, value⟩])
  | none => sortSort (l ++ [⟨key, value⟩])

/-- A tag list in ascending key order with unique keys: the key of every tag is
smaller than the keys of the tags that follow it. -/
def TagList.Sorted (l : TagList) : Prop :=
  l.Pairwise (fun a b => stringLess a.Key b.Key = true)

/-- A tag list in ascending key order in the sense of `sort.IsSorted`: no tag has
a key smaller than the key of a tag before it; equal keys may follow each
other. -/
def TagList.Ascending (l : TagList) : Prop :=
  l.Pairwise (fun a b => stringLess b.Key a.Key = false)

/-- The body of the loop of `DefaultTo` for one tag description: the default
value is set when `Tag` returns the empty string for the key. -/
def defaultStep (l : TagList) (tag : TagDescription) : TagList :=
  if l.Tag tag.Key = "" then l.SetTag tag.Key tag.DefaultValue else l

/-- TagList.DefaultTo. -/
def TagList.DefaultTo (l : TagList) (defaultValues : TagDescriptionList) : TagList :=
  defaultValues.foldl defaultStep l

/-- A sequence of calls of `SetTag` on a tag list, each call given by its key and
its value. -/
def setTags (l : TagList) (calls : List (String × String)) : TagList :=
  calls.foldl (fun l call => l.SetTag call.1 call.2) l

/-! ## The datastore and the repository (`ae/contentRepository.go`) -/

/-- The entity stored under a key in a list of entities, `key` giving the key of
an entity. -/
def kvGet {κ α : Type} [DecidableEq κ] (key : α → κ) (k : κ) : List α → Option α
  | [] => none
  | e :: rest => if key e = k then some e else kvGet key k rest

/-- Removal of the entity stored under a key. -/
def kvDelete {κ α : Type} [DecidableEq κ] (key : α → κ) (k : κ) (l : List α) : List α :=
  l.filter (fun e => !decide (key e = k))

/-- Storing an entity under its key, in the place of what was stored under it. -/
def kvPut {κ α : Type} [DecidableEq κ] (key : α → κ) (v : α) (l : List α) : List α :=
  v :: kvDelete key (key v) l

/-- The key of a user, `userKey`: the user name. -/
def userKey (user : User) : String :=
  user.Name

/-- The key of a page, `pageKey`: the user name, then the page name. -/
def pageKey (page : Page) : String × String :=
  (page.UserName, page.Name)

/-- The key of an item stored with the page it belongs to, `itemKey`: the key of
the page, then the item id. -/
def itemKey (e : (String × String) × Item) : String × String × String :=
  (e.1.1, e.1.2, e.2.ID)

/-- The key of a Usage record stored with the page it belongs to, `usageKey`: the
key of the page, then the image id. -/
def usageKey (e : (String × String) × Usage) : String × String × String :=
  (e.1.1, e.1.2, e.2.UploadInfoKey)

/-- The entities of the datastore, one list per kind.  Every entity is stored
under the key that the repository computes for it: a `User` under its name, a
`Page` under its user and page names, an `Item` and a `Usage` under the key of
their page and their item or image id; items and Usage records are listed with
the names of the page they belong to.  An `Identity` is stored under a key
that the datastore allocates (`NewIncompleteKey`), so the identities are a
plain list. -/
structure Datastore where
  users : List User
  identities : List Identity
  pages : List Page
  items : List ((String × String) × Item)
  usages : List ((String × String) × Usage)
deriving DecidableEq, Repr

/-- The datastore that holds nothing. -/
def Datastore.empty : Datastore :=
  { users := [], identities := [], pages := [], items := [], usages := [] }

/-- The page stored under `(userName, pageName)`, if any. -/
def Datastore.page? (ds : Datastore) (userName pageName : String) : Option Page :=
  kvGet pageKey (userName, pageName) ds.pages

/-- The item stored under `(userName, pageName, itemID)`, if any. -/
def Datastore.item? (ds : Datastore) (userName pageName itemID : String) : Option Item :=
  (kvGet itemKey (userName, pageName, itemID) ds.items).map (fun e => e.2)

/-- The user stored under `userName`, if any. -/
def Datastore.user? (ds : Datastore) (userName : String) : Option User :=
  kvGet userKey userName ds.users

/-- The image ids of the Usage records stored under the page
`(userName, pageName)`. -/
def Datastore.usagesOf (ds : Datastore) (userName pageName : String) : List String :=
  (ds.usages.filter (fun e => decide (e.1 = (userName, pageName)))).map
    (fun e => e.2.UploadInfoKey)

/-- The items stored under the page `(userName, pageName)`. -/
def Datastore.itemsOf (ds : Datastore) (userName pageName : String) : List Item :=
  (ds.items.filter (fun e => decide (e.1 = (userName, pageName)))).map (fun e => e.2)

/-- The `repository` of `ae/contentRepository.go` with what its context reaches:
the entities of the datastore and the outcomes of the coming datastore calls. -/
structure Repository where
  ds : Datastore
  faults : List Bool
deriving DecidableEq, Repr

/-- One call to the datastore service: it fails when the next outcome in `faults`
says so, and succeeds otherwise (also when no outcome is left). -/
def Repository.call (repo : Repository) : Option Error × Repository :=
  (if repo.faults.head? = some true then some Error.datastore else none,
    { repo with faults := repo.faults.tail })

/-- The end of `datastore.RunInTransaction` on the result of the transaction
function, `repo` being the repository before the transaction: an error of the
function rolls every write back; otherwise the writes are committed, unless the
commit itself fails, which rolls them back too. -/
def Repository.commit {α : Type} (repo : Repository) (r : Except Error α × Repository) :
    Except Error α × Repository :=
  match r with
  | (Except.error err, txRepo) => (Except.error err, { repo with faults := txRepo.faults })
  | (Except.ok a, txRepo) =>
    match txRepo.call with
    | (some err, endRepo) => (Except.error err, { repo with faults := endRepo.faults })
    | (none, endRepo) => (Except.ok a, endRepo)

/-- The method `RunInTransaction`. -/
def Repository.RunInTransaction {α : Type} (repo : Repository)
    (f : Repository → Except Error α × Repository) : Except Error α × Repository :=
  repo.commit (f repo)

/-- The method `GetPage`. -/
def Repository.GetPage (repo : Repository) (userName pageName : String) :
    Except Error Page × Repository :=
  match repo.call with
  | (some err, repo) => (Except.error err, repo)
  | (none, repo) =>
    match repo.ds.page? userName pageName with
    | none => (Except.error (Error.NotInDatastoreError "Page" pageName), repo)
    | some page => (Except.ok page, repo)

/-- The method `StorePage`. -/
def Repository.StorePage (repo : Repository) (page : Page) : Option Error × Repository :=
  match repo.call with
  | (some err, repo) => (some err, repo)
  | (none, repo) =>
    (none, { repo with ds := { repo.ds with
      pages := kvPut pageKey page repo.ds.pages } })

/-- The method `DeletePage`. -/
def Repository.DeletePage (repo : Repository) (userName pageName : String) :
    Option Error × Repository :=
  match repo.call with
  | (some err, repo) => (some err, repo)
  | (none, repo) =>
    (none, { repo with ds := { repo.ds with
      pages := kvDelete pageKey (userName, pageName) repo.ds.pages } })

/-- The method `FindItem`. -/
def Repository.FindItem (repo : Repository) (userName pageName itemID : String) :
    Except Error Bool × Repository :=
  match repo.call with
  | (some err, repo) => (Except.error err, repo)
  | (none, repo) =>
    match repo.ds.item? userName pageName itemID with
    | none => (Except.ok false, repo)
    | some _ => (Except.ok true, repo)

/-- The method `GetItem`. -/
def Repository.GetItem (repo : Repository) (userName pageName itemID : String) :
    Except Error Item × Repository :=
  match repo.call with
  | (some err, repo) => (Except.error err, repo)
  | (none, repo) =>
    match repo.ds.item? userName pageName itemID with
    | none => (Except.error (Error.NotInDatastoreError "Item" itemID), repo)
    | some item => (Except.ok item, repo)

/-- The method `StoreItem`. -/
def Repository.StoreItem (repo : Repository) (userName pageName : String) (i : Item) :
    Option Error × Repository :=
  match repo.call with
  | (some err, repo) => (some err, repo)
  | (none, repo) =>
    (none, { repo with ds := { repo.ds with
      items := kvPut itemKey ((userName, pageName), i) repo.ds.items } })

/-- The method `DeleteItem`. -/
def Repository.DeleteItem (repo : Repository) (userName pageName itemID : String) :
    Option Error × Repository :=
  match repo.call with
  | (some err, repo) => (some err, repo)
  | (none, repo) =>
    (none, { repo with ds := { repo.ds with
      items := kvDelete itemKey (userName, pageName, itemID) repo.ds.items } })

/-- The method `DeleteItemsFromPage`: a keys-only ancestor query, then
`DeleteMulti` on the keys found. -/
def Repository.DeleteItemsFromPage (repo : Repository) (userName pageName : String) :
    Option Error × Repository :=
  match repo.call with
  | (some err, repo) => (some err, repo)
  | (none, repo) =>
    match repo.call with
    | (some err, repo) => (some err, repo)
    | (none, repo) =>
      (none, { repo with ds := { repo.ds with
        items := repo.ds.items.filter
          (fun e => !decide (e.1 = (userName, pageName))) } })

/-- The method `FindUser`. -/
def Repository.FindUser (repo : Repository) (userName : String) :
    Except Error Bool × Repository :=
  match repo.call with
  | (some err, repo) => (Except.error err, repo)
  | (none, repo) =>
    match repo.ds.user? userName with
    | none => (Except.ok false, repo)
    | some _ => (Except.ok true, repo)

/-- The method `GetIdentity`: the first identity that the query on the provider
and the external id finds. -/
def Repository.GetIdentity (repo : Repository) (ident : Ident) :
    Except Error Identity × Repository :=
  match repo.call with
  | (some err, repo) => (Except.error err, repo)
  | (none, repo) =>
    match repo.ds.identities.find?
        (fun id => decide (id.Provider = ident.Provider ∧ id.Identity = ident.Identity)) with
    | none => (Except.error (Error.NotInDatastoreError "Identity" ident.Identity), repo)
    | some id => (Except.ok id, repo)

/-- The method `StoreUser`. -/
def Repository.StoreUser (repo : Repository) (user : User) : Option Error × Repository :=
  match repo.call with
  | (some err, repo) => (some err, repo)
  | (none, repo) =>
    (none, { repo with ds := { repo.ds with users := kvPut userKey user repo.ds.users } })

/-- The method `StoreIdentity`: the identity is put under a new key. -/
def Repository.StoreIdentity (repo : Repository) (identity : Identity) :
    Option Error × Repository :=
  match repo.call with
  | (some err, repo) => (some err, repo)
  | (none, repo) =>
    (none, { repo with ds := { repo.ds with identities := repo.ds.identities ++ [identity] } })

/-- The method `StoreUsage`. -/
def Repository.StoreUsage (repo : Repository) (userName pageName imgID : String) :
    Option Error × Repository :=
  match repo.call with
  | (some err, repo) => (some err, repo)
  | (none, repo) =>
    (none, { repo with ds := { repo.ds with
      usages := kvPut usageKey ((userName, pageName), { UploadInfoKey := imgID }) repo.ds.usages } })

/-- The method `DeleteUsages`: a keys-only ancestor query, then `DeleteMulti` on
the keys found. -/
def Repository.DeleteUsages (repo : Repository) (userName pageName : String) :
    Option Error × Repository :=
  match repo.call with
  | (some err, repo) => (some err, repo)
  | (none, repo) =>
    match repo.call with
    | (some err, repo) => (some err, repo)
    | (none, repo) =>
      (none, { repo with ds := { repo.ds with
        usages := repo.ds.usages.filter
          (fun e => !decide (e.1 = (userName, pageName))) } })

/-! ## The application (`app.go`) -/

/-- UserInteractor of `interactors.go`, for one request: what `CurrentIdentity`
and `CurrentUserIsAdmin` return. -/
structure UserInteractor where
  CurrentIdentity : Except Error Ident
  CurrentUserIsAdmin : Bool

/-- App of `app.go`: the repository and the user interactor. -/
structure App where
  repository : Repository
  userInteractor : UserInteractor

/-- The zero value `Identity{}`. -/
def Identity.zero : Identity :=
  { Provider := "", Identity := "", UserName := "" }

/-- App.CurrentIdentity: the identity and the error that the Go method returns
together. -/
def App.CurrentIdentity (app : App) : (Identity × Option Error) × App :=
  match app.userInteractor.CurrentIdentity with
  | Except.error err => ((Identity.zero, some err), app)
  | Except.ok ident =>
    if ident.Identity = "" then ((Identity.zero, none), app)
    else
      match app.repository.GetIdentity ident with
      | (Except.error (Error.NotInDatastoreError _ _), repo) =>
        (({ toIdent := ident, UserName := "" }, some Error.ErrFirstUserConnection),
          { app with repository := repo })
      | (Except.error err, repo) => ((Identity.zero, some err), { app with repository := repo })
      | (Except.ok id, repo) => ((id, none), { app with repository := repo })

/-- App.CurrentUserName: the empty string when not logged in. -/
def App.CurrentUserName (app : App) : String × App :=
  match app.CurrentIdentity with
  | ((_, some _), app) => ("", app)
  | ((identity, none), app) => (identity.UserName, app)

/-- A character of the class `[a-z0-9_\-]`. -/
def userNameChar (c : Char) : Bool :=
  decide (('a' ≤ c ∧ c ≤ 'z') ∨ ('0' ≤ c ∧ c ≤ '9') ∨ c = '_' ∨ c = '-')

/-- A match of `[a-z0-9_\-]{3,}` starts at the head of the characters: the first
three characters are of the class. -/
def userNameMatchAt : List Char → Bool
  | a :: b :: c :: _ => userNameChar a && userNameChar b && userNameChar c
  | _ => false

/-- The call `regexp.MatchString("[a-z0-9_\\-]{3,}", userName)`: whether the
string contains a match of the pattern, at any position.  The pattern compiles,
so the error of the call is always nil. -/
def userNameMatch : List Char → Bool
  | [] => false
  | c :: rest => userNameMatchAt (c :: rest) || userNameMatch rest

/-- The transaction function of `CreateUser`. -/
def createUserTx (user : User) (identity : Identity) (userName : String) (repo : Repository) :
    Except Error Unit × Repository :=
  match repo.FindUser userName with
  | (Except.error err, repo) => (Except.error err, repo)
  | (Except.ok true, repo) =>
    (Except.error (Error.errorString "The selected user name already exists"), repo)
  | (Except.ok false, repo) =>
    match repo.StoreUser user with
    | (some err, repo) => (Except.error err, repo)
    | (none, repo) =>
      match repo.StoreIdentity identity with
      | (some err, repo) => (Except.error err, repo)
      | (none, repo) => (Except.ok (), repo)

/-- The error of a result, `nil` when there is none. -/
def errorOf {α : Type} : Except Error α → Option Error
  | Except.error err => some err
  | Except.ok _ => none

/-- App.CreateUser. -/
def App.CreateUser (app : App) (ident : Ident) (userName : String) : Option Error × App :=
  if !userNameMatch userName.data then
    (some (Error.errorString "The selected user name does not follow the required pattern."), app)
  else
    let user : User := { Name := userName, Kind := UserKindUSER, FullName := userName }
    let identity : Identity := { toIdent := ident, UserName := userName }
    match app.repository.RunInTransaction (createUserTx user identity userName) with
    | (r, repo) => (errorOf r, { app with repository := repo })

/-- App.GetPage. -/
def App.GetPage (app : App) (userName pageName : String) : Except Error Page × App :=
  match app.repository.GetPage userName pageName with
  | (Except.error err, repo) => (Except.error err, { app with repository := repo })
  | (Except.ok page, repo) =>
    if page.Policy = PolicyPRIVATE then
      match App.CurrentUserName { app with repository := repo } with
      | (currentUserName, app) =>
        if currentUserName ≠ userName then
          (Except.error (Error.NotAuthorizedError "Read page"), app)
        else (Except.ok page, app)
    else (Except.ok page, { app with repository := repo })

/-- The transaction function of `CreatePage`. -/
def createPageTx (page : Page) (repo : Repository) : Except Error Unit × Repository :=
  match repo.GetPage page.UserName page.Name with
  | (Except.ok _, repo) => (Except.error (Error.errorString "Page already exists"), repo)
  | (Except.error (Error.NotInDatastoreError _ _), repo) =>
    match repo.StorePage page with
    | (some err, repo) => (Except.error err, repo)
    | (none, repo) => (Except.ok (), repo)
  | (Except.error err, repo) => (Except.error err, repo)

/-- The page that `CreatePage` stores: owned by the current user, both dates at
the call time, the policy PRIVATE when none is given. -/
def createdPage (currentUserName : String) (now : Time) (page : Page) : Page :=
  let page := { page with
    UserName := currentUserName, LastModificationDate := now, CreationDate := now }
  if page.Policy = "" then { page with Policy := PolicyPRIVATE } else page

/-- App.CreatePage. -/
def App.CreatePage (app : App) (now : Time) (page : Page) : Option Error × App :=
  match app.CurrentUserName with
  | (currentUserName, app) =>
    if currentUserName = "" then (some (Error.NotAuthorizedError "Update page"), app)
    else
      match app.repository.RunInTransaction (createPageTx (createdPage currentUserName now page)) with
      | (r, repo) => (errorOf r, { app with repository := repo })

/-- The loop `for _, t := range pageTags` of `UpdatePage`: a Usage record for the
value of every tag described with the kind "imageId". -/
def storeUsages (page : Page) : TagDescriptionList → Repository → Option Error × Repository
  | [], repo => (none, repo)
  | t :: rest, repo =>
    if t.Kind = "imageId" then
      match repo.StoreUsage page.UserName page.Name (page.Tags.Tag t.Key) with
      | (some err, repo) => (some err, repo)
      | (none, repo) => storeUsages page rest repo
    else storeUsages page rest repo

/-- The transaction function of `UpdatePage`. -/
def updatePageTx (page : Page) (pageTags : TagDescriptionList) (repo : Repository) :
    Except Error Unit × Repository :=
  match repo.GetPage page.UserName page.Name with
  | (Except.error err, repo) => (Except.error err, repo)
  | (Except.ok oldPage, repo) =>
    let page := { page with CreationDate := oldPage.CreationDate }
    match repo.DeleteUsages page.UserName page.Name with
    | (some err, repo) => (Except.error err, repo)
    | (none, repo) =>
      match storeUsages page pageTags repo with
      | (some err, repo) => (Except.error err, repo)
      | (none, repo) =>
        match repo.StorePage page with
        | (some err, repo) => (Except.error err, repo)
        | (none, repo) => (Except.ok (), repo)

/-- App.UpdatePage. -/
def App.UpdatePage (app : App) (now : Time) (page : Page) (pageTags : TagDescriptionList) :
    Option Error × App :=
  match app.CurrentUserName with
  | (currentUserName, app) =>
    if currentUserName = "" ∨ currentUserName ≠ page.UserName then
      (some (Error.NotAuthorizedError "Update page"), app)
    else
      match app.repository.RunInTransaction
          (updatePageTx { page with LastModificationDate := now } pageTags) with
      | (r, repo) => (errorOf r, { app with repository := repo })

/-- The transaction function of `UpdateTemplate`. -/
def updateTemplateTx (userName pageName newTemplateID : String) (tNow : Time)
    (repo : Repository) : Except Error Unit × Repository :=
  match repo.GetPage userName pageName with
  | (Except.error err, repo) => (Except.error err, repo)
  | (Except.ok page, repo) =>
    if page.TemplateID = newTemplateID then (Except.ok (), repo)
    else
      match repo.StorePage { page with
          LastModificationDate := tNow, TemplateID := newTemplateID } with
      | (some err, repo) => (Except.error err, repo)
      | (none, repo) => (Except.ok (), repo)

/-- App.UpdateTemplate. -/
def App.UpdateTemplate (app : App) (now : Time) (userName pageName newTemplateID : String) :
    Option Error × App :=
  match app.CurrentUserName with
  | (currentUserName, app) =>
    if currentUserName = "" ∨ currentUserName ≠ userName then
      (some (Error.NotAuthorizedError "Update page"), app)
    else
      match app.repository.RunInTransaction
          (updateTemplateTx userName pageName newTemplateID now) with
      | (r, repo) => (errorOf r, { app with repository := repo })

/-- App.DeletePage: the items, then the page, outside of any transaction. -/
def App.DeletePage (app : App) (userName pageName : String) : Option Error × App :=
  match app.CurrentUserName with
  | (currentUserName, app) =>
    if currentUserName = "" ∨ currentUserName ≠ userName then
      (some (Error.NotAuthorizedError "Delete page"), app)
    else
      match app.repository.DeleteItemsFromPage userName pageName with
      | (some err, repo) => (some err, { app with repository := repo })
      | (none, repo) =>
        match repo.DeletePage userName pageName with
        | (some err, repo) => (some err, { app with repository := repo })
        | (none, repo) => (none, { app with repository := repo })

/-- The loop of `CreateItem` that looks for an unused item id.  `generateID k` is
the id that the `k`-th call of `generateID()` returns, and `i.ID` is
`generateID k` when the loop is entered; `fuel` bounds the number of
iterations, and there is no result (`none`) when it runs out. -/
def uniqueItemID (generateID : Nat → String) (userName pageName : String) :
    Nat → Nat → Repository → Option (Except Error String × Repository)
  | 0, _, _ => none
  | fuel + 1, k, repo =>
    match repo.FindItem userName pageName (generateID k) with
    | (Except.error err, repo) => some (Except.error err, repo)
    | (Except.ok false, repo) => some (Except.ok (generateID k), repo)
    | (Except.ok true, repo) => uniqueItemID generateID userName pageName fuel (k + 1) repo

/-- The first transaction function of `CreateItem`; it returns the item with the
id it was stored under. -/
def createItemTx (generateID : Nat → String) (fuel : Nat) (userName pageName : String)
    (i : Item) (repo : Repository) : Option (Except Error Item × Repository) :=
  match uniqueItemID generateID userName pageName fuel 0 repo with
  | none => none
  | some (Except.error err, repo) => some (Except.error err, repo)
  | some (Except.ok id, repo) =>
    match repo.StoreItem userName pageName { i with ID := id } with
    | (some err, repo) => some (Except.error err, repo)
    | (none, repo) => some (Except.ok { i with ID := id }, repo)

/-- The second transaction function of `CreateItem`, `PutItem`, `UpdateItem` and
`SetItemTag`: it sets the `LastModificationDate` of the page. -/
def pageDateTx (userName pageName : String) (date : Time) (repo : Repository) :
    Except Error Unit × Repository :=
  match repo.GetPage userName pageName with
  | (Except.error err, repo) => (Except.error err, repo)
  | (Except.ok page, repo) =>
    match repo.StorePage { page with LastModificationDate := date } with
    | (some err, repo) => (Except.error err, repo)
    | (none, repo) => (Except.ok (), repo)

/-- The end of `CreateItem`, `PutItem` and `UpdateItem` after the first
transaction: its error is returned, otherwise the second transaction runs and
the item is returned. -/
def thenPageDate (app : App) (userName pageName : String)
    (r : Except Error Item × Repository) : Except Error Item × App :=
  match r with
  | (Except.error err, repo) => (Except.error err, { app with repository := repo })
  | (Except.ok i, repo) =>
    match repo.RunInTransaction (pageDateTx userName pageName i.LastModificationDate) with
    | (Except.error err, repo) => (Except.error err, { app with repository := repo })
    | (Except.ok _, repo) => (Except.ok i, { app with repository := repo })

/-- App.CreateItem.  `markdownToHTML` is the rendering of `utils.go`; the text of
the error for an empty item stands for the formatted one. -/
def App.CreateItem (app : App) (now : Time) (markdownToHTML : String → String)
    (generateID : Nat → String) (fuel : Nat) (userName pageName : String) (i : Item) :
    Option (Except Error Item × App) :=
  match app.CurrentUserName with
  | (currentUserName, app) =>
    if currentUserName = "" ∨ currentUserName ≠ userName then
      some (Except.error (Error.NotAuthorizedError "Store item"), app)
    else if i.Content = "" ∧ i.URL = "" then
      some (Except.error (Error.errorString
        "Empty item not allowed. Either content or URL must be provided: %#v"), app)
    else
      match createItemTx generateID fuel userName pageName
          { i with HTMLContent := markdownToHTML i.Content,
                   CreationDate := now, LastModificationDate := now } app.repository with
      | none => none
      | some r => some (thenPageDate app userName pageName (app.repository.commit r))

/-- The first transaction function of `PutItem`. -/
def putItemTx (userName pageName : String) (i : Item) (repo : Repository) :
    Except Error Item × Repository :=
  match repo.StoreItem userName pageName i with
  | (some err, repo) => (Except.error err, repo)
  | (none, repo) => (Except.ok i, repo)

/-- App.PutItem. -/
def App.PutItem (app : App) (markdownToHTML : String → String) (userName pageName : String)
    (i : Item) : Except Error Item × App :=
  match app.CurrentUserName with
  | (currentUserName, app) =>
    if currentUserName = "" ∨ currentUserName ≠ userName then
      (Except.error (Error.NotAuthorizedError "Store item"), app)
    else if i.Content = "" ∧ i.URL = "" then
      (Except.error (Error.errorString
        "Empty item not allowed. Either content or URL must be provided."), app)
    else
      thenPageDate app userName pageName
        (app.repository.RunInTransaction
          (putItemTx userName pageName { i with HTMLContent := markdownToHTML i.Content }))

/-- The first transaction function of `UpdateItem`. -/
def updateItemTx (userName pageName : String) (i : Item) (updateTags : Bool)
    (repo : Repository) : Except Error Item × Repository :=
  match repo.GetItem userName pageName i.ID with
  | (Except.error err, repo) => (Except.error err, repo)
  | (Except.ok oldItem, repo) =>
    let i := { i with CreationDate := oldItem.CreationDate }
    let i := if !updateTags then { i with Tags := oldItem.Tags } else i
    match repo.StoreItem userName pageName i with
    | (some err, repo) => (Except.error err, repo)
    | (none, repo) => (Except.ok i, repo)

/-- App.UpdateItem. -/
def App.UpdateItem (app : App) (now : Time) (markdownToHTML : String → String)
    (userName pageName : String) (i : Item) (updateTags : Bool) : Except Error Item × App :=
  match app.CurrentUserName with
  | (currentUserName, app) =>
    if currentUserName = "" ∨ currentUserName ≠ userName then
      (Except.error (Error.NotAuthorizedError "Store item"), app)
    else if i.Content = "" ∧ i.URL = "" then
      (Except.error (Error.errorString
        "Empty item not allowed. Either content or URL must be provided."), app)
    else
      thenPageDate app userName pageName
        (app.repository.RunInTransaction
          (updateItemTx userName pageName
            { i with HTMLContent := markdownToHTML i.Content, LastModificationDate := now }
            updateTags))

/-- The first transaction function of `SetItemTag`. -/
def setItemTagTx (userName pageName itemID tagKey tagValue : String) (tNow : Time)
    (repo : Repository) : Except Error Unit × Repository :=
  match repo.GetItem userName pageName itemID with
  | (Except.error err, repo) => (Except.error err, repo)
  | (Except.ok oldItem, repo) =>
    match repo.StoreItem userName pageName
        { oldItem with LastModificationDate := tNow,
                       Tags := oldItem.Tags.SetTag tagKey tagValue } with
    | (some err, repo) => (Except.error err, repo)
    | (none, repo) => (Except.ok (), repo)

/-- App.SetItemTag. -/
def App.SetItemTag (app : App) (now : Time) (userName pageName itemID tagKey tagValue : String) :
    Option Error × App :=
  match app.CurrentUserName with
  | (currentUserName, app) =>
    if currentUserName = "" ∨ currentUserName ≠ userName then
      (some (Error.NotAuthorizedError "Store item"), app)
    else if tagKey = "" then
      (some (Error.errorString "Empty tag key not allowed."), app)
    else
      match app.repository.RunInTransaction
          (setItemTagTx userName pageName itemID tagKey tagValue now) with
      | (Except.error err, repo) => (some err, { app with repository := repo })
      | (Except.ok _, repo) =>
        match repo.RunInTransaction (pageDateTx userName pageName now) with
        | (r, repo) => (errorOf r, { app with repository := repo })

/-- App.DeleteItem. -/
def App.DeleteItem (app : App) (userName pageName itemID : String) : Option Error × App :=
  match app.CurrentUserName with
  | (currentUserName, app) =>
    if currentUserName = "" ∨ currentUserName ≠ userName then
      (some (Error.NotAuthorizedError "Delete page"), app)
    else
      match app.repository.DeleteItem userName pageName itemID with
      | (r, repo) => (r, { app with repository := repo })

/-- The Usage records that the loop of `UpdatePage` leaves when each of its calls
succeeds: one more record per tag description of kind "imageId". -/
def usagesStored (page : Page) :
    TagDescriptionList → List ((String × String) × Usage) →
      List ((String × String) × Usage)
  | [], usages => usages
  | t :: rest, usages =>
    if t.Kind = "imageId" then
      usagesStored page rest
        (kvPut usageKey ((page.UserName, page.Name), { UploadInfoKey := page.Tags.Tag t.Key })
          usages)
    else usagesStored page rest usages

/-- The user names that the specification admits, `[a-z0-9_-]{3,}` read as a
pattern for the whole name: three or more characters, each of the class. -/
def specUserName (userName : String) : Bool :=
  decide (3 ≤ userName.data.length) && userName.data.all userNameChar

/-! ## Effects and invariants -/

/-- The datastores reached from a datastore without pages through successful
calls of CreatePage and UpdatePage, by any callers, at any times and with any
failures of the datastore; `createOk` and `updateOk` restrict the pages that
are passed to the two operations. -/
inductive PagesReachable (createOk updateOk : Page → Prop) : Datastore → Prop where
  | start (ds : Datastore) (h : ds.pages = []) : PagesReachable createOk updateOk ds
  | createPage (app : App) (now : Time) (page : Page)
      (hreach : PagesReachable createOk updateOk app.repository.ds)
      (hpage : createOk page)
      (hok : (app.CreatePage now page).1 = none) :
      PagesReachable createOk updateOk (app.CreatePage now page).2.repository.ds
  | updatePage (app : App) (now : Time) (page : Page) (pageTags : TagDescriptionList)
      (hreach : PagesReachable createOk updateOk app.repository.ds)
      (hpage : updateOk page)
      (hok : (app.UpdatePage now page pageTags).1 = none) :
      PagesReachable createOk updateOk (app.UpdatePage now page pageTags).2.repository.ds

/-- A policy of the data model: PRIVATE or PUBLIC. -/
def knownPolicy (policy : Policy) : Prop :=
  policy = PolicyPRIVATE ∨ policy = PolicyPUBLIC

/-- The effect of the operations that write an item: the item is stored under
the page `(userName, pageName)`, and the stored page gets the last modification
date of the item. -/
def itemWritten (ds ds' : Datastore) (userName pageName : String) (stored : Item) : Prop :=
  ∃ page, ds.page? userName pageName = some page ∧
    ds' = { ds with
      items := kvPut itemKey ((userName, pageName), stored) ds.items,
      pages := kvPut pageKey
        { page with LastModificationDate := stored.LastModificationDate } ds.pages }

/-- The consistency of the dates of a datastore: no stored page is older than an
item stored under it. -/
def pageDatesCover (ds : Datastore) : Prop :=
  ∀ userName pageName itemID page item,
    ds.page? userName pageName = some page →
    ds.item? userName pageName itemID = some item →
    item.LastModificationDate ≤ page.LastModificationDate

/-- No stored item is dated after the time `t`. -/
def itemsNotAfter (ds : Datastore) (t : Time) : Prop :=
  ∀ userName pageName itemID item,
    ds.item? userName pageName itemID = some item → item.LastModificationDate ≤ t

/-- The datastores reached, with the time of the last call, from a datastore
without pages and items through successful calls of the use-case operations,
by any callers and with any failures of the datastore, the clock never going
back; `putOk` restricts the items that are passed to PutItem. -/
inductive Reachable (putOk : Datastore → Time → String → String → Item → Prop) :
    Datastore → Time → Prop where
  | start (ds : Datastore) (t : Time) (hpages : ds.pages = []) (hitems : ds.items = []) :
      Reachable putOk ds t
  | createUser (app : App) (t now : Time) (ident : Ident) (userName : String)
      (hreach : Reachable putOk app.repository.ds t) (hclock : t ≤ now)
      (hok : (app.CreateUser ident userName).1 = none) :
      Reachable putOk (app.CreateUser ident userName).2.repository.ds now
  | createPage (app : App) (t now : Time) (page : Page)
      (hreach : Reachable putOk app.repository.ds t) (hclock : t ≤ now)
      (hok : (app.CreatePage now page).1 = none) :
      Reachable putOk (app.CreatePage now page).2.repository.ds now
  | updatePage (app : App) (t now : Time) (page : Page) (pageTags : TagDescriptionList)
      (hreach : Reachable putOk app.repository.ds t) (hclock : t ≤ now)
      (hok : (app.UpdatePage now page pageTags).1 = none) :
      Reachable putOk (app.UpdatePage now page pageTags).2.repository.ds now
  | updateTemplate (app : App) (t now : Time) (userName pageName newTemplateID : String)
      (hreach : Reachable putOk app.repository.ds t) (hclock : t ≤ now)
      (hok : (app.UpdateTemplate now userName pageName newTemplateID).1 = none) :
      Reachable putOk (app.UpdateTemplate now userName pageName newTemplateID).2.repository.ds now
  | createItem (app app' : App) (t now : Time) (markdownToHTML : String → String)
      (generateID : Nat → String) (fuel : Nat) (userName pageName : String) (i j : Item)
      (hreach : Reachable putOk app.repository.ds t) (hclock : t ≤ now)
      (hok : app.CreateItem now markdownToHTML generateID fuel userName pageName i =
        some (Except.ok j, app')) :
      Reachable putOk app'.repository.ds now
  | putItem (app : App) (t now : Time) (markdownToHTML : String → String)
      (userName pageName : String) (i j : Item)
      (hreach : Reachable putOk app.repository.ds t) (hclock : t ≤ now)
      (hitem : putOk app.repository.ds now userName pageName i)
      (hok : (app.PutItem markdownToHTML userName pageName i).1 = Except.ok j) :
      Reachable putOk (app.PutItem markdownToHTML userName pageName i).2.repository.ds now
  | updateItem (app : App) (t now : Time) (markdownToHTML : String → String)
      (userName pageName : String) (i j : Item) (updateTags : Bool)
      (hreach : Reachable putOk app.repository.ds t) (hclock : t ≤ now)
      (hok : (app.UpdateItem now markdownToHTML userName pageName i updateTags).1 =
        Except.ok j) :
      Reachable putOk
        (app.UpdateItem now markdownToHTML userName pageName i updateTags).2.repository.ds now
  | setItemTag (app : App) (t now : Time) (userName pageName itemID tagKey tagValue : String)
      (hreach : Reachable putOk app.repository.ds t) (hclock : t ≤ now)
      (hok : (app.SetItemTag now userName pageName itemID tagKey tagValue).1 = none) :
      Reachable putOk
        (app.SetItemTag now userName pageName itemID tagKey tagValue).2.repository.ds now
  | deleteItem (app : App) (t now : Time) (userName pageName itemID : String)
      (hreach : Reachable putOk app.repository.ds t) (hclock : t ≤ now)
      (hok : (app.DeleteItem userName pageName itemID).1 = none) :
      Reachable putOk (app.DeleteItem userName pageName itemID).2.repository.ds now

/-- The items that keep the dates consistent when passed to PutItem at the time
`now`: dated not after `now` and not before any item stored under the page. -/
def datedForPut (ds : Datastore) (now : Time) (userName pageName : String) (i : Item) : Prop :=
  i.LastModificationDate ≤ now ∧
  ∀ itemID item, ds.item? userName pageName itemID = some item →
    item.LastModificationDate ≤ i.LastModificationDate

/-- No restriction on the items passed to PutItem. -/
def anyItem (_ : Datastore) (_ : Time) (_ _ : String) (_ : Item) : Prop := True

/-- The values of the tags of the page that are present in its tag list and whose
key the schema describes with the kind "imageId": the Usage records that the
specification expects after UpdatePage. -/
def imageTagValues (page : Page) (schema : TagDescriptionList) : List String :=
  (page.Tags.filter
    (fun tag => schema.any (fun t => decide (t.Kind = "imageId" ∧ t.Key = tag.Key)))).map
    (fun tag => tag.Value)

/-! ## Example values -/

/-- The external identity of the user alice. -/
def aliceIdent : Ident := ⟨"Google", "1001"⟩

/-- The external identity of the user bob. -/
def bobIdent : Ident := ⟨"Google", "1002"⟩

/-- The user interactor of a request that is not logged in. -/
def anonymous : UserInteractor := ⟨Except.ok ⟨"", ""⟩, false⟩

/-- The user interactor of a request logged in with an external identity. -/
def loggedIn (ident : Ident) : UserInteractor := ⟨Except.ok ident, false⟩

/-- The private page `(alice, blog)`. -/
def blogPage : Page :=
  { UserName := "alice", Name := "blog", CreationDate := 1, LastModificationDate := 1,
    Title := "Blog", ContentLicense := "", Policy := PolicyPRIVATE, TemplateID := "blog2col",
    Tags := [] }

/-- A datastore with the accounts of alice and bob and no page. -/
def accountsStore : Datastore :=
  { users := [⟨"alice", UserKindUSER, "alice"⟩, ⟨"bob", UserKindUSER, "bob"⟩],
    identities := [⟨aliceIdent, "alice"⟩, ⟨bobIdent, "bob"⟩],
    pages := [], items := [], usages := [] }

/-- A datastore with the accounts of alice and bob and the page `(alice, blog)`. -/
def blogStore : Datastore :=
  { accountsStore with pages := [blogPage] }

/-- An application over a datastore without failures. -/
def healthyApp (ds : Datastore) (userInteractor : UserInteractor) : App :=
  ⟨⟨ds, []⟩, userInteractor⟩

/-- An item with the text "hello", as a caller passes it to CreateItem. -/
def helloItem : Item :=
  { ID := "", CreationDate := 0, LastModificationDate := 0, Kind := "text", Title := "Hello",
    Content := "hello", HTMLContent := "", Source := "", URL := "", Tags := [] }

/-- The item `helloItem` as CreateItem stores it at time 5 under the id "a1". -/
def helloStored : Item :=
  { helloItem with ID := "a1", CreationDate := 5, LastModificationDate := 5,
                   HTMLContent := "hello" }

/-- A fully defined item, last modified at the time `t`, as a caller passes it to
PutItem. -/
def importedItem (t : Time) : Item :=
  { ID := "imported", CreationDate := 2, LastModificationDate := t, Kind := "text",
    Title := "Imported", Content := "old note", HTMLContent := "old note", Source := "",
    URL := "", Tags := [] }

/-- The datastore after alice created the item "a1" in her page at time 5. -/
def helloStore : Datastore :=
  { blogStore with
    pages := [{ blogPage with LastModificationDate := 5 }],
    items := [(("alice", "blog"), helloStored)] }

/-- The datastore after alice then put the item "imported", dated `t`. -/
def importedStore (t : Time) : Datastore :=
  { blogStore with
    pages := [{ blogPage with LastModificationDate := t }],
    items := [(("alice", "blog"), importedItem t), (("alice", "blog"), helloStored)] }

/-- The page `(alice, blog)` with a policy that is neither PRIVATE nor PUBLIC. -/
def friendsPage : Page :=
  { blogPage with Policy := "FRIENDS" }

/-- The datastore after alice created `friendsPage` at time 1. -/
def friendsStore : Datastore :=
  { accountsStore with pages := [friendsPage] }

/-- A schema with one tag of kind "imageId", the cover image. -/
def coverSchema : TagDescriptionList :=
  [{ Key := "cover", Name := "Cover", Kind := "imageId", Description := "", DefaultValue := "" }]

/-- The page `blog` as a caller supplies it with the user name of bob. -/
def bobsBlogPage : Page :=
  { blogPage with UserName := "bob" }

/-- An item without content and without URL. -/
def emptyItem : Item :=
  { helloItem with Content := "" }

/-- The tags "b" and "a", in this order: not sorted by key. -/
def unsortedTags : TagList :=
  [⟨"b", "2"⟩, ⟨"a", "1"⟩]

/-- The item "a1" of alice as a caller passes it to UpdateItem, with the tags
`unsortedTags`. -/
def retaggedItem : Item :=
  { helloItem with ID := "a1", Tags := unsortedTags }

/-- An ID generator that gives "a1" first and "a2" afterwards. -/
def exampleIDs (k : Nat) : String :=
  if k = 0 then "a1" else "a2"

/-- The item `helloItem` as CreateItem stores it at time 7 under the id "a2". -/
def secondStored : Item :=
  { helloItem with ID := "a2", CreationDate := 7, LastModificationDate := 7,
                   HTMLContent := "hello" }

/-- The datastore after alice created a second item in her page at time 7. -/
def secondStore : Datastore :=
  { blogStore with
    pages := [{ blogPage with LastModificationDate := 7 }],
    items := [(("alice", "blog"), secondStored), (("alice", "blog"), helloStored)] }

/-- The item "a1" of alice with the tags "color" and "size". -/
def taggedStored : Item :=
  { helloStored with Tags := [⟨"color", "red"⟩, ⟨"size", "L"⟩] }

/-- The datastore of alice with the item `taggedStored` in her page. -/
def taggedStore : Datastore :=
  { helloStore with items := [(("alice", "blog"), taggedStored)] }

/-- The datastore after alice called CreateItem at time 5 for her page `blog`,
which is not stored: the item "a1" is stored and the page is not. -/
def orphanStore : Datastore :=
  { accountsStore with items := [(("alice", "blog"), helloStored)] }

/-- The page `(alice, blog)` as alice passes it to UpdatePage with the cover
image "img1". -/
def coverPage : Page :=
  { blogPage with Tags := [⟨"cover", "img1"⟩] }

/-- The datastore after alice created the item "a1" at time 5 and updated her
page with the cover image "img1" at time 8: the page, the item and the Usage
record of the image under the page. -/
def coverStore : Datastore :=
  { helloStore with
    pages := [{ coverPage with LastModificationDate := 8 }],
    usages := [(("alice", "blog"), { UploadInfoKey := "img1" })] }

/-- The datastore after alice then deleted her page: the Usage record is left. -/
def leftoverStore : Datastore :=
  { accountsStore with usages := [(("alice", "blog"), { UploadInfoKey := "img1" })] }

/-- The tags "a", "c" and "b", in this order: not sorted by key. -/
def acbTags : TagList :=
  [⟨"a", "1"⟩, ⟨"c", "3"⟩, ⟨"b", "2"⟩]

/-- The description of the tag "color" with the default value "red". -/
def colorDefault : TagDescription :=
  { Key := "color", Name := "Color", Kind := "text", Description := "", DefaultValue := "red" }

/-- The description of the tag "size" without default value. -/
def sizeDefault : TagDescription :=
  { Key := "size", Name := "Size", Kind := "text", Description := "", DefaultValue := "" }

/-- The external identity of carol, who has no account. -/
def carolIdent : Ident := ⟨"Google", "1003"⟩

/-! ## Queries on the datastore (`ae/contentRepository.go`) and the lists of pages (`app.go`) -/

/-- The error values that a call of the package `datastore` returns to the
repository: the sentinel `datastore.ErrNoSuchEntity`, and any other error. -/
inductive DatastoreError where
  | ErrNoSuchEntity
  | other (err : Error)
deriving DecidableEq, Repr

/-- The call `datastore.NewQuery("Usage").Filter("UploadInfoKey =",
imgID).Limit(limit).KeysOnly().GetAll(repo.c, nil)`: the keys of the first
`limit` Usage records that reference `imgID`, under any page, and the error of
the call.  `GetAll` reports an empty result as an empty slice of keys with a nil
error: `ErrNoSuchEntity` is the error of `Get`, and no outcome of `GetAll`. -/
def Repository.usageKeys (repo : Repository) (imgID : String) (limit : Nat) :
    (List (String × String × String) × Option DatastoreError) × Repository :=
  match repo.call with
  | (some err, repo) => (([], some (DatastoreError.other err)), repo)
  | (none, repo) =>
    ((((repo.ds.usages.filter (fun e => decide (e.2.UploadInfoKey = imgID))).take limit).map
      usageKey, none), repo)

/-- The method `IsUsed`: the keys that the query returns are dropped, and the
answer is `err == nil`. -/
def Repository.IsUsed (repo : Repository) (imgID : String) :
    (Bool × Option Error) × Repository :=
  match repo.usageKeys imgID 1 with
  | ((_, some (DatastoreError.other err)), repo) => ((false, some err), repo)
  | ((_, err), repo) => ((decide (err = none), none), repo)

/-- The value of a Go `int`, 64 bits wide, for the integer `x`. -/
def wrapInt (x : Int) : Int :=
  (x + 2 ^ 63) % 2 ^ 64 - 2 ^ 63

/-- The white space of `unicode.IsSpace`. -/
def isSpace (c : Char) : Bool :=
  (9 ≤ c.toNat && c.toNat ≤ 13) || c.toNat = 32 || c.toNat = 0x85 || c.toNat = 0xA0 ||
    c.toNat = 0x1680 || (0x2000 ≤ c.toNat && c.toNat ≤ 0x200a) || c.toNat = 0x2028 ||
    c.toNat = 0x2029 || c.toNat = 0x202f || c.toNat = 0x205f || c.toNat = 0x3000

/-- The function `strings.TrimSpace`, on the characters of the string. -/
def trimSpace (s : List Char) : List Char :=
  ((s.dropWhile isSpace).reverse.dropWhile isSpace).reverse

/-- The function `strings.TrimRight`, on the characters of the string. -/
def trimRight (s cutset : List Char) : List Char :=
  (s.reverse.dropWhile (fun c => cutset.contains c)).reverse

/-- What the repository uses of a `datastore.Query` on the kind Page: the filters,
the sort orders (the first one is the primary one), the limit (an `int32`;
negative: no limit) and the error that a method of the builder recorded.  The
model keeps that there is such an error, not its text. -/
structure Query where
  filter : List (Page → Bool)
  order : List (Page → Page → Bool)
  limit : Int
  err : Option Error

/-- The call `datastore.NewQuery("Page")`. -/
def NewQuery : Query :=
  { filter := [], order := [], limit := -1, err := none }

/-- The properties of a stored Page that hold a string, by the name of the
property. -/
def pageString (name : String) (page : Page) : Option String :=
  if name = "UserName" then some page.UserName
  else if name = "Name" then some page.Name
  else if name = "Title" then some page.Title
  else if name = "ContentLicense" then some page.ContentLicense
  else if name = "Policy" then some page.Policy
  else if name = "TemplateID" then some page.TemplateID
  else none

/-- The comparison of an operator of a filter, between the value of a property
and the value of the filter. -/
def filterTest (op : String) : Option (String → String → Bool) :=
  if op = "=" then some (fun a b => decide (a = b))
  else if op = "<" then some (fun a b => stringLess a b)
  else if op = ">" then some (fun a b => stringLess b a)
  else if op = "<=" then some (fun a b => !stringLess b a)
  else if op = ">=" then some (fun a b => !stringLess a b)
  else none

/-- The method `Query.Filter` of the package `datastore`, for a value that is a
string: the filter string is a property name followed by an operator.  A page
passes the filter when the property holds a string that compares so with the
value. -/
def Query.Filter (q : Query) (filterStr value : String) : Query :=
  if (trimSpace filterStr.data).length < 1 then { q with err := some Error.datastore }
  else
    match filterTest (String.mk (trimSpace ((trimSpace filterStr.data).drop
        (trimRight (trimSpace filterStr.data) [' ', '>', '<', '=', '!']).length))) with
    | none => { q with err := some Error.datastore }
    | some test =>
      { q with filter := q.filter ++ [fun page =>
          match pageString
              (String.mk (trimRight (trimSpace filterStr.data) [' ', '>', '<', '=', '!']))
              page with
          | some v => test v value
          | none => false] }

/-- The method `Query.Ancestor` of the package `datastore`, for the key of the
user `userName`: the pages whose key descends from it are the pages of that
user. -/
def Query.Ancestor (q : Query) (userName : String) : Query :=
  { q with filter := q.filter ++ [fun page => decide (page.UserName = userName)] }

/-- The ascending order of the pages on a property, by the name of the property:
the strings in the order of their bytes, the dates in the order of time. -/
def pageOrder (name : String) : Option (Page → Page → Bool) :=
  if name = "CreationDate" then some (fun a b => decide (a.CreationDate ≤ b.CreationDate))
  else if name = "LastModificationDate" then
    some (fun a b => decide (a.LastModificationDate ≤ b.LastModificationDate))
  else if (name = "UserName" ∨ name = "Name" ∨ name = "Title" ∨ name = "ContentLicense" ∨
      name = "Policy" ∨ name = "TemplateID") then
    some (fun a b => !stringLess ((pageString name b).getD "") ((pageString name a).getD ""))
  else none

/-- One more sort order for the query; a property that no page has leaves no
page in the result. -/
def Query.addOrder (q : Query) (descending : Bool) (name : String) : Query :=
  match pageOrder name with
  | none => { q with filter := q.filter ++ [fun _ => false] }
  | some le => { q with order := q.order ++ [fun a b => if descending then le b a else le a b] }

/-- The method `Query.Order` of the package `datastore`: a property name, after
`-` for the descending order. -/
def Query.Order (q : Query) (fieldName : String) : Query :=
  match trimSpace fieldName.data with
  | [] => { q with err := some Error.datastore }
  | '-' :: rest =>
    if (trimSpace rest).length = 0 then { q with err := some Error.datastore }
    else q.addOrder true (String.mk (trimSpace rest))
  | '+' :: _ => { q with err := some Error.datastore }
  | name => q.addOrder false (String.mk name)

/-- The method `Query.Limit` of the package `datastore`: a limit outside of the
range of `int32` is an error of the query. -/
def Query.Limit (q : Query) (limit : Int) : Query :=
  if limit < -(2 ^ 31) ∨ limit > 2 ^ 31 - 1 then { q with err := some Error.datastore }
  else { q with limit := limit }

/-- The order of the keys of two pages: the user name, then the page name. -/
def pageKeyLE (a b : Page) : Bool :=
  stringLess a.UserName b.UserName ||
    (decide (a.UserName = b.UserName) && !stringLess b.Name a.Name)

/-- The full result of a query, without its limit, in the order of the query:
the pages that pass every filter, sorted on the sort orders of the query, and
in the order of their keys where these do not decide. -/
def Query.results (q : Query) (pages : List Page) : List Page :=
  q.order.foldr (fun le sorted => sorted.insertionSort (fun a b => le a b = true))
    ((pages.filter (fun page => q.filter.all (fun f => f page))).insertionSort
      (fun a b => pageKeyLE a b = true))

/-- The method `Query.GetAll` of the package `datastore`: the error of the
query, or of the call to the service, or the pages of the result, no more of
them than a limit that is not negative.  An empty result comes with a nil
error. -/
def Query.GetAll (q : Query) (repo : Repository) :
    (List Page × Option DatastoreError) × Repository :=
  match q.err with
  | some err => (([], some (DatastoreError.other err)), repo)
  | none =>
    match repo.call with
    | (some err, repo) => (([], some (DatastoreError.other err)), repo)
    | (none, repo) =>
      ((if 0 ≤ q.limit then (q.results repo.ds.pages).take q.limit.toNat
        else q.results repo.ds.pages, none), repo)

/-- The type `aePageQuery` of `ae/contentRepository.go`: the query and the limit
of the caller.  The context is the repository on which `GetAll` runs. -/
structure aePageQuery where
  q : Query
  limit : Int

/-- The method `NewPageQuery`. -/
def Repository.NewPageQuery (_ : Repository) : aePageQuery :=
  { q := NewQuery, limit := -1 }

/-- The method `User` of a page query. -/
def aePageQuery.User (q : aePageQuery) (userName : String) : aePageQuery :=
  { q with q := q.q.Ancestor userName }

/-- The method `Filter` of a page query. -/
def aePageQuery.Filter (q : aePageQuery) (filterStr value : String) : aePageQuery :=
  { q with q := q.q.Filter filterStr value }

/-- The method `Order` of a page query. -/
def aePageQuery.Order (q : aePageQuery) (fieldName : String) : aePageQuery :=
  { q with q := q.q.Order fieldName }

/-- The method `Limit` of a page query: the query asks for one page more than
the limit of the caller. -/
def aePageQuery.Limit (q : aePageQuery) (limit : Int) : aePageQuery :=
  { q := q.q.Limit (wrapInt (limit + 1)), limit := limit }

/-- The method `GetAll` of a page query: the pages, whether there are more, and
the error. -/
def aePageQuery.GetAll (q : aePageQuery) (repo : Repository) :
    Except Error (List Page × Bool) × Repository :=
  match q.q.GetAll repo with
  | ((_, some (DatastoreError.other err)), repo) => (Except.error err, repo)
  | ((pages, _), repo) =>
    if q.limit > 0 ∧ (pages.length : Int) > q.limit then
      (Except.ok (pages.take q.limit.toNat, true), repo)
    else (Except.ok (pages, false), repo)

/-- The zero value `User{}`. -/
def User.zero : User :=
  { Name := "", Kind := "", FullName := "" }

/-- The method `GetUser`. -/
def Repository.GetUser (repo : Repository) (ident : Ident) : Except Error User × Repository :=
  match repo.GetIdentity ident with
  | (Except.error err, repo) => (Except.error err, repo)
  | (Except.ok identity, repo) =>
    if identity.Identity = "" then (Except.ok User.zero, repo)
    else
      match repo.call with
      | (some err, repo) => (Except.error err, repo)
      | (none, repo) =>
        match repo.ds.user? identity.UserName with
        | none => (Except.ok User.zero, repo)
        | some user => (Except.ok user, repo)

/-- App.CurrentUser. -/
def App.CurrentUser (app : App) : Except Error User × App :=
  match app.userInteractor.CurrentIdentity with
  | Except.error err => (Except.error err, app)
  | Except.ok ident =>
    match app.repository.GetUser ident with
    | (Except.error (Error.NotInDatastoreError _ _), repo) =>
      (Except.error Error.ErrFirstUserConnection, { app with repository := repo })
    | (Except.error err, repo) => (Except.error err, { app with repository := repo })
    | (Except.ok u, repo) => (Except.ok u, { app with repository := repo })

/-- App.ListPublicPages. -/
def App.ListPublicPages (app : App) (limit : Int) : Except Error (List Page × Bool) × App :=
  match ((((app.repository.NewPageQuery).Filter "Policy =" PolicyPUBLIC).Order
      "-LastModificationDate").Limit limit).GetAll app.repository with
  | (Except.error err, repo) => (Except.error err, { app with repository := repo })
  | (Except.ok (pages, bMore), repo) =>
    (Except.ok (pages, bMore), { app with repository := repo })

/-- App.ListOwnedPages. -/
def App.ListOwnedPages (app : App) (limit : Int) : Except Error (List Page × Bool) × App :=
  match app.CurrentUser with
  | (Except.error err, app) => (Except.error err, app)
  | (Except.ok user, app) =>
    match ((((app.repository.NewPageQuery).Filter "UserName=" user.Name).Order
        "-LastModificationDate").Limit limit).GetAll app.repository with
    | (Except.error err, repo) => (Except.error err, { app with repository := repo })
    | (Except.ok (pages, bMore), repo) =>
      (Except.ok (pages, bMore), { app with repository := repo })

/-- A page of alice with a name and a date of last modification. -/
def alicePage (name : String) (date : Time) : Page :=
  { blogPage with Name := name, CreationDate := date, LastModificationDate := date }

/-- A datastore with the accounts of alice and bob and the first `n` of five
pages of alice, and a page of bob. -/
def pagesStore (n : Nat) : Datastore :=
  { accountsStore with
    pages := bobsBlogPage ::
      [alicePage "p1" 1, alicePage "p2" 2, alicePage "p3" 3, alicePage "p4" 4,
        alicePage "p5" 5].take n }

/-! ## The handler `editItem` (`webapp.go`) -/

/-- What `editItem` of `webapp.go` reads of the request: the variables of the
route, the form value `mode`, the entries of the map `r.PostForm` in the order in
which the `range` loop visits them (Go does not specify the order), and, for the
modes other than updateTag, the item that the form values or the JSON body
describe.  A form key is a Go string; the model covers the keys that are valid
UTF-8, and counts their bytes. -/
structure Request where
  userName : String
  pageName : String
  itemID : String
  mode : String
  PostForm : List (String × List String)
  editedItem : Item

/-- The end of a handler: a run-time panic, or its return values. -/
inductive Outcome (α : Type) where
  | panic
  | returned (r : Except Error α)

/-- The zero value `Item{}`. -/
def Item.zero : Item :=
  { ID := "", CreationDate := 0, LastModificationDate := 0, Kind := "", Title := "",
    Content := "", HTMLContent := "", Source := "", URL := "", Tags := [] }

/-- The Go expression `key[:4] == "tag-"`: the slice expression panics (`none`)
when the key has fewer than four bytes; else the comparison tells whether the
first four bytes of the key are those of "tag-", four characters of one byte. -/
def keyHasTagMark (key : String) : Option Bool :=
  if key.utf8ByteSize < 4 then none
  else some (decide (key.data.take 4 = ['t', 'a', 'g', '-']))

/-- The loop of `editItem` over the entries of `r.PostForm`: a panic (`none`), the
error with which the loop returns, or the end of the loop (`some none`).  The
call number `n` of `SetItemTag` reads the time `clock n`. -/
def updateTagLoop (userName pageName itemID : String) (clock : Nat → Time) :
    List (String × List String) → Nat → App → Option (Option Error) × App
  | [], _, app => (some none, app)
  | (key, array) :: rest, n, app =>
    match keyHasTagMark key with
    | none => (none, app)
    | some mark =>
      if mark = true ∧ array.length > 0 then
        match app.SetItemTag (clock n) userName pageName itemID (String.mk (key.data.drop 4))
            (array.headD "") with
        | (some err, app) => (some (some err), app)
        | (none, app) => updateTagLoop userName pageName itemID clock rest (n + 1) app
      else updateTagLoop userName pageName itemID clock rest n app

/-- The handler `editItem` of `webapp.go`. -/
def editItem (r : Request) (app : App) (clock : Nat → Time)
    (markdownToHTML : String → String) : Outcome Item × App :=
  if r.mode = "updateTag" then
    match updateTagLoop r.userName r.pageName r.itemID clock r.PostForm 0 app with
    | (none, app) => (Outcome.panic, app)
    | (some (some err), app) => (Outcome.returned (Except.error err), app)
    | (some none, app) => (Outcome.returned (Except.ok Item.zero), app)
  else
    match app.UpdateItem (clock 0) markdownToHTML r.userName r.pageName
        { r.editedItem with ID := r.itemID } false with
    | (Except.error err, app) => (Outcome.returned (Except.error err), app)
    | (Except.ok i, app) => (Outcome.returned (Except.ok i), app)

/-- The calls of `SetItemTag` that the specification describes for a form: for
every key that starts with "tag-" and has at least one value, in the order of
the form, the remainder of the key as tag name with the first value. -/
def specTagCalls (form : List (String × List String)) : List (String × String) :=
  (form.filter (fun e => decide (e.1.data.take 4 = ['t', 'a', 'g', '-']) &&
      decide (e.2.length > 0))).map
    (fun e => (String.mk (e.1.data.drop 4), e.2.headD ""))

/-- The calls of `SetItemTag` for a list of tag names and values, one after the
other, until a call fails. -/
def setItemTags (userName pageName itemID : String) (clock : Nat → Time) :
    List (String × String) → Nat → App → Option Error × App
  | [], _, app => (none, app)
  | (tagName, tagValue) :: rest, n, app =>
    match app.SetItemTag (clock n) userName pageName itemID tagName tagValue with
    | (some err, app) => (some err, app)
    | (none, app) => setItemTags userName pageName itemID clock rest (n + 1) app

/-- A request of alice in the mode updateTag whose form has the key "id". -/
def shortKeyRequest : Request :=
  { userName := "alice", pageName := "blog", itemID := "a1", mode := "updateTag",
    PostForm := [("id", ["x"])], editedItem := Item.zero }

/-- A request of alice in the mode updateTag that sets the tag "color", next to
a key without the mark and a key without value. -/
def colorRequest : Request :=
  { shortKeyRequest with
    PostForm := [("mode", ["updateTag"]), ("tag-color", ["red", "blue"]), ("tag-size", [])] }

/-- A datastore with the accounts of alice and bob and the page `(bob, blog)`. -/
def bobStore : Datastore :=
  { accountsStore with pages := [bobsBlogPage] }

/-! ## Lemmas: association lists -/

theorem kvGet_kvDelete {κ α : Type} [DecidableEq κ] (key : α → κ) (k k' : κ) (l : List α) :
    kvGet key k' (kvDelete key k l) = if k' = k then none else kvGet key k' l := by
  induction l with
  | nil => simp [kvDelete, kvGet]
  | cons e rest ih =>
    simp only [kvDelete] at ih ⊢
    by_cases he : key e = k
    · by_cases hk : k' = k
      · simp [List.filter, he, hk] at ih ⊢
        exact ih
      · have : ¬ k = k' := fun h => hk h.symm
        simp [List.filter, he, hk, kvGet, this] at ih ⊢
        exact ih
    · by_cases hk : k' = k
      · simp [List.filter, he, hk, kvGet] at ih ⊢
        exact ih
      · by_cases he' : key e = k'
        · simp [List.filter, he, hk, kvGet, he']
        · simp [List.filter, he, hk, kvGet, he'] at ih ⊢
          exact ih

theorem kvGet_kvPut {κ α : Type} [DecidableEq κ] (key : α → κ) (k' : κ) (v : α) (l : List α) :
    kvGet key k' (kvPut key v l) = if k' = key v then some v else kvGet key k' l := by
  by_cases h : k' = key v
  · subst h; simp [kvPut, kvGet]
  · have h' : ¬ key v = k' := fun e => h e.symm
    simp [kvPut, kvGet, h, h', kvGet_kvDelete]

/-- An entity is found under its own key only. -/
theorem kvGet_key {κ α : Type} [DecidableEq κ] (key : α → κ) (k : κ) (l : List α) (v : α)
    (h : kvGet key k l = some v) : key v = k := by
  induction l with
  | nil => simp [kvGet] at h
  | cons e rest ih =>
    simp only [kvGet] at h
    split_ifs at h with he
    · simp only [Option.some.injEq] at h
      subst h
      exact he
    · exact ih h

/-! ## Lemmas: the binary search of tag lists -/

theorem stringLess_iff (a b : String) : stringLess a b = true ↔ a < b := by
  unfold stringLess
  rw [decide_eq_true_iff]
  exact (String.lt_iff_toList_lt).symm

/-- The binary search of `sort.Search` on a predicate that stays true once it is
true: the result is the least index of the interval at which the predicate
holds, or the end of the interval. -/
theorem sortSearchLoop_spec (f : Nat → Bool) (fuel i j : Nat) (hij : i ≤ j)
    (hfuel : j - i ≤ fuel)
    (hmono : ∀ a b, a ≤ b → b < j → f a = true → f b = true) :
    i ≤ sortSearchLoop f fuel i j ∧ sortSearchLoop f fuel i j ≤ j ∧
    (∀ k, i ≤ k → k < sortSearchLoop f fuel i j → f k = false) ∧
    (sortSearchLoop f fuel i j < j → f (sortSearchLoop f fuel i j) = true) := by
  induction fuel generalizing i j with
  | zero =>
    have : i = j := by omega
    subst this
    simp only [sortSearchLoop]
    exact ⟨le_refl _, le_refl _, fun k h1 h2 => absurd h2 (by omega), fun h => absurd h (by omega)⟩
  | succ fuel ih =>
    unfold sortSearchLoop
    by_cases hlt : i < j
    · simp only [hlt, if_true]
      have hh1 : i ≤ (i + j) / 2 := by omega
      have hh2 : (i + j) / 2 < j := by omega
      cases hf : f ((i + j) / 2) with
      | false =>
        simp only [Bool.not_false, if_true]
        obtain ⟨h1, h2, h3, h4⟩ := ih ((i + j) / 2 + 1) j (by omega) (by omega) hmono
        refine ⟨by omega, h2, ?_, h4⟩
        intro k hk1 hk2
        by_cases hk : k ≤ (i + j) / 2
        · cases hfk : f k with
          | false => rfl
          | true =>
            have := hmono k ((i + j) / 2) hk hh2 hfk
            rw [hf] at this
            exact absurd this (by simp)
        · exact h3 k (by omega) hk2
      | true =>
        simp only [Bool.not_true, Bool.false_eq_true, if_false]
        obtain ⟨h1, h2, h3, h4⟩ := ih i ((i + j) / 2) hh1 (by omega)
          (fun a b hab hb => hmono a b hab (by omega))
        refine ⟨h1, by omega, h3, ?_⟩
        intro _
        by_cases hr : sortSearchLoop f fuel i ((i + j) / 2) < (i + j) / 2
        · exact h4 hr
        · have : sortSearchLoop f fuel i ((i + j) / 2) = (i + j) / 2 := by omega
          rw [this]
          exact hf
    · rw [if_neg hlt]
      exact ⟨le_refl _, hij, fun k h1 h2 => absurd h2 (by omega),
        fun h => absurd h hlt⟩

theorem keyAtLeast_of_get (l : TagList) (key : String) (k : Nat) (t : Tag)
    (h : l.get? k = some t) : keyAtLeast l key k = !stringLess t.Key key := by
  simp only [keyAtLeast, h]

/-- On a sorted tag list the predicate of the binary search stays true. -/
theorem keyAtLeast_mono (l : TagList) (hs : l.Sorted) (key : String) (a b : Nat)
    (hab : a ≤ b) (hb : b < l.length) (ha : keyAtLeast l key a = true) :
    keyAtLeast l key b = true := by
  rcases Nat.eq_or_lt_of_le hab with h | h
  · subst h; exact ha
  · have hal : a < l.length := by omega
    have hlt : stringLess (l[a]).Key (l[b]).Key = true :=
      (List.pairwise_iff_getElem.mp hs) a b hal hb h
    have e1 : l.get? a = some l[a] := by simp [List.get?_eq_getElem?, hal]
    have e2 : l.get? b = some l[b] := by simp [List.get?_eq_getElem?, hb]
    rw [keyAtLeast_of_get l key a _ e1] at ha
    rw [keyAtLeast_of_get l key b _ e2]
    simp only [Bool.not_eq_true', ← Bool.not_eq_true, stringLess_iff] at ha hlt ⊢
    exact fun h' => ha (lt_trans hlt h')

/-- On a sorted tag list `Tag` returns the value of the tag that has the key. -/
theorem Tag_of_mem (l : TagList) (hs : l.Sorted) (key value : String)
    (h : (⟨key, value⟩ : Tag) ∈ l) : l.Tag key = value := by
  obtain ⟨m, hm, hget⟩ := List.getElem_of_mem h
  have hspec := sortSearchLoop_spec (keyAtLeast l key) l.length 0 l.length (Nat.zero_le _)
    (by omega) (fun a b hab hb ha => keyAtLeast_mono l hs key a b hab hb ha)
  obtain ⟨_, h2, h3, h4⟩ := hspec
  have em : l.get? m = some ⟨key, value⟩ := by simp [List.get?_eq_getElem?, hm, hget]
  have hfm : keyAtLeast l key m = true := by
    rw [keyAtLeast_of_get l key m _ em]
    simp only [Bool.not_eq_true', ← Bool.not_eq_true, stringLess_iff]
    exact lt_irrefl key
  have hrm : sortSearchLoop (keyAtLeast l key) l.length 0 l.length ≤ m := by
    by_contra hcon
    have := h3 m (Nat.zero_le _) (by omega)
    rw [hfm] at this
    exact absurd this (by simp)
  have hr : sortSearchLoop (keyAtLeast l key) l.length 0 l.length = m := by
    rcases Nat.eq_or_lt_of_le hrm with e | e
    · exact e
    · exfalso
      have hrl : sortSearchLoop (keyAtLeast l key) l.length 0 l.length < l.length := by omega
      have hfr := h4 hrl
      have er : l.get? (sortSearchLoop (keyAtLeast l key) l.length 0 l.length) =
          some l[sortSearchLoop (keyAtLeast l key) l.length 0 l.length] := by
        simp [List.get?_eq_getElem?, hrl]
      rw [keyAtLeast_of_get l key _ _ er] at hfr
      have hlt := (List.pairwise_iff_getElem.mp hs) _ m hrl hm e
      rw [hget] at hlt
      simp only [Bool.not_eq_true', ← Bool.not_eq_true] at hfr
      exact hfr hlt
  unfold TagList.Tag sortSearch
  simp only [hr, em, if_true]

/-- `Tag` returns the empty string for a key that no tag of the list has. -/
theorem Tag_of_not_mem (l : TagList) (key : String) (h : ∀ t ∈ l, t.Key ≠ key) :
    l.Tag key = "" := by
  unfold TagList.Tag
  simp only []
  cases hg : l.get? (sortSearch l.length (keyAtLeast l key)) with
  | none => rfl
  | some t =>
    have hmem : t ∈ l := List.get?_mem hg
    simp only [h t hmem, if_false]

/-! ## Lemmas: the methods of the repository, in closed form -/

theorem call_eq (repo : Repository) :
    repo.call =
      (if repo.faults.head? = some true then some Error.datastore else none,
        ⟨repo.ds, repo.faults.tail⟩) := rfl

theorem GetPage_eq (repo : Repository) (u n : String) :
    repo.GetPage u n =
      (if repo.faults.head? = some true then Except.error Error.datastore
       else match repo.ds.page? u n with
         | none => Except.error (Error.NotInDatastoreError "Page" n)
         | some page => Except.ok page, ⟨repo.ds, repo.faults.tail⟩) := by
  unfold Repository.GetPage
  rw [call_eq]
  split_ifs with h
  · rfl
  · cases h' : repo.ds.page? u n <;> simp [h']

theorem StorePage_eq (repo : Repository) (page : Page) :
    repo.StorePage page =
      if repo.faults.head? = some true then (some Error.datastore, ⟨repo.ds, repo.faults.tail⟩)
      else (none, ⟨{ repo.ds with pages := kvPut pageKey page repo.ds.pages },
        repo.faults.tail⟩) := by
  unfold Repository.StorePage
  rw [call_eq]
  split_ifs with h <;> rfl

theorem DeletePage_eq (repo : Repository) (u n : String) :
    repo.DeletePage u n =
      if repo.faults.head? = some true then (some Error.datastore, ⟨repo.ds, repo.faults.tail⟩)
      else (none, ⟨{ repo.ds with pages := kvDelete pageKey (u, n) repo.ds.pages },
        repo.faults.tail⟩) := by
  unfold Repository.DeletePage
  rw [call_eq]
  split_ifs with h <;> rfl

theorem FindItem_eq (repo : Repository) (u n id : String) :
    repo.FindItem u n id =
      (if repo.faults.head? = some true then Except.error Error.datastore
       else Except.ok (repo.ds.item? u n id).isSome, ⟨repo.ds, repo.faults.tail⟩) := by
  unfold Repository.FindItem
  rw [call_eq]
  split_ifs with h
  · rfl
  · cases h' : repo.ds.item? u n id <;> simp [h']

theorem GetItem_eq (repo : Repository) (u n id : String) :
    repo.GetItem u n id =
      (if repo.faults.head? = some true then Except.error Error.datastore
       else match repo.ds.item? u n id with
         | none => Except.error (Error.NotInDatastoreError "Item" id)
         | some item => Except.ok item, ⟨repo.ds, repo.faults.tail⟩) := by
  unfold Repository.GetItem
  rw [call_eq]
  split_ifs with h
  · rfl
  · cases h' : repo.ds.item? u n id <;> simp [h']

theorem StoreItem_eq (repo : Repository) (u n : String) (i : Item) :
    repo.StoreItem u n i =
      if repo.faults.head? = some true then (some Error.datastore, ⟨repo.ds, repo.faults.tail⟩)
      else (none, ⟨{ repo.ds with items := kvPut itemKey ((u, n), i) repo.ds.items },
        repo.faults.tail⟩) := by
  unfold Repository.StoreItem
  rw [call_eq]
  split_ifs with h <;> rfl

theorem DeleteItem_eq (repo : Repository) (u n id : String) :
    repo.DeleteItem u n id =
      if repo.faults.head? = some true then (some Error.datastore, ⟨repo.ds, repo.faults.tail⟩)
      else (none, ⟨{ repo.ds with items := kvDelete itemKey (u, n, id) repo.ds.items },
        repo.faults.tail⟩) := by
  unfold Repository.DeleteItem
  rw [call_eq]
  split_ifs with h <;> rfl

theorem DeleteItemsFromPage_eq (repo : Repository) (u n : String) :
    repo.DeleteItemsFromPage u n =
      if repo.faults.head? = some true then (some Error.datastore, ⟨repo.ds, repo.faults.tail⟩)
      else if repo.faults.tail.head? = some true then
        (some Error.datastore, ⟨repo.ds, repo.faults.tail.tail⟩)
      else (none, ⟨{ repo.ds with
              items := repo.ds.items.filter (fun e => !decide (e.1 = (u, n))) },
            repo.faults.tail.tail⟩) := by
  unfold Repository.DeleteItemsFromPage
  by_cases h : repo.faults.head? = some true
  · simp only [call_eq, h, if_true]
  · by_cases h' : repo.faults.tail.head? = some true
    · simp only [call_eq, h, h', if_true, if_false]
    · simp only [call_eq, h, h', if_false]

theorem FindUser_eq (repo : Repository) (u : String) :
    repo.FindUser u =
      (if repo.faults.head? = some true then Except.error Error.datastore
       else Except.ok (repo.ds.user? u).isSome, ⟨repo.ds, repo.faults.tail⟩) := by
  unfold Repository.FindUser
  rw [call_eq]
  split_ifs with h
  · rfl
  · cases h' : repo.ds.user? u <;> simp [h']

theorem GetIdentity_ds (repo : Repository) (ident : Ident) :
    (repo.GetIdentity ident).2 = ⟨repo.ds, repo.faults.tail⟩ := by
  unfold Repository.GetIdentity
  rw [call_eq]
  split_ifs with h
  · rfl
  · simp only []
    split <;> rfl

theorem StoreUser_eq (repo : Repository) (user : User) :
    repo.StoreUser user =
      if repo.faults.head? = some true then (some Error.datastore, ⟨repo.ds, repo.faults.tail⟩)
      else (none, ⟨{ repo.ds with users := kvPut userKey user repo.ds.users },
        repo.faults.tail⟩) := by
  unfold Repository.StoreUser
  rw [call_eq]
  split_ifs with h <;> rfl

theorem StoreIdentity_eq (repo : Repository) (identity : Identity) :
    repo.StoreIdentity identity =
      if repo.faults.head? = some true then (some Error.datastore, ⟨repo.ds, repo.faults.tail⟩)
      else (none, ⟨{ repo.ds with identities := repo.ds.identities ++ [identity] },
        repo.faults.tail⟩) := by
  unfold Repository.StoreIdentity
  rw [call_eq]
  split_ifs with h <;> rfl

theorem StoreUsage_eq (repo : Repository) (u n imgID : String) :
    repo.StoreUsage u n imgID =
      if repo.faults.head? = some true then (some Error.datastore, ⟨repo.ds, repo.faults.tail⟩)
      else (none, ⟨{ repo.ds with
          usages := kvPut usageKey ((u, n), { UploadInfoKey := imgID }) repo.ds.usages },
        repo.faults.tail⟩) := by
  unfold Repository.StoreUsage
  rw [call_eq]
  split_ifs with h <;> rfl

theorem DeleteUsages_eq (repo : Repository) (u n : String) :
    repo.DeleteUsages u n =
      if repo.faults.head? = some true then (some Error.datastore, ⟨repo.ds, repo.faults.tail⟩)
      else if repo.faults.tail.head? = some true then
        (some Error.datastore, ⟨repo.ds, repo.faults.tail.tail⟩)
      else (none, ⟨{ repo.ds with
              usages := repo.ds.usages.filter (fun e => !decide (e.1 = (u, n))) },
            repo.faults.tail.tail⟩) := by
  unfold Repository.DeleteUsages
  by_cases h : repo.faults.head? = some true
  · simp only [call_eq, h, if_true]
  · by_cases h' : repo.faults.tail.head? = some true
    · simp only [call_eq, h, h', if_true, if_false]
    · simp only [call_eq, h, h', if_false]

/-- A transaction that fails leaves the entities as they were. -/
theorem commit_error {α : Type} (repo : Repository) (r : Except Error α × Repository)
    (err : Error) (h : (repo.commit r).1 = Except.error err) :
    (repo.commit r).2.ds = repo.ds := by
  unfold Repository.commit at h ⊢
  rcases r with ⟨_ | a, txRepo⟩
  · rfl
  · simp only [call_eq] at h ⊢
    split_ifs at h ⊢ with hc
    · rfl

/-- A transaction that succeeds leaves the entities that its function left. -/
theorem commit_ok {α : Type} (repo : Repository) (r : Except Error α × Repository)
    (a : α) (h : (repo.commit r).1 = Except.ok a) :
    r.1 = Except.ok a ∧ (repo.commit r).2.ds = r.2.ds := by
  unfold Repository.commit at h ⊢
  rcases r with ⟨_ | b, txRepo⟩
  · simp at h
  · simp only [call_eq] at h ⊢
    split_ifs at h ⊢ with hc
    simp only [Except.ok.injEq] at h
    exact ⟨by rw [h], rfl⟩

/-- On a datastore without failures a transaction returns what its function
returns, and keeps its writes when the function succeeds. -/
theorem commit_healthy {α : Type} (repo : Repository) (r : Except Error α) (ds : Datastore) :
    repo.commit (r, ⟨ds, []⟩) =
      match r with
      | Except.error err => (Except.error err, ⟨repo.ds, []⟩)
      | Except.ok a => (Except.ok a, ⟨ds, []⟩) := by
  cases r <;> simp [Repository.commit, call_eq]

/-! ## Lemmas: the current user -/

theorem CurrentIdentity_repository (app : App) :
    app.CurrentIdentity.2 = app ∨
      app.CurrentIdentity.2 = { app with
        repository := ⟨app.repository.ds, app.repository.faults.tail⟩ } := by
  unfold App.CurrentIdentity
  split
  · left; rfl
  · split_ifs
    · left; rfl
    · right
      split <;> rename_i h <;>
        · have h2 := congrArg Prod.snd h
          rw [GetIdentity_ds] at h2
          simp only [] at h2
          rw [← h2]

theorem CurrentUserName_repository (app : App) :
    app.CurrentUserName.2 = app ∨
      app.CurrentUserName.2 = { app with
        repository := ⟨app.repository.ds, app.repository.faults.tail⟩ } := by
  unfold App.CurrentUserName
  split <;> rename_i h <;>
    · have h2 := CurrentIdentity_repository app
      rw [h] at h2
      exact h2

theorem CurrentUserName_ds (app : App) :
    app.CurrentUserName.2.repository.ds = app.repository.ds := by
  rcases CurrentUserName_repository app with h | h <;> rw [h]

theorem CurrentUserName_userInteractor (app : App) :
    app.CurrentUserName.2.userInteractor = app.userInteractor := by
  rcases CurrentUserName_repository app with h | h <;> rw [h]

theorem CurrentUserName_healthy (app : App) (h : app.repository.faults = []) :
    app.CurrentUserName.2 = app := by
  rcases CurrentUserName_repository app with h' | h'
  · exact h'
  · rw [h', h]
    cases app with
    | mk repository userInteractor =>
      cases repository
      simp_all

/-! ## Lemmas: transactions -/

theorem RunInTransaction_error {α : Type} (repo : Repository)
    (f : Repository → Except Error α × Repository) (err : Error)
    (h : (repo.RunInTransaction f).1 = Except.error err) :
    (repo.RunInTransaction f).2.ds = repo.ds :=
  commit_error repo (f repo) err h

theorem RunInTransaction_ok {α : Type} (repo : Repository)
    (f : Repository → Except Error α × Repository) (a : α)
    (h : (repo.RunInTransaction f).1 = Except.ok a) :
    (f repo).1 = Except.ok a ∧ (repo.RunInTransaction f).2.ds = (f repo).2.ds :=
  commit_ok repo (f repo) a h

/-- A transaction whose function fails, or whose commit fails, returns an
error. -/
theorem RunInTransaction_fails {α : Type} (repo : Repository)
    (f : Repository → Except Error α × Repository)
    (h : (∃ err, (f repo).1 = Except.error err) ∨ (f repo).2.faults.head? = some true) :
    ∃ err, (repo.RunInTransaction f).1 = Except.error err := by
  unfold Repository.RunInTransaction Repository.commit
  rcases hf : f repo with ⟨_ | a, txRepo⟩
  · exact ⟨_, rfl⟩
  · rw [hf] at h
    rcases h with ⟨err, h⟩ | h
    · simp at h
    · simp only [call_eq]
      simp only [] at h
      rw [if_pos h]
      exact ⟨_, rfl⟩

theorem errorOf_eq_none {α : Type} (r : Except Error α) :
    errorOf r = none ↔ ∃ a, r = Except.ok a := by
  cases r <;> simp [errorOf]

theorem errorOf_eq_some {α : Type} (r : Except Error α) (err : Error) :
    errorOf r = some err ↔ r = Except.error err := by
  cases r <;> simp [errorOf]

theorem createUserTx_eq (user : User) (identity : Identity) (userName : String)
    (repo : Repository) :
    createUserTx user identity userName repo =
      if repo.faults.head? = some true then
        (Except.error Error.datastore, ⟨repo.ds, repo.faults.tail⟩)
      else if (repo.ds.user? userName).isSome then
        (Except.error (Error.errorString "The selected user name already exists"),
          ⟨repo.ds, repo.faults.tail⟩)
      else if repo.faults.tail.head? = some true then
        (Except.error Error.datastore, ⟨repo.ds, repo.faults.tail.tail⟩)
      else if repo.faults.tail.tail.head? = some true then
        (Except.error Error.datastore,
          ⟨{ repo.ds with users := kvPut userKey user repo.ds.users },
            repo.faults.tail.tail.tail⟩)
      else
        (Except.ok (),
          ⟨{ repo.ds with users := kvPut userKey user repo.ds.users,
                          identities := repo.ds.identities ++ [identity] },
            repo.faults.tail.tail.tail⟩) := by
  unfold createUserTx
  by_cases h0 : repo.faults.head? = some true
  · simp only [FindUser_eq, h0, if_true]
  · cases hu : repo.ds.user? userName with
    | some u => simp only [FindUser_eq, h0, if_false, hu, Option.isSome_some, if_true]
    | none =>
      by_cases h1 : repo.faults.tail.head? = some true
      · simp only [FindUser_eq, h0, hu, StoreUser_eq, h1, if_true, if_false,
          Option.isSome_none, Bool.false_eq_true]
      · by_cases h2 : repo.faults.tail.tail.head? = some true
        · simp only [FindUser_eq, h0, hu, StoreUser_eq, h1, StoreIdentity_eq, h2, if_true,
            if_false, Option.isSome_none, Bool.false_eq_true]
        · simp only [FindUser_eq, h0, hu, StoreUser_eq, h1, StoreIdentity_eq, h2, if_true,
            if_false, Option.isSome_none, Bool.false_eq_true]

/-! ## Authorization -/

/-- C2: when the current user name of the caller is empty or differs from the
user name that owns the target page, each of UpdatePage, UpdateTemplate,
DeletePage, CreateItem, PutItem, UpdateItem, SetItemTag and DeleteItem returns
a NotAuthorized error and leaves the stored entities unchanged, whatever the
other arguments and whatever the failures of the datastore. -/
theorem not_owner_is_rejected (app : App) (userName : String)
    (h : app.CurrentUserName.1 = "" ∨ app.CurrentUserName.1 ≠ userName) :
    (∀ now page pageTags, page.UserName = userName →
      (app.UpdatePage now page pageTags).1 = some (Error.NotAuthorizedError "Update page") ∧
      (app.UpdatePage now page pageTags).2.repository.ds = app.repository.ds) ∧
    (∀ now pageName newTemplateID,
      (app.UpdateTemplate now userName pageName newTemplateID).1 =
        some (Error.NotAuthorizedError "Update page") ∧
      (app.UpdateTemplate now userName pageName newTemplateID).2.repository.ds =
        app.repository.ds) ∧
    (∀ pageName,
      (app.DeletePage userName pageName).1 = some (Error.NotAuthorizedError "Delete page") ∧
      (app.DeletePage userName pageName).2.repository.ds = app.repository.ds) ∧
    (∀ now markdownToHTML generateID fuel pageName i,
      ∃ app', app.CreateItem now markdownToHTML generateID fuel userName pageName i =
          some (Except.error (Error.NotAuthorizedError "Store item"), app') ∧
        app'.repository.ds = app.repository.ds) ∧
    (∀ markdownToHTML pageName i,
      (app.PutItem markdownToHTML userName pageName i).1 =
        Except.error (Error.NotAuthorizedError "Store item") ∧
      (app.PutItem markdownToHTML userName pageName i).2.repository.ds = app.repository.ds) ∧
    (∀ now markdownToHTML pageName i updateTags,
      (app.UpdateItem now markdownToHTML userName pageName i updateTags).1 =
        Except.error (Error.NotAuthorizedError "Store item") ∧
      (app.UpdateItem now markdownToHTML userName pageName i updateTags).2.repository.ds =
        app.repository.ds) ∧
    (∀ now pageName itemID tagKey tagValue,
      (app.SetItemTag now userName pageName itemID tagKey tagValue).1 =
        some (Error.NotAuthorizedError "Store item") ∧
      (app.SetItemTag now userName pageName itemID tagKey tagValue).2.repository.ds =
        app.repository.ds) ∧
    (∀ pageName itemID,
      (app.DeleteItem userName pageName itemID).1 = some (Error.NotAuthorizedError "Delete page") ∧
      (app.DeleteItem userName pageName itemID).2.repository.ds = app.repository.ds) := by
  have hds := CurrentUserName_ds app
  refine ⟨?_, ?_, ?_, ?_, ?_, ?_, ?_, ?_⟩
  · intro now page pageTags hp
    subst hp
    unfold App.UpdatePage
    simp only [h, if_true]
    exact ⟨trivial, hds⟩
  · intro now pageName newTemplateID
    unfold App.UpdateTemplate
    simp only [h, if_true]
    exact ⟨trivial, hds⟩
  · intro pageName
    unfold App.DeletePage
    simp only [h, if_true]
    exact ⟨trivial, hds⟩
  · intro now markdownToHTML generateID fuel pageName i
    unfold App.CreateItem
    simp only [h, if_true]
    exact ⟨_, rfl, hds⟩
  · intro markdownToHTML pageName i
    unfold App.PutItem
    simp only [h, if_true]
    exact ⟨trivial, hds⟩
  · intro now markdownToHTML pageName i updateTags
    unfold App.UpdateItem
    simp only [h, if_true]
    exact ⟨trivial, hds⟩
  · intro now pageName itemID tagKey tagValue
    unfold App.SetItemTag
    simp only [h, if_true]
    exact ⟨trivial, hds⟩
  · intro pageName itemID
    unfold App.DeleteItem
    simp only [h, if_true]
    exact ⟨trivial, hds⟩

/-- Witness of C2: bob, logged in, is refused on the page `(alice, blog)`, and an
anonymous caller is refused too. -/
theorem not_owner_is_rejected_witness :
    (App.CurrentUserName (healthyApp blogStore (loggedIn bobIdent))).1 ≠ "alice" ∧
    ((healthyApp blogStore (loggedIn bobIdent)).DeletePage "alice" "blog").1 =
      some (Error.NotAuthorizedError "Delete page") ∧
    ((healthyApp blogStore (loggedIn bobIdent)).DeletePage "alice" "blog").2.repository.ds =
      blogStore ∧
    ((healthyApp blogStore anonymous).UpdatePage 7 blogPage []).1 =
      some (Error.NotAuthorizedError "Update page") :=
  ⟨by decide,
    ((not_owner_is_rejected (healthyApp blogStore (loggedIn bobIdent)) "alice"
      (Or.inr (by decide))).2.2.1 "blog").1,
    ((not_owner_is_rejected (healthyApp blogStore (loggedIn bobIdent)) "alice"
      (Or.inr (by decide))).2.2.1 "blog").2,
    ((not_owner_is_rejected (healthyApp blogStore anonymous) "alice"
      (Or.inl (by decide))).1 7 blogPage [] rfl).1⟩

/-- C3: for a stored page whose read succeeds, GetPage returns the page when its
policy is PUBLIC; when its policy is PRIVATE it returns the page if the current
user name of the caller equals the user name of the page, and fails with
NotAuthorized otherwise, in particular for an anonymous caller (empty current
user name) on a page of a named user.  The stored entities are unchanged. -/
theorem GetPage_policy (app : App) (userName pageName : String) (page : Page)
    (hstored : app.repository.ds.page? userName pageName = some page)
    (hread : app.repository.faults.head? ≠ some true) :
    let caller := (App.CurrentUserName { app with
      repository := ⟨app.repository.ds, app.repository.faults.tail⟩ }).1
    (page.Policy = PolicyPUBLIC → (app.GetPage userName pageName).1 = Except.ok page) ∧
    (page.Policy = PolicyPRIVATE → caller = userName →
      (app.GetPage userName pageName).1 = Except.ok page) ∧
    (page.Policy = PolicyPRIVATE → caller ≠ userName →
      (app.GetPage userName pageName).1 = Except.error (Error.NotAuthorizedError "Read page")) ∧
    (page.Policy = PolicyPRIVATE → caller = "" → userName ≠ "" →
      (app.GetPage userName pageName).1 = Except.error (Error.NotAuthorizedError "Read page")) ∧
    (app.GetPage userName pageName).2.repository.ds = app.repository.ds := by
  intro caller
  have hpub : PolicyPUBLIC ≠ PolicyPRIVATE := by decide
  have hds := CurrentUserName_ds { app with
      repository := ⟨app.repository.ds, app.repository.faults.tail⟩ }
  unfold App.GetPage
  simp only [GetPage_eq, hread, if_false, hstored]
  refine ⟨?_, ?_, ?_, ?_, ?_⟩
  · intro hp
    rw [hp, if_neg hpub]
  · intro hp hc
    rw [if_pos hp]
    simp only [ne_eq, ite_not]
    rw [if_pos hc]
  · intro hp hc
    rw [if_pos hp]
    simp only [ne_eq, ite_not]
    rw [if_neg hc]
  · intro hp hc hu
    rw [if_pos hp]
    simp only [ne_eq, ite_not]
    have hne : ¬ caller = userName := fun h => hu (h.symm.trans hc)
    rw [if_neg hne]
  · split_ifs
    · exact hds
    · exact hds
    · rfl

/-- Witness of C3, the scenario of the specification: the private page
`(alice, blog)` is returned to alice and refused to an anonymous caller. -/
theorem GetPage_policy_witness :
    blogStore.page? "alice" "blog" = some blogPage ∧
    ((healthyApp blogStore (loggedIn aliceIdent)).GetPage "alice" "blog").1 =
      Except.ok blogPage ∧
    ((healthyApp blogStore anonymous).GetPage "alice" "blog").1 =
      Except.error (Error.NotAuthorizedError "Read page") :=
  ⟨by decide,
    (GetPage_policy (healthyApp blogStore (loggedIn aliceIdent)) "alice" "blog" blogPage
      (by decide) (by decide)).2.1 rfl (by decide),
    (GetPage_policy (healthyApp blogStore anonymous) "alice" "blog" blogPage
      (by decide) (by decide)).2.2.2.1 rfl (by decide) (by decide)⟩

/-! ## Accounts -/

/-- C5: CreateUser is all-or-nothing.  Whenever it returns an error the stored
entities are unchanged; it returns an error when the user name is taken and
when one of the datastore calls of the transaction (FindUser, StoreUser,
StoreIdentity, the commit) fails; when it returns success the datastore holds
the user (name, kind USER, full name) and the identity linking the ident to
the user name, and differs from the previous one in nothing else.  On a
datastore without failures it succeeds for a free name that passes the check
of the pattern. -/
theorem CreateUser_all_or_nothing (app : App) (ident : Ident) (userName : String) :
    (∀ err, (app.CreateUser ident userName).1 = some err →
      (app.CreateUser ident userName).2.repository.ds = app.repository.ds) ∧
    ((app.CreateUser ident userName).1 = none →
      (app.CreateUser ident userName).2.repository.ds =
        { app.repository.ds with
          users := kvPut userKey ⟨userName, UserKindUSER, userName⟩ app.repository.ds.users,
          identities := app.repository.ds.identities ++ [⟨ident, userName⟩] } ∧
      (app.CreateUser ident userName).2.repository.ds.user? userName =
        some ⟨userName, UserKindUSER, userName⟩ ∧
      (⟨ident, userName⟩ : Identity) ∈
        (app.CreateUser ident userName).2.repository.ds.identities) ∧
    (app.repository.ds.user? userName ≠ none ∨
        app.repository.faults.head? = some true ∨
        app.repository.faults.tail.head? = some true ∨
        app.repository.faults.tail.tail.head? = some true ∨
        app.repository.faults.tail.tail.tail.head? = some true →
      (app.CreateUser ident userName).1 ≠ none) ∧
    (userNameMatch userName.data = true → app.repository.ds.user? userName = none →
        app.repository.faults = [] →
      (app.CreateUser ident userName).1 = none) := by
  unfold App.CreateUser
  split_ifs with hm
  · simp at hm
    simp [hm]
  · refine ⟨?_, ?_, ?_, ?_⟩
    · intro err h
      simp only [errorOf_eq_some] at h
      exact RunInTransaction_error _ _ err h
    · intro h
      simp only [errorOf_eq_none] at h
      obtain ⟨a, h⟩ := h
      obtain ⟨h1, h2⟩ := RunInTransaction_ok _ _ a h
      simp only [h2]
      rw [createUserTx_eq] at h1 ⊢
      split_ifs at h1 ⊢
      refine ⟨rfl, ?_, ?_⟩
      · simp [Datastore.user?, kvGet_kvPut, userKey]
      · simp
    · intro h
      have hf : ∃ err, (app.repository.RunInTransaction
          (createUserTx ⟨userName, UserKindUSER, userName⟩ ⟨ident, userName⟩ userName)).1 =
            Except.error err := by
        apply RunInTransaction_fails
        rw [createUserTx_eq]
        split_ifs with h0 hu h1 h2
        · exact Or.inl ⟨_, rfl⟩
        · exact Or.inl ⟨_, rfl⟩
        · exact Or.inl ⟨_, rfl⟩
        · exact Or.inl ⟨_, rfl⟩
        · right
          rcases h with h | h | h | h | h
          · exfalso
            cases hu' : app.repository.ds.user? userName
            · exact h hu'
            · rw [hu'] at hu; simp at hu
          · exact absurd h h0
          · exact absurd h h1
          · exact absurd h h2
          · exact h
      obtain ⟨err, hf⟩ := hf
      simp only [hf, errorOf]
      simp
    · intro _ hu hfaults
      simp only [Repository.RunInTransaction, createUserTx_eq, hfaults, hu]
      simp [Repository.commit, call_eq, errorOf]

/-- Witness of C5: on the empty datastore the creation of alice succeeds and
stores the user and the identity; when the call of StoreIdentity fails, after
StoreUser has written the user, the datastore is empty again. -/
theorem CreateUser_all_or_nothing_witness :
    ((healthyApp Datastore.empty (loggedIn aliceIdent)).CreateUser aliceIdent "alice").2.repository.ds =
      { Datastore.empty with
        users := [⟨"alice", UserKindUSER, "alice"⟩],
        identities := [⟨aliceIdent, "alice"⟩] } ∧
    (App.CreateUser ⟨⟨Datastore.empty, [false, false, true]⟩, loggedIn aliceIdent⟩
      aliceIdent "alice").2.repository.ds = Datastore.empty :=
  ⟨((CreateUser_all_or_nothing (healthyApp Datastore.empty (loggedIn aliceIdent))
      aliceIdent "alice").2.1 (by decide)).1,
    (CreateUser_all_or_nothing ⟨⟨Datastore.empty, [false, false, true]⟩, loggedIn aliceIdent⟩
      aliceIdent "alice").1 Error.datastore (by decide)⟩

/-- C6, at the user name "Alice Smith!": the name has an uppercase letter, a
space and an exclamation mark, so it is not a name of the pattern read as a
whole; `regexp.MatchString` looks for a match anywhere and finds "lic", and
CreateUser stores the user and the identity. -/
theorem CreateUser_accepts_name_outside_pattern :
    specUserName "Alice Smith!" = false ∧
    ((healthyApp Datastore.empty (loggedIn aliceIdent)).CreateUser aliceIdent "Alice Smith!").1 =
      none ∧
    ((healthyApp Datastore.empty (loggedIn aliceIdent)).CreateUser aliceIdent
        "Alice Smith!").2.repository.ds =
      { Datastore.empty with
        users := [⟨"Alice Smith!", UserKindUSER, "Alice Smith!"⟩],
        identities := [⟨aliceIdent, "Alice Smith!"⟩] } := by
  decide

/-! ## Lemmas: the transactions on pages -/

theorem createPageTx_eq (page : Page) (repo : Repository) :
    createPageTx page repo =
      if repo.faults.head? = some true then
        (Except.error Error.datastore, ⟨repo.ds, repo.faults.tail⟩)
      else if (repo.ds.page? page.UserName page.Name).isSome then
        (Except.error (Error.errorString "Page already exists"), ⟨repo.ds, repo.faults.tail⟩)
      else if repo.faults.tail.head? = some true then
        (Except.error Error.datastore, ⟨repo.ds, repo.faults.tail.tail⟩)
      else
        (Except.ok (),
          ⟨{ repo.ds with pages := kvPut pageKey page repo.ds.pages },
            repo.faults.tail.tail⟩) := by
  unfold createPageTx
  by_cases h0 : repo.faults.head? = some true
  · simp only [GetPage_eq, h0, if_true]
  · cases hp : repo.ds.page? page.UserName page.Name with
    | some old => simp only [GetPage_eq, h0, if_false, hp, Option.isSome_some, if_true]
    | none =>
      by_cases h1 : repo.faults.tail.head? = some true
      · simp only [GetPage_eq, h0, hp, StorePage_eq, h1, if_true, if_false,
          Option.isSome_none, Bool.false_eq_true]
      · simp only [GetPage_eq, h0, hp, StorePage_eq, h1, if_false,
          Option.isSome_none, Bool.false_eq_true]

theorem createdPage_eq (currentUserName : String) (now : Time) (page : Page) :
    createdPage currentUserName now page =
      { UserName := currentUserName, Name := page.Name, CreationDate := now,
        LastModificationDate := now, Title := page.Title,
        ContentLicense := page.ContentLicense,
        Policy := if page.Policy = "" then PolicyPRIVATE else page.Policy,
        TemplateID := page.TemplateID, Tags := page.Tags } := by
  unfold createdPage
  simp only []
  split_ifs <;> rfl

/-- The loop of `UpdatePage` writes Usage records only; when it succeeds the
records are those of `usagesStored`, and it succeeds on a datastore without
failures. -/
theorem storeUsages_spec (page : Page) (pageTags : TagDescriptionList) (repo : Repository) :
    ∃ usages faults,
      (storeUsages page pageTags repo).2 = ⟨{ repo.ds with usages := usages }, faults⟩ ∧
      ((storeUsages page pageTags repo).1 = none →
        usages = usagesStored page pageTags repo.ds.usages) ∧
      (repo.faults = [] → (storeUsages page pageTags repo).1 = none ∧ faults = []) := by
  induction pageTags generalizing repo with
  | nil => exact ⟨repo.ds.usages, repo.faults, rfl, fun _ => rfl, fun h => ⟨rfl, h⟩⟩
  | cons t rest ih =>
    unfold storeUsages usagesStored
    by_cases hk : t.Kind = "imageId"
    · simp only [hk, if_true, StoreUsage_eq]
      by_cases h0 : repo.faults.head? = some true
      · simp only [h0, if_true]
        refine ⟨repo.ds.usages, repo.faults.tail, rfl, ?_, ?_⟩
        · intro h; simp at h
        · intro h; rw [h] at h0; simp at h0
      · simp only [h0, if_false]
        obtain ⟨usages, faults, h1, h2, h3⟩ := ih (Repository.mk
          { repo.ds with
            usages := kvPut usageKey
              ((page.UserName, page.Name), { UploadInfoKey := page.Tags.Tag t.Key })
              repo.ds.usages }
          repo.faults.tail)
        refine ⟨usages, faults, h1, h2, ?_⟩
        intro h
        apply h3
        simp only [h, List.tail_nil]
    · simp only [hk, if_false]
      exact ih repo

theorem updatePageTx_ok (page : Page) (pageTags : TagDescriptionList) (repo : Repository)
    (h : (updatePageTx page pageTags repo).1 = Except.ok ()) :
    ∃ old, repo.ds.page? page.UserName page.Name = some old ∧
      (updatePageTx page pageTags repo).2.ds =
        { repo.ds with
          pages := kvPut pageKey { page with CreationDate := old.CreationDate } repo.ds.pages,
          usages := usagesStored { page with CreationDate := old.CreationDate } pageTags
            (repo.ds.usages.filter
              (fun e => !decide (e.1 = (page.UserName, page.Name)))) } := by
  unfold updatePageTx at h ⊢
  by_cases h0 : repo.faults.head? = some true
  · simp only [GetPage_eq, h0, if_true] at h
    simp at h
  · cases hp : repo.ds.page? page.UserName page.Name with
    | none =>
      simp only [GetPage_eq, h0, if_false, hp] at h
      simp at h
    | some old =>
      refine ⟨old, rfl, ?_⟩
      simp only [GetPage_eq, h0, if_false, hp, DeleteUsages_eq] at h ⊢
      by_cases h1 : repo.faults.tail.head? = some true
      · simp only [h1, if_true] at h
        simp at h
      · by_cases h2 : repo.faults.tail.tail.head? = some true
        · simp only [h1, h2, if_true, if_false] at h
          simp at h
        · simp only [h1, h2, if_false] at h ⊢
          obtain ⟨usages, faults, e1, e2, _⟩ := storeUsages_spec
            { page with CreationDate := old.CreationDate } pageTags
            (Repository.mk
              { repo.ds with
                usages := repo.ds.usages.filter
                  (fun e => !decide (e.1 = (page.UserName, page.Name))) }
              repo.faults.tail.tail.tail)
          rcases hs : storeUsages { page with CreationDate := old.CreationDate } pageTags
            (Repository.mk
              { repo.ds with
                usages := repo.ds.usages.filter
                  (fun e => !decide (e.1 = (page.UserName, page.Name))) }
              repo.faults.tail.tail.tail) with ⟨_ | err, r⟩
          · rw [hs] at h e1 e2
            simp only [] at e1 e2 h ⊢
            have e3 := e2 trivial
            subst e1
            simp only [hs, StorePage_eq] at h ⊢
            by_cases h4 : faults.head? = some true
            · simp only [h4, if_true] at h
              simp at h
            · simp only [h4, if_false, e3]
          · rw [hs] at h
            simp at h

theorem updatePageTx_healthy (page : Page) (pageTags : TagDescriptionList) (ds : Datastore) :
    updatePageTx page pageTags ⟨ds, []⟩ =
      match ds.page? page.UserName page.Name with
      | none => (Except.error (Error.NotInDatastoreError "Page" page.Name), ⟨ds, []⟩)
      | some old =>
        (Except.ok (), ⟨{ ds with
          pages := kvPut pageKey { page with CreationDate := old.CreationDate } ds.pages,
          usages := usagesStored { page with CreationDate := old.CreationDate } pageTags
            (ds.usages.filter
              (fun e => !decide (e.1 = (page.UserName, page.Name)))) }, []⟩) := by
  unfold updatePageTx
  cases hp : ds.page? page.UserName page.Name with
  | none => simp [GetPage_eq, hp]
  | some old =>
    simp only [GetPage_eq, hp, DeleteUsages_eq, List.head?_nil, List.tail_nil, if_false,
      reduceCtorEq]
    obtain ⟨usages, faults, e1, e2, e3⟩ := storeUsages_spec
      { page with CreationDate := old.CreationDate } pageTags
      (Repository.mk
        { ds with
          usages := ds.usages.filter
            (fun e => !decide (e.1 = (page.UserName, page.Name))) }
        [])
    obtain ⟨e4, e5⟩ := e3 rfl
    have e6 := e2 e4
    rcases hs : storeUsages { page with CreationDate := old.CreationDate } pageTags
      (Repository.mk
        { ds with
          usages := ds.usages.filter
            (fun e => !decide (e.1 = (page.UserName, page.Name))) }
        []) with ⟨res, r⟩
    rw [hs] at e1 e4
    simp only [] at e1 e4
    subst e1 e4 e5
    simp only [hs, StorePage_eq, List.head?_nil, List.tail_nil, if_false, reduceCtorEq, e6]

/-! ## Pages -/

/-- C8: UpdatePage called by the owner of the page.  When no page
`(page.UserName, page.Name)` is stored the call fails and the stored entities
(pages and Usage records among them) are unchanged, and on a datastore without
failures the error is the NotInDatastoreError of the page.  When a page is
stored, the page stored after a successful call has the creation date of the
previously stored page, the call time as last modification date and every
other field as supplied; on a datastore without failures the call succeeds. -/
theorem UpdatePage_keeps_creationDate (app : App) (now : Time) (page : Page) (pageTags : TagDescriptionList)
    (howner : app.CurrentUserName.1 = page.UserName) (hname : page.UserName ≠ "") :
    (app.repository.ds.page? page.UserName page.Name = none →
      (app.UpdatePage now page pageTags).1 ≠ none ∧
      (app.UpdatePage now page pageTags).2.repository.ds = app.repository.ds ∧
      (app.repository.faults = [] →
        (app.UpdatePage now page pageTags).1 =
          some (Error.NotInDatastoreError "Page" page.Name))) ∧
    (∀ old, app.repository.ds.page? page.UserName page.Name = some old →
      ((app.UpdatePage now page pageTags).1 = none →
        (app.UpdatePage now page pageTags).2.repository.ds.page? page.UserName page.Name =
          some { page with CreationDate := old.CreationDate, LastModificationDate := now }) ∧
      (app.repository.faults = [] → (app.UpdatePage now page pageTags).1 = none)) := by
  have hds := CurrentUserName_ds app
  have hhealthy := CurrentUserName_healthy app
  unfold App.UpdatePage
  rcases hc : app.CurrentUserName with ⟨cur, app1⟩
  rw [hc] at howner hds hhealthy
  simp only [] at howner hds hhealthy
  subst howner
  have hcond : ¬ (page.UserName = "" ∨ page.UserName ≠ page.UserName) := by
    simp only [ne_eq, not_true_eq_false, or_false]
    exact hname
  simp only [hcond, if_false]
  constructor
  · intro hp
    have herr : ∃ err, (app1.repository.RunInTransaction
        (updatePageTx { page with LastModificationDate := now } pageTags)).1 =
          Except.error err := by
      apply RunInTransaction_fails
      left
      unfold updatePageTx
      simp only [GetPage_eq, hds, hp]
      split_ifs <;> exact ⟨_, rfl⟩
    obtain ⟨err, herr⟩ := herr
    refine ⟨?_, ?_, ?_⟩
    · simp [herr, errorOf]
    · rw [RunInTransaction_error _ _ err herr, hds]
    · intro hf
      have h1 := hhealthy hf
      subst h1
      rcases app1 with ⟨⟨ds, faults⟩, ui⟩
      simp only [] at hf hp
      subst hf
      simp only [Repository.RunInTransaction, updatePageTx_healthy, hp, commit_healthy, errorOf]
  · intro old hp
    constructor
    · intro h
      simp only [errorOf_eq_none] at h
      obtain ⟨a, h⟩ := h
      obtain ⟨h1, h2⟩ := RunInTransaction_ok _ _ a h
      obtain ⟨old', h3, h4⟩ := updatePageTx_ok _ _ _ h1
      simp only [hds] at h3
      rw [hp] at h3
      simp only [Option.some.injEq] at h3
      subst h3
      simp only [h2, h4, Datastore.page?, kvGet_kvPut, pageKey, if_true]
    · intro hf
      have h1 := hhealthy hf
      subst h1
      rcases app1 with ⟨⟨ds, faults⟩, ui⟩
      simp only [] at hf hp
      subst hf
      simp only [Repository.RunInTransaction, updatePageTx_healthy, hp, commit_healthy, errorOf]

/-- Witness of C8: alice renames her page at time 9; an update of a page that is
not stored is refused with NotInDatastoreError. -/
theorem UpdatePage_keeps_creationDate_witness :
    (App.CurrentUserName (healthyApp blogStore (loggedIn aliceIdent))).1 = "alice" ∧
    blogStore.page? "alice" "blog" = some blogPage ∧
    ((healthyApp blogStore (loggedIn aliceIdent)).UpdatePage 9
        { blogPage with Title := "Notes", CreationDate := 5 } []).2.repository.ds.page?
        "alice" "blog" =
      some { blogPage with Title := "Notes", CreationDate := 1, LastModificationDate := 9 } ∧
    ((healthyApp accountsStore (loggedIn aliceIdent)).UpdatePage 9 blogPage []).1 =
      some (Error.NotInDatastoreError "Page" "blog") :=
  ⟨by decide, by decide,
    ((UpdatePage_keeps_creationDate (healthyApp blogStore (loggedIn aliceIdent)) 9
      { blogPage with Title := "Notes", CreationDate := 5 } []
      (by decide) (by decide)).2 blogPage (by decide)).1 (by decide),
    ((UpdatePage_keeps_creationDate (healthyApp accountsStore (loggedIn aliceIdent)) 9
      blogPage [] (by decide) (by decide)).1 (by decide)).2.2 rfl⟩

/-- C9: after a successful CreatePage the page stored under the user name of the
caller and the given page name has both dates equal to the call time, the
policy PRIVATE when the supplied policy is empty and the supplied policy
otherwise, and the title, content license, template id and tags supplied by
the caller; nothing else is written.  On a datastore without failures
CreatePage succeeds for a logged-in caller who has no page of that name. -/
theorem CreatePage_stored (app : App) (now : Time) (page : Page) :
    let stored : Page :=
      { UserName := app.CurrentUserName.1, Name := page.Name, CreationDate := now,
        LastModificationDate := now, Title := page.Title,
        ContentLicense := page.ContentLicense,
        Policy := if page.Policy = "" then PolicyPRIVATE else page.Policy,
        TemplateID := page.TemplateID, Tags := page.Tags }
    ((app.CreatePage now page).1 = none →
      (app.CreatePage now page).2.repository.ds.page? app.CurrentUserName.1 page.Name =
        some stored ∧
      (app.CreatePage now page).2.repository.ds =
        { app.repository.ds with
          pages := kvPut pageKey stored app.repository.ds.pages } ∧
      stored.CreationDate = stored.LastModificationDate) ∧
    (app.repository.faults = [] → app.CurrentUserName.1 ≠ "" →
      app.repository.ds.page? app.CurrentUserName.1 page.Name = none →
      (app.CreatePage now page).1 = none) := by
  have hds := CurrentUserName_ds app
  have hhealthy := CurrentUserName_healthy app
  unfold App.CreatePage
  generalize app.CurrentUserName = c at hds hhealthy ⊢
  rcases c with ⟨cur, app1⟩
  simp only [createdPage_eq] at hds hhealthy ⊢
  generalize (if page.Policy = "" then PolicyPRIVATE else page.Policy) = policy
  by_cases hcur : cur = ""
  · simp [hcur]
  · simp only [hcur, if_false]
    constructor
    · intro h
      simp only [errorOf_eq_none] at h
      obtain ⟨a, h⟩ := h
      obtain ⟨h1, h2⟩ := RunInTransaction_ok _ _ a h
      rw [h2]
      rw [createPageTx_eq] at h1 ⊢
      split_ifs at h1 ⊢
      simp only [hds, Datastore.page?, kvGet_kvPut, pageKey, if_true, true_and, and_true]
    · intro hf _ hp
      have h1 := hhealthy hf
      subst h1
      rcases app1 with ⟨⟨ds, faults⟩, ui⟩
      simp only [] at hf hp
      subst hf
      simp only [Repository.RunInTransaction, createPageTx_eq, hp, List.head?_nil,
        List.tail_nil, reduceCtorEq, if_false, Option.isSome_none, Bool.false_eq_true,
        commit_healthy, errorOf]

/-- Witness of C9: alice creates the page `(alice, blog)` at time 1 without giving
a policy. -/
theorem CreatePage_stored_witness :
    ((healthyApp accountsStore (loggedIn aliceIdent)).CreatePage 1
        { blogPage with Policy := "", CreationDate := 0, LastModificationDate := 0 }).1 = none ∧
    ((healthyApp accountsStore (loggedIn aliceIdent)).CreatePage 1
        { blogPage with Policy := "", CreationDate := 0, LastModificationDate := 0
          }).2.repository.ds.page? "alice" "blog" = some blogPage :=
  ⟨by decide,
    ((CreatePage_stored (healthyApp accountsStore (loggedIn aliceIdent)) 1
      { blogPage with Policy := "", CreationDate := 0, LastModificationDate := 0 }).1
      (by decide)).1⟩

/-- CreatePage on a page whose key is taken: the key is made of the user name of
the caller and of the name of the page. -/
theorem CreatePage_of_existing (app : App) (now : Time) (page old : Page)
    (h : app.repository.ds.page? app.CurrentUserName.1 page.Name = some old) :
    (app.CreatePage now page).1 ≠ none ∧
    (app.CreatePage now page).2.repository.ds = app.repository.ds ∧
    (app.CreatePage now page).2.repository.ds.page? app.CurrentUserName.1 page.Name =
      some old ∧
    (app.repository.faults = [] → app.CurrentUserName.1 ≠ "" →
      (app.CreatePage now page).1 = some (Error.errorString "Page already exists")) := by
  have hds := CurrentUserName_ds app
  have hhealthy := CurrentUserName_healthy app
  unfold App.CreatePage
  generalize app.CurrentUserName = c at hds hhealthy h ⊢
  rcases c with ⟨cur, app1⟩
  simp only [] at hds hhealthy h ⊢
  by_cases hcur : cur = ""
  · subst hcur
    simp [hds, h]
  · simp only [hcur, if_false]
    have hu : (createdPage cur now page).UserName = cur := by rw [createdPage_eq]
    have hn : (createdPage cur now page).Name = page.Name := by rw [createdPage_eq]
    have herr : ∃ err, (app1.repository.RunInTransaction
        (createPageTx (createdPage cur now page))).1 = Except.error err := by
      apply RunInTransaction_fails
      left
      rw [createPageTx_eq]
      simp only [hu, hn, hds, h, Option.isSome_some, if_true]
      split_ifs <;> exact ⟨_, rfl⟩
    obtain ⟨err, herr⟩ := herr
    have hsame := RunInTransaction_error _ _ err herr
    refine ⟨?_, ?_, ?_, ?_⟩
    · simp [herr, errorOf]
    · rw [hsame, hds]
    · rw [hsame, hds, h]
    · intro hf _
      have h1 := hhealthy hf
      subst h1
      rcases app1 with ⟨⟨ds, faults⟩, ui⟩
      simp only [] at hf h
      subst hf
      simp only [Repository.RunInTransaction, createPageTx_eq, hu, hn, h, List.head?_nil,
        List.tail_nil, reduceCtorEq, if_false, Option.isSome_some, if_true,
        commit_healthy, errorOf]

/-! ## Lemmas: what the successful operations do -/

/-- What a successful CreatePage does. -/
theorem CreatePage_ok (app : App) (now : Time) (page : Page)
    (h : (app.CreatePage now page).1 = none) :
    app.CurrentUserName.1 ≠ "" ∧
    app.repository.ds.page? app.CurrentUserName.1 page.Name = none ∧
    (app.CreatePage now page).2.repository.ds =
      { app.repository.ds with
        pages := kvPut pageKey
          (createdPage app.CurrentUserName.1 now page) app.repository.ds.pages } := by
  have hds := CurrentUserName_ds app
  unfold App.CreatePage at h ⊢
  generalize app.CurrentUserName = c at hds h ⊢
  rcases c with ⟨cur, app1⟩
  simp only [] at hds h ⊢
  by_cases hcur : cur = ""
  · simp [hcur] at h
  · simp only [hcur, if_false] at h ⊢
    simp only [errorOf_eq_none] at h
    obtain ⟨a, h⟩ := h
    obtain ⟨h1, h2⟩ := RunInTransaction_ok _ _ a h
    have hu : (createdPage cur now page).UserName = cur := by rw [createdPage_eq]
    have hn : (createdPage cur now page).Name = page.Name := by rw [createdPage_eq]
    rw [h2]
    rw [createPageTx_eq] at h1 ⊢
    simp only [hu, hn, hds] at h1 ⊢
    split_ifs at h1 ⊢ with h3 h4 h5
    refine ⟨hcur, ?_, rfl⟩
    cases hp : app.repository.ds.page? cur page.Name
    · rfl
    · rw [hp] at h4
      simp at h4

/-- What a successful UpdatePage does. -/
theorem UpdatePage_ok (app : App) (now : Time) (page : Page) (pageTags : TagDescriptionList)
    (h : (app.UpdatePage now page pageTags).1 = none) :
    app.CurrentUserName.1 = page.UserName ∧ page.UserName ≠ "" ∧
    ∃ old, app.repository.ds.page? page.UserName page.Name = some old ∧
      (app.UpdatePage now page pageTags).2.repository.ds =
        { app.repository.ds with
          pages := kvPut pageKey
            { page with CreationDate := old.CreationDate, LastModificationDate := now }
            app.repository.ds.pages,
          usages := usagesStored
            { page with CreationDate := old.CreationDate, LastModificationDate := now } pageTags
            (app.repository.ds.usages.filter
              (fun e => !decide (e.1 = (page.UserName, page.Name)))) } := by
  have hds := CurrentUserName_ds app
  unfold App.UpdatePage at h ⊢
  generalize app.CurrentUserName = c at hds h ⊢
  rcases c with ⟨cur, app1⟩
  simp only [] at hds h ⊢
  by_cases hcond : cur = "" ∨ cur ≠ page.UserName
  · simp [hcond] at h
  · simp only [hcond, if_false] at h ⊢
    simp only [not_or, ne_eq, not_not] at hcond
    obtain ⟨hc1, hc2⟩ := hcond
    subst hc2
    simp only [errorOf_eq_none] at h
    obtain ⟨a, h⟩ := h
    obtain ⟨h1, h2⟩ := RunInTransaction_ok _ _ a h
    obtain ⟨old, h3, h4⟩ := updatePageTx_ok _ _ _ h1
    simp only [hds] at h3 h4
    exact ⟨rfl, hc1, old, h3, by rw [h2, h4]⟩

theorem GetPage_ok (app : App) (userName pageName : String) (page : Page)
    (h : (app.GetPage userName pageName).1 = Except.ok page) :
    app.repository.ds.page? userName pageName = some page ∧
    (page.Policy = PolicyPRIVATE →
      (App.CurrentUserName { app with
        repository := ⟨app.repository.ds, app.repository.faults.tail⟩ }).1 = userName) := by
  unfold App.GetPage at h
  simp only [GetPage_eq] at h
  by_cases h0 : app.repository.faults.head? = some true
  · simp [h0] at h
  · simp only [h0, if_false] at h
    cases hp : app.repository.ds.page? userName pageName with
    | none => simp [hp] at h
    | some p =>
      simp only [hp] at h
      by_cases hpol : p.Policy = PolicyPRIVATE
      · simp only [hpol, if_true] at h
        split_ifs at h with hc
        simp only [Except.ok.injEq] at h
        subst h
        simp only [ne_eq, not_not] at hc
        exact ⟨rfl, fun _ => hc⟩
      · simp only [hpol, if_false, Except.ok.injEq] at h
        subst h
        exact ⟨rfl, fun hx => absurd hx hpol⟩

theorem pageDateTx_ok (userName pageName : String) (date : Time) (repo : Repository)
    (h : (pageDateTx userName pageName date repo).1 = Except.ok ()) :
    ∃ page, repo.ds.page? userName pageName = some page ∧
      (pageDateTx userName pageName date repo).2.ds =
        { repo.ds with
          pages := kvPut pageKey { page with LastModificationDate := date } repo.ds.pages } := by
  unfold pageDateTx at h ⊢
  simp only [GetPage_eq] at h ⊢
  by_cases h0 : repo.faults.head? = some true
  · simp [h0] at h
  · cases hp : repo.ds.page? userName pageName with
    | none => simp [h0, hp] at h
    | some page =>
      refine ⟨page, rfl, ?_⟩
      simp only [h0, if_false, hp, StorePage_eq] at h ⊢
      by_cases h1 : repo.faults.tail.head? = some true
      · simp [h1] at h
      · simp only [h1, if_false]

theorem pageDateTx_healthy (userName pageName : String) (date : Time) (ds : Datastore) :
    pageDateTx userName pageName date ⟨ds, []⟩ =
      match ds.page? userName pageName with
      | none => (Except.error (Error.NotInDatastoreError "Page" pageName), ⟨ds, []⟩)
      | some page =>
        (Except.ok (), ⟨{ ds with
          pages := kvPut pageKey { page with LastModificationDate := date } ds.pages }, []⟩) := by
  unfold pageDateTx
  cases hp : ds.page? userName pageName <;>
    simp [GetPage_eq, hp, StorePage_eq]

theorem thenPageDate_ok (app : App) (userName pageName : String)
    (r : Except Error Item × Repository) (i : Item)
    (h : (thenPageDate app userName pageName r).1 = Except.ok i) :
    r.1 = Except.ok i ∧
    ∃ page, r.2.ds.page? userName pageName = some page ∧
      (thenPageDate app userName pageName r).2.repository.ds =
        { r.2.ds with
          pages := kvPut pageKey
            { page with LastModificationDate := i.LastModificationDate } r.2.ds.pages } := by
  unfold thenPageDate at h ⊢
  rcases r with ⟨_ | j, repo⟩
  · simp at h
  · simp only [] at h ⊢
    rcases ht : repo.RunInTransaction (pageDateTx userName pageName j.LastModificationDate)
      with ⟨_ | u, repo2⟩
    · rw [ht] at h; simp at h
    · rw [ht] at h
      simp only [Except.ok.injEq] at h
      subst h
      have ht1 : (repo.RunInTransaction
          (pageDateTx userName pageName j.LastModificationDate)).1 = Except.ok () := by
        rw [ht]
      obtain ⟨h1, h2⟩ := RunInTransaction_ok _ _ _ ht1
      obtain ⟨page, h3, h4⟩ := pageDateTx_ok _ _ _ _ h1
      refine ⟨rfl, page, h3, ?_⟩
      rw [ht] at h2
      simp only [] at h2
      rw [h2, h4]

theorem putItemTx_ok (userName pageName : String) (i j : Item) (repo : Repository)
    (h : (putItemTx userName pageName i repo).1 = Except.ok j) :
    j = i ∧ (putItemTx userName pageName i repo).2.ds =
      { repo.ds with items := kvPut itemKey ((userName, pageName), i) repo.ds.items } := by
  unfold putItemTx at h ⊢
  simp only [StoreItem_eq] at h ⊢
  by_cases h0 : repo.faults.head? = some true
  · simp [h0] at h
  · simp only [h0, if_false, Except.ok.injEq] at h ⊢
    exact ⟨h.symm, trivial⟩

theorem updateItemTx_ok (userName pageName : String) (i j : Item) (updateTags : Bool)
    (repo : Repository)
    (h : (updateItemTx userName pageName i updateTags repo).1 = Except.ok j) :
    ∃ oldItem, repo.ds.item? userName pageName i.ID = some oldItem ∧
      j = { i with CreationDate := oldItem.CreationDate,
                   Tags := if updateTags then i.Tags else oldItem.Tags } ∧
      (updateItemTx userName pageName i updateTags repo).2.ds =
        { repo.ds with items := kvPut itemKey ((userName, pageName), j) repo.ds.items } := by
  unfold updateItemTx at h ⊢
  simp only [GetItem_eq] at h ⊢
  by_cases h0 : repo.faults.head? = some true
  · simp [h0] at h
  · cases ho : repo.ds.item? userName pageName i.ID with
    | none => simp [h0, ho] at h
    | some oldItem =>
      refine ⟨oldItem, rfl, ?_⟩
      simp only [h0, if_false, ho, StoreItem_eq] at h ⊢
      by_cases h1 : repo.faults.tail.head? = some true
      · simp [h1] at h
      · simp only [h1, if_false, Except.ok.injEq] at h ⊢
        subst h
        cases updateTags <;> simp

theorem setItemTagTx_ok (userName pageName itemID tagKey tagValue : String) (tNow : Time)
    (repo : Repository)
    (h : (setItemTagTx userName pageName itemID tagKey tagValue tNow repo).1 = Except.ok ()) :
    ∃ oldItem, repo.ds.item? userName pageName itemID = some oldItem ∧
      (setItemTagTx userName pageName itemID tagKey tagValue tNow repo).2.ds =
        { repo.ds with
          items := kvPut itemKey
            ((userName, pageName),
              { oldItem with LastModificationDate := tNow,
                             Tags := oldItem.Tags.SetTag tagKey tagValue })
            repo.ds.items } := by
  unfold setItemTagTx at h ⊢
  simp only [GetItem_eq] at h ⊢
  by_cases h0 : repo.faults.head? = some true
  · simp [h0] at h
  · cases ho : repo.ds.item? userName pageName itemID with
    | none => simp [h0, ho] at h
    | some oldItem =>
      refine ⟨oldItem, rfl, ?_⟩
      simp only [h0, if_false, ho, StoreItem_eq] at h ⊢
      by_cases h1 : repo.faults.tail.head? = some true
      · simp [h1] at h
      · simp only [h1, if_false]

theorem updateTemplateTx_ok (userName pageName newTemplateID : String) (tNow : Time)
    (repo : Repository)
    (h : (updateTemplateTx userName pageName newTemplateID tNow repo).1 = Except.ok ()) :
    ∃ page, repo.ds.page? userName pageName = some page ∧
      (updateTemplateTx userName pageName newTemplateID tNow repo).2.ds =
        if page.TemplateID = newTemplateID then repo.ds
        else
          { repo.ds with
            pages := kvPut pageKey
              { page with LastModificationDate := tNow, TemplateID := newTemplateID }
              repo.ds.pages } := by
  unfold updateTemplateTx at h ⊢
  simp only [GetPage_eq] at h ⊢
  by_cases h0 : repo.faults.head? = some true
  · simp [h0] at h
  · cases hp : repo.ds.page? userName pageName with
    | none => simp [h0, hp] at h
    | some page =>
      refine ⟨page, rfl, ?_⟩
      simp only [h0, if_false, hp] at h ⊢
      by_cases ht : page.TemplateID = newTemplateID
      · simp only [ht, if_true]
      · simp only [ht, if_false, StorePage_eq] at h ⊢
        by_cases h1 : repo.faults.tail.head? = some true
        · simp [h1] at h
        · simp only [h1, if_false]

theorem uniqueItemID_ok (generateID : Nat → String) (userName pageName : String)
    (fuel k : Nat) (repo : Repository) (id : String) (repo' : Repository)
    (h : uniqueItemID generateID userName pageName fuel k repo = some (Except.ok id, repo')) :
    repo'.ds = repo.ds ∧ repo.ds.item? userName pageName id = none ∧
      ∃ k', k ≤ k' ∧ id = generateID k' := by
  induction fuel generalizing k repo with
  | zero => simp [uniqueItemID] at h
  | succ fuel ih =>
    unfold uniqueItemID at h
    simp only [FindItem_eq] at h
    by_cases h0 : repo.faults.head? = some true
    · simp [h0] at h
    · simp only [h0, if_false] at h
      cases hi : repo.ds.item? userName pageName (generateID k) with
      | none =>
        simp only [hi, Option.isSome_none, Option.some.injEq, Prod.mk.injEq,
          Except.ok.injEq] at h
        obtain ⟨h1, h2⟩ := h
        subst h1 h2
        exact ⟨rfl, hi, k, le_refl k, rfl⟩
      | some it =>
        simp only [hi, Option.isSome_some] at h
        obtain ⟨h1, h2, k', h3, h4⟩ := ih (k + 1) _ h
        exact ⟨h1, h2, k', by omega, h4⟩

theorem createItemTx_ok (generateID : Nat → String) (fuel : Nat) (userName pageName : String)
    (i j : Item) (repo repo' : Repository)
    (h : createItemTx generateID fuel userName pageName i repo = some (Except.ok j, repo')) :
    repo.ds.item? userName pageName j.ID = none ∧ j = { i with ID := j.ID } ∧
      (∃ k, j.ID = generateID k) ∧
      repo'.ds = { repo.ds with items := kvPut itemKey ((userName, pageName), j) repo.ds.items } := by
  unfold createItemTx at h
  rcases hu : uniqueItemID generateID userName pageName fuel 0 repo with _ | ⟨_ | id, repo1⟩
  · rw [hu] at h; simp at h
  · rw [hu] at h; simp at h
  · rw [hu] at h
    simp only [StoreItem_eq] at h
    obtain ⟨h1, h2, k, _, h3⟩ := uniqueItemID_ok _ _ _ _ _ _ _ _ hu
    by_cases h0 : repo1.faults.head? = some true
    · simp [h0] at h
    · simp only [h0, if_false, Option.some.injEq, Prod.mk.injEq, Except.ok.injEq] at h
      obtain ⟨h4, h5⟩ := h
      subst h4 h5
      simp only [h1]
      exact ⟨h2, trivial, ⟨k, h3⟩, trivial⟩

theorem itemWritten_of (app : App) (userName pageName : String)
    (r : Except Error Item × Repository) (ds : Datastore) (i j : Item)
    (h : (thenPageDate app userName pageName r).1 = Except.ok j)
    (hr : r.1 = Except.ok j → j = i ∧
      r.2.ds = { ds with items := kvPut itemKey ((userName, pageName), i) ds.items }) :
    j = i ∧ itemWritten ds (thenPageDate app userName pageName r).2.repository.ds
      userName pageName i := by
  obtain ⟨h1, page, h2, h3⟩ := thenPageDate_ok app userName pageName r j h
  obtain ⟨h4, h5⟩ := hr h1
  subst h4
  refine ⟨rfl, page, ?_, ?_⟩
  · rw [h5] at h2
    exact h2
  · rw [h3, h5]

theorem PutItem_ok (app : App) (markdownToHTML : String → String) (userName pageName : String)
    (i j : Item) (h : (app.PutItem markdownToHTML userName pageName i).1 = Except.ok j) :
    app.CurrentUserName.1 = userName ∧ userName ≠ "" ∧
    j = { i with HTMLContent := markdownToHTML i.Content } ∧
    itemWritten app.repository.ds (app.PutItem markdownToHTML userName pageName i).2.repository.ds
      userName pageName j := by
  have hds := CurrentUserName_ds app
  unfold App.PutItem at h ⊢
  generalize app.CurrentUserName = c at hds h ⊢
  rcases c with ⟨cur, app1⟩
  simp only [] at hds h ⊢
  by_cases hcond : cur = "" ∨ cur ≠ userName
  · simp [hcond] at h
  · simp only [hcond, if_false] at h ⊢
    simp only [not_or, ne_eq, not_not] at hcond
    obtain ⟨hc1, hc2⟩ := hcond
    subst hc2
    by_cases hempty : i.Content = "" ∧ i.URL = ""
    · simp [hempty] at h
    · simp only [hempty, if_false] at h ⊢
      obtain ⟨h1, h2⟩ := itemWritten_of app1 cur pageName _ app.repository.ds
        { i with HTMLContent := markdownToHTML i.Content } j h (by
          intro hr
          obtain ⟨h3, h4⟩ := RunInTransaction_ok _ _ _ hr
          obtain ⟨h5, h6⟩ := putItemTx_ok _ _ _ _ _ h3
          exact ⟨h5, by rw [h4, h6, hds]⟩)
      subst h1
      exact ⟨by first | rfl | trivial, hc1, rfl, h2⟩

theorem UpdateItem_ok (app : App) (now : Time) (markdownToHTML : String → String)
    (userName pageName : String) (i j : Item) (updateTags : Bool)
    (h : (app.UpdateItem now markdownToHTML userName pageName i updateTags).1 = Except.ok j) :
    app.CurrentUserName.1 = userName ∧ userName ≠ "" ∧
    (∃ oldItem, app.repository.ds.item? userName pageName i.ID = some oldItem ∧
      j = { i with HTMLContent := markdownToHTML i.Content, LastModificationDate := now,
                   CreationDate := oldItem.CreationDate,
                   Tags := if updateTags then i.Tags else oldItem.Tags }) ∧
    itemWritten app.repository.ds
      (app.UpdateItem now markdownToHTML userName pageName i updateTags).2.repository.ds
      userName pageName j := by
  have hds := CurrentUserName_ds app
  unfold App.UpdateItem at h ⊢
  generalize app.CurrentUserName = c at hds h ⊢
  rcases c with ⟨cur, app1⟩
  simp only [] at hds h ⊢
  by_cases hcond : cur = "" ∨ cur ≠ userName
  · simp [hcond] at h
  · simp only [hcond, if_false] at h ⊢
    simp only [not_or, ne_eq, not_not] at hcond
    obtain ⟨hc1, hc2⟩ := hcond
    subst hc2
    by_cases hempty : i.Content = "" ∧ i.URL = ""
    · simp [hempty] at h
    · simp only [hempty, if_false] at h ⊢
      obtain ⟨h0, page, h2, h3⟩ := thenPageDate_ok app1 cur pageName _ j h
      obtain ⟨h4, h5⟩ := RunInTransaction_ok _ _ _ h0
      obtain ⟨oldItem, h6, h7, h8⟩ := updateItemTx_ok _ _ _ _ _ _ h4
      simp only [hds] at h6 h8
      refine ⟨by first | rfl | trivial, hc1, ⟨oldItem, h6, h7⟩, page, ?_, ?_⟩
      · rw [h5, h8] at h2
        exact h2
      · rw [h3, h5, h8]

theorem SetItemTag_ok (app : App) (now : Time) (userName pageName itemID tagKey tagValue : String)
    (h : (app.SetItemTag now userName pageName itemID tagKey tagValue).1 = none) :
    app.CurrentUserName.1 = userName ∧ userName ≠ "" ∧ tagKey ≠ "" ∧
    ∃ oldItem, app.repository.ds.item? userName pageName itemID = some oldItem ∧
      itemWritten app.repository.ds
        (app.SetItemTag now userName pageName itemID tagKey tagValue).2.repository.ds
        userName pageName
        { oldItem with LastModificationDate := now,
                       Tags := oldItem.Tags.SetTag tagKey tagValue } := by
  have hds := CurrentUserName_ds app
  unfold App.SetItemTag at h ⊢
  generalize app.CurrentUserName = c at hds h ⊢
  rcases c with ⟨cur, app1⟩
  simp only [] at hds h ⊢
  by_cases hcond : cur = "" ∨ cur ≠ userName
  · simp [hcond] at h
  · simp only [hcond, if_false] at h ⊢
    simp only [not_or, ne_eq, not_not] at hcond
    obtain ⟨hc1, hc2⟩ := hcond
    subst hc2
    by_cases hkey : tagKey = ""
    · simp [hkey] at h
    · simp only [hkey, if_false] at h ⊢
      rcases ht : app1.repository.RunInTransaction
        (setItemTagTx cur pageName itemID tagKey tagValue now) with ⟨_ | u, repo1⟩
      · rw [ht] at h; simp at h
      · rw [ht] at h
        dsimp only at h ⊢
        simp only [errorOf_eq_none] at h
        obtain ⟨a, h⟩ := h
        have ht1 : (app1.repository.RunInTransaction
            (setItemTagTx cur pageName itemID tagKey tagValue now)).1 = Except.ok () := by
          rw [ht]
        obtain ⟨h4, h5⟩ := RunInTransaction_ok _ _ _ ht1
        obtain ⟨oldItem, h6, h8⟩ := setItemTagTx_ok _ _ _ _ _ _ _ h4
        rw [ht] at h5
        simp only [hds] at h5 h6 h8
        obtain ⟨h9, h10⟩ := RunInTransaction_ok _ _ _ h
        obtain ⟨page, h11, h12⟩ := pageDateTx_ok _ _ _ _ h9
        refine ⟨by first | rfl | trivial, hc1, hkey, oldItem, h6, page, ?_, ?_⟩
        · rw [h5, h8] at h11
          exact h11
        · rw [h10, h12, h5, h8]

theorem CreateItem_ok (app app' : App) (now : Time) (markdownToHTML : String → String)
    (generateID : Nat → String) (fuel : Nat) (userName pageName : String) (i j : Item)
    (h : app.CreateItem now markdownToHTML generateID fuel userName pageName i =
      some (Except.ok j, app')) :
    app.CurrentUserName.1 = userName ∧ userName ≠ "" ∧
    j = { i with HTMLContent := markdownToHTML i.Content, CreationDate := now,
                 LastModificationDate := now, ID := j.ID } ∧
    (∃ k, j.ID = generateID k) ∧
    app.repository.ds.item? userName pageName j.ID = none ∧
    itemWritten app.repository.ds app'.repository.ds userName pageName j := by
  have hds := CurrentUserName_ds app
  unfold App.CreateItem at h
  generalize app.CurrentUserName = c at hds h ⊢
  rcases c with ⟨cur, app1⟩
  simp only [] at hds h ⊢
  by_cases hcond : cur = "" ∨ cur ≠ userName
  · simp [hcond] at h
  · simp only [hcond, if_false] at h
    simp only [not_or, ne_eq, not_not] at hcond
    obtain ⟨hc1, hc2⟩ := hcond
    subst hc2
    by_cases hempty : i.Content = "" ∧ i.URL = ""
    · simp [hempty] at h
    · simp only [hempty, if_false] at h
      rcases hc : createItemTx generateID fuel cur pageName
          { i with HTMLContent := markdownToHTML i.Content,
                   CreationDate := now, LastModificationDate := now } app1.repository
        with _ | ⟨r1, repo1⟩
      · rw [hc] at h; simp at h
      · rw [hc] at h
        simp only [Option.some.injEq] at h
        have h1 : (thenPageDate app1 cur pageName (app1.repository.commit (r1, repo1))).1 =
            Except.ok j := by rw [h]
        have h2 : (thenPageDate app1 cur pageName
            (app1.repository.commit (r1, repo1))).2 = app' := by rw [h]
        obtain ⟨h3, page, h4, h5⟩ := thenPageDate_ok app1 cur pageName _ j h1
        obtain ⟨h6, h7⟩ := commit_ok _ _ _ h3
        simp only [] at h6 h7
        subst h6
        obtain ⟨h8, h9, h10, h11⟩ := createItemTx_ok _ _ _ _ _ _ _ _ hc
        simp only [hds] at h8 h11
        rw [h2] at h5
        refine ⟨rfl, hc1, ?_, h10, h8, page, ?_, ?_⟩
        · rw [h9]
        · rw [h7, h11] at h4
          exact h4
        · rw [h5, h7, h11]

theorem UpdateTemplate_ok (app : App) (now : Time) (userName pageName newTemplateID : String)
    (h : (app.UpdateTemplate now userName pageName newTemplateID).1 = none) :
    app.CurrentUserName.1 = userName ∧ userName ≠ "" ∧
    ∃ page, app.repository.ds.page? userName pageName = some page ∧
      (app.UpdateTemplate now userName pageName newTemplateID).2.repository.ds =
        if page.TemplateID = newTemplateID then app.repository.ds
        else
          { app.repository.ds with
            pages := kvPut pageKey
              { page with LastModificationDate := now, TemplateID := newTemplateID }
              app.repository.ds.pages } := by
  have hds := CurrentUserName_ds app
  unfold App.UpdateTemplate at h ⊢
  generalize app.CurrentUserName = c at hds h ⊢
  rcases c with ⟨cur, app1⟩
  simp only [] at hds h ⊢
  by_cases hcond : cur = "" ∨ cur ≠ userName
  · simp [hcond] at h
  · simp only [hcond, if_false] at h ⊢
    simp only [not_or, ne_eq, not_not] at hcond
    obtain ⟨hc1, hc2⟩ := hcond
    subst hc2
    simp only [errorOf_eq_none] at h
    obtain ⟨a, h⟩ := h
    obtain ⟨h1, h2⟩ := RunInTransaction_ok _ _ a h
    obtain ⟨page, h3, h4⟩ := updateTemplateTx_ok _ _ _ _ _ h1
    simp only [hds] at h3 h4
    exact ⟨rfl, hc1, page, h3, by rw [h2, h4]⟩

theorem DeleteItem_ok (app : App) (userName pageName itemID : String)
    (h : (app.DeleteItem userName pageName itemID).1 = none) :
    app.CurrentUserName.1 = userName ∧ userName ≠ "" ∧
    (app.DeleteItem userName pageName itemID).2.repository.ds =
      { app.repository.ds with
        items := kvDelete itemKey (userName, pageName, itemID) app.repository.ds.items } := by
  have hds := CurrentUserName_ds app
  unfold App.DeleteItem at h ⊢
  generalize app.CurrentUserName = c at hds h ⊢
  rcases c with ⟨cur, app1⟩
  simp only [] at hds h ⊢
  by_cases hcond : cur = "" ∨ cur ≠ userName
  · simp [hcond] at h
  · simp only [hcond, if_false] at h ⊢
    simp only [not_or, ne_eq, not_not] at hcond
    obtain ⟨hc1, hc2⟩ := hcond
    subst hc2
    simp only [DeleteItem_eq] at h ⊢
    by_cases h0 : app1.repository.faults.head? = some true
    · simp [h0] at h
    · simp only [h0, if_false, hds]
      exact ⟨trivial, hc1, trivial⟩

theorem CreateUser_ok (app : App) (ident : Ident) (userName : String)
    (h : (app.CreateUser ident userName).1 = none) :
    (app.CreateUser ident userName).2.repository.ds =
      { app.repository.ds with
        users := kvPut userKey ⟨userName, UserKindUSER, userName⟩ app.repository.ds.users,
        identities := app.repository.ds.identities ++ [⟨ident, userName⟩] } := by
  unfold App.CreateUser at h ⊢
  split_ifs at h ⊢ with hm
  simp only [errorOf_eq_none] at h
  obtain ⟨a, h⟩ := h
  obtain ⟨h1, h2⟩ := RunInTransaction_ok _ _ a h
  simp only [h2]
  rw [createUserTx_eq] at h1 ⊢
  split_ifs at h1 ⊢
  rfl

theorem item?_put (ds : Datastore) (u n : String) (stored : Item)
    (pages : List Page) (u' n' id' : String) :
    Datastore.item? { ds with items := kvPut itemKey ((u, n), stored) ds.items, pages := pages }
        u' n' id' =
      if (u', n', id') = (u, n, stored.ID) then some stored else ds.item? u' n' id' := by
  simp only [Datastore.item?, kvGet_kvPut, itemKey]
  split_ifs <;> rfl

theorem page?_put (ds : Datastore) (page : Page) (items : List ((String × String) × Item))
    (u' n' : String) :
    Datastore.page? { ds with items := items, pages := kvPut pageKey page ds.pages } u' n' =
      if (u', n') = (page.UserName, page.Name) then some page else ds.page? u' n' := by
  simp only [Datastore.page?, kvGet_kvPut, pageKey]

theorem page?_key (ds : Datastore) (u n : String) (page : Page)
    (h : ds.page? u n = some page) : page.UserName = u ∧ page.Name = n := by
  have := kvGet_key pageKey (u, n) ds.pages page h
  simp only [pageKey, Prod.mk.injEq] at this
  exact this

/-- Writing an item dated `stored.LastModificationDate`, which is not after `now`
and not before the items of its page, keeps the dates consistent. -/
theorem dates_itemWritten (ds ds' : Datastore) (t now : Time) (u n : String) (stored : Item)
    (hw : itemWritten ds ds' u n stored)
    (h1 : itemsNotAfter ds t) (h2 : pageDatesCover ds) (ht : t ≤ now)
    (hnow : stored.LastModificationDate ≤ now)
    (hcover : ∀ itemID item, ds.item? u n itemID = some item →
      item.LastModificationDate ≤ stored.LastModificationDate) :
    itemsNotAfter ds' now ∧ pageDatesCover ds' := by
  obtain ⟨page, hp, hds⟩ := hw
  obtain ⟨hk1, hk2⟩ := page?_key ds u n page hp
  subst hds
  constructor
  · intro u' n' id' item hi
    rw [item?_put] at hi
    split_ifs at hi with hk
    · simp only [Option.some.injEq] at hi
      subst hi
      exact hnow
    · exact le_trans (h1 u' n' id' item hi) ht
  · intro u' n' id' p item hpg hi
    rw [item?_put] at hi
    have hpg' := hpg
    rw [page?_put] at hpg'
    simp only [hk1, hk2] at hpg'
    split_ifs at hpg' with hk
    · simp only [Option.some.injEq] at hpg'
      subst hpg'
      simp only [Prod.mk.injEq] at hk
      obtain ⟨e1, e2⟩ := hk
      subst e1 e2
      split_ifs at hi with hk'
      · simp only [Option.some.injEq] at hi
        subst hi
        exact le_refl _
      · exact hcover id' item hi
    · split_ifs at hi with hk'
      · exfalso
        simp only [Prod.mk.injEq] at hk hk'
        exact hk ⟨hk'.1, hk'.2.1⟩
      · exact h2 u' n' id' p item hpg' hi

/-! ## Lemmas: dates and Usage records -/

theorem dates_pagePut (ds : Datastore) (t now : Time) (page : Page)
    (usages : List ((String × String) × Usage))
    (h1 : itemsNotAfter ds t) (h2 : pageDatesCover ds) (ht : t ≤ now)
    (hdate : page.LastModificationDate = now) :
    itemsNotAfter { ds with pages := kvPut pageKey page ds.pages, usages := usages } now ∧
    pageDatesCover { ds with pages := kvPut pageKey page ds.pages, usages := usages } := by
  constructor
  · intro u n id item hi
    exact le_trans (h1 u n id item hi) ht
  · intro u n id p item hp hi
    simp only [Datastore.page?, kvGet_kvPut, pageKey] at hp
    split_ifs at hp with hk
    · simp only [Option.some.injEq] at hp
      subst hp
      rw [hdate]
      exact le_trans (h1 u n id item hi) ht
    · exact h2 u n id p item hp hi

theorem reachable_helloStore (putOk : Datastore → Time → String → String → Item → Prop) :
    Reachable putOk helloStore 5 := by
  have h0 : Reachable putOk accountsStore 0 := Reachable.start accountsStore 0 rfl rfl
  have h1 : Reachable putOk blogStore 1 :=
    Reachable.createPage (healthyApp accountsStore (loggedIn aliceIdent)) 0 1
      { blogPage with Policy := "" } h0 (by decide) (by decide)
  exact Reachable.createItem (healthyApp blogStore (loggedIn aliceIdent))
    (healthyApp helloStore (loggedIn aliceIdent)) 1 5 id (fun _ => "a1") 1 "alice" "blog"
    helloItem helloStored h1 (by decide) rfl

theorem mem_kvPut {κ α : Type} [DecidableEq κ] (key : α → κ) (v e : α) (l : List α) :
    e ∈ kvPut key v l ↔ e = v ∨ (e ∈ l ∧ key e ≠ key v) := by
  simp [kvPut, kvDelete]

theorem mem_usagesStored (page : Page) (pageTags : TagDescriptionList)
    (usages : List ((String × String) × Usage)) (e : (String × String) × Usage) :
    e ∈ usagesStored page pageTags usages ↔
      (∃ t ∈ pageTags, t.Kind = "imageId" ∧
        e = ((page.UserName, page.Name), { UploadInfoKey := page.Tags.Tag t.Key })) ∨
      (e ∈ usages ∧ ∀ t ∈ pageTags, t.Kind = "imageId" →
        usageKey e ≠ (page.UserName, page.Name, page.Tags.Tag t.Key)) := by
  induction pageTags generalizing usages with
  | nil => simp [usagesStored]
  | cons t rest ih =>
    unfold usagesStored
    by_cases hk : t.Kind = "imageId"
    · simp only [hk, if_true, ih, mem_kvPut, List.mem_cons, exists_eq_or_imp, forall_eq_or_imp,
        true_and, forall_const, true_implies]
      constructor
      · rintro (h | ⟨h1 | ⟨h1, h2⟩, h3⟩)
        · exact Or.inl (Or.inr h)
        · by_cases hex : ∃ t' ∈ rest, t'.Kind = "imageId" ∧
              page.Tags.Tag t'.Key = page.Tags.Tag t.Key
          · obtain ⟨t', ht', hk', he'⟩ := hex
            exact Or.inl (Or.inr ⟨t', ht', hk', by rw [h1, he']⟩)
          · exact Or.inl (Or.inl h1)
        · exact Or.inr ⟨h1, h2, h3⟩
      · rintro ((h | h) | ⟨h1, h2, h3⟩)
        · by_cases hex : ∃ t' ∈ rest, t'.Kind = "imageId" ∧
              page.Tags.Tag t'.Key = page.Tags.Tag t.Key
          · obtain ⟨t', ht', hk', he'⟩ := hex
            exact Or.inl ⟨t', ht', hk', by rw [h, he']⟩
          · right
            refine ⟨Or.inl h, ?_⟩
            intro t' ht' hk' heq
            apply hex
            refine ⟨t', ht', hk', ?_⟩
            rw [h] at heq
            simp only [usageKey, Prod.mk.injEq, true_and] at heq
            exact heq.symm
        · exact Or.inl h
        · exact Or.inr ⟨Or.inr ⟨h1, h2⟩, h3⟩
    · simp only [hk, if_false, ih, List.mem_cons, exists_eq_or_imp, forall_eq_or_imp,
        false_and, false_or, false_implies, true_and]

theorem mem_usagesOf (ds : Datastore) (u n imgID : String) :
    imgID ∈ ds.usagesOf u n ↔ ((u, n), ({ UploadInfoKey := imgID } : Usage)) ∈ ds.usages := by
  simp only [Datastore.usagesOf, List.mem_map, List.mem_filter, decide_eq_true_eq]
  constructor
  · rintro ⟨⟨k, us⟩, ⟨h1, h2⟩, h3⟩
    simp only [] at h2 h3
    subst h2 h3
    exact h1
  · intro h
    exact ⟨_, ⟨h, rfl⟩, rfl⟩

/-! ## The date of a page and the dates of its items -/

/-- C1, amended: in every datastore reached from a datastore without pages and
items through successful CreateUser, CreatePage, UpdatePage, UpdateTemplate,
CreateItem, PutItem, UpdateItem, SetItemTag and DeleteItem calls executed with
a non-decreasing clock, PutItem being called only with items whose
lastModificationDate is not later than the call time and not earlier than the
lastModificationDate of any item stored under the page, the
lastModificationDate of each stored page is not earlier than the
lastModificationDate of any item stored under that page (and no item is dated
after the time of the last call). -/
theorem reachable_pages_cover_items (ds : Datastore) (t : Time) (h : Reachable datedForPut ds t) :
    itemsNotAfter ds t ∧ pageDatesCover ds := by
  induction h with
  | start ds t hpages hitems =>
    constructor
    · intro u n id item hi
      simp [Datastore.item?, hitems, kvGet] at hi
    · intro u n id page item hp
      simp [Datastore.page?, hpages, kvGet] at hp
  | createUser app t now ident userName _ hclock hok ih =>
    obtain ⟨ih1, ih2⟩ := ih
    rw [CreateUser_ok app ident userName hok]
    exact ⟨fun u n id item hi => le_trans (ih1 u n id item hi) hclock,
      fun u n id page item hp hi => ih2 u n id page item hp hi⟩
  | createPage app t now page _ hclock hok ih =>
    obtain ⟨ih1, ih2⟩ := ih
    obtain ⟨_, _, hds⟩ := CreatePage_ok app now page hok
    rw [hds]
    exact dates_pagePut app.repository.ds t now _ app.repository.ds.usages ih1 ih2 hclock
      (by rw [createdPage_eq])
  | updatePage app t now page pageTags _ hclock hok ih =>
    obtain ⟨ih1, ih2⟩ := ih
    obtain ⟨_, _, old, _, hds⟩ := UpdatePage_ok app now page pageTags hok
    rw [hds]
    exact dates_pagePut app.repository.ds t now _ _ ih1 ih2 hclock rfl
  | updateTemplate app t now userName pageName newTemplateID _ hclock hok ih =>
    obtain ⟨ih1, ih2⟩ := ih
    obtain ⟨_, _, page, _, hds⟩ := UpdateTemplate_ok app now userName pageName newTemplateID hok
    rw [hds]
    split_ifs
    · exact ⟨fun u n id item hi => le_trans (ih1 u n id item hi) hclock, ih2⟩
    · exact dates_pagePut app.repository.ds t now _ app.repository.ds.usages ih1 ih2 hclock rfl
  | createItem app app' t now markdownToHTML generateID fuel userName pageName i j _ hclock
      hok ih =>
    obtain ⟨ih1, ih2⟩ := ih
    obtain ⟨_, _, hj, _, _, hw⟩ := CreateItem_ok app app' now markdownToHTML generateID fuel
      userName pageName i j hok
    have hdate : j.LastModificationDate = now := by rw [hj]
    exact dates_itemWritten app.repository.ds app'.repository.ds t now userName pageName j hw
      ih1 ih2 hclock (by rw [hdate])
      (fun id item hi => by rw [hdate]; exact le_trans (ih1 _ _ id item hi) hclock)
  | putItem app t now markdownToHTML userName pageName i j _ hclock hitem hok ih =>
    obtain ⟨ih1, ih2⟩ := ih
    obtain ⟨_, _, hj, hw⟩ := PutItem_ok app markdownToHTML userName pageName i j hok
    have hdate : j.LastModificationDate = i.LastModificationDate := by rw [hj]
    exact dates_itemWritten app.repository.ds _ t now userName pageName j hw
      ih1 ih2 hclock (by rw [hdate]; exact hitem.1)
      (fun id item hi => by rw [hdate]; exact hitem.2 id item hi)
  | updateItem app t now markdownToHTML userName pageName i j updateTags _ hclock hok ih =>
    obtain ⟨ih1, ih2⟩ := ih
    obtain ⟨_, _, ⟨oldItem, _, hj⟩, hw⟩ :=
      UpdateItem_ok app now markdownToHTML userName pageName i j updateTags hok
    have hdate : j.LastModificationDate = now := by rw [hj]
    exact dates_itemWritten app.repository.ds _ t now userName pageName j hw
      ih1 ih2 hclock (by rw [hdate])
      (fun id item hi => by rw [hdate]; exact le_trans (ih1 _ _ id item hi) hclock)
  | setItemTag app t now userName pageName itemID tagKey tagValue _ hclock hok ih =>
    obtain ⟨ih1, ih2⟩ := ih
    obtain ⟨_, _, _, oldItem, _, hw⟩ :=
      SetItemTag_ok app now userName pageName itemID tagKey tagValue hok
    exact dates_itemWritten app.repository.ds _ t now userName pageName _ hw
      ih1 ih2 hclock (le_refl now)
      (fun id item hi => le_trans (ih1 _ _ id item hi) hclock)
  | deleteItem app t now userName pageName itemID _ hclock hok ih =>
    obtain ⟨ih1, ih2⟩ := ih
    obtain ⟨_, _, hds⟩ := DeleteItem_ok app userName pageName itemID hok
    rw [hds]
    have hsub : ∀ u n id item,
        Datastore.item? { app.repository.ds with
          items := kvDelete itemKey (userName, pageName, itemID) app.repository.ds.items }
          u n id = some item → app.repository.ds.item? u n id = some item := by
      intro u n id item hi
      simp only [Datastore.item?, kvGet_kvDelete] at hi ⊢
      split_ifs at hi
      · simp at hi
      · exact hi
    exact ⟨fun u n id item hi => le_trans (ih1 u n id item (hsub u n id item hi)) hclock,
      fun u n id page item hp hi => ih2 u n id page item hp (hsub u n id item hi)⟩

/-- Witness of C1 amended: alice creates her page at 1, an item at 5 and puts an
item dated 6 at 6; the page is then dated 6. -/
theorem reachable_pages_cover_items_witness :
    Reachable datedForPut (importedStore 6) 6 ∧
    itemsNotAfter (importedStore 6) 6 ∧ pageDatesCover (importedStore 6) :=
  have hreach : Reachable datedForPut (importedStore 6) 6 :=
    Reachable.putItem (healthyApp helloStore (loggedIn aliceIdent)) 5 6 id "alice" "blog"
      (importedItem 6) (importedItem 6) (reachable_helloStore datedForPut) (by decide)
      ⟨by decide, fun itemID item hi => by
        have hsub : item = helloStored := by
          simp only [Datastore.item?, healthyApp, helloStore, kvGet, itemKey] at hi
          split_ifs at hi
          · simp only [Option.map_some', Option.some.injEq] at hi
            exact hi.symm
          · simp at hi
        subst hsub
        decide⟩ rfl
  ⟨hreach, reachable_pages_cover_items (importedStore 6) 6 hreach⟩

/-- Counterexample to C1 as stated: alice creates her page at time 1, creates the
item "a1" at time 5 and, at time 6, puts an item whose lastModificationDate is
3.  Every call succeeds, and the page is then dated 3 while its item "a1" is
dated 5. -/
theorem stale_page_reachable :
    Reachable anyItem (importedStore 3) 6 ∧
    (importedStore 3).page? "alice" "blog" = some { blogPage with LastModificationDate := 3 } ∧
    (importedStore 3).item? "alice" "blog" "a1" = some helloStored ∧
    helloStored.LastModificationDate = 5 ∧
    ¬ pageDatesCover (importedStore 3) := by
  refine ⟨?_, by decide, by decide, rfl, ?_⟩
  · exact Reachable.putItem (healthyApp helloStore (loggedIn aliceIdent)) 5 6 id "alice" "blog"
      (importedItem 3) (importedItem 3) (reachable_helloStore anyItem) (by decide) trivial rfl
  · intro h
    have := h "alice" "blog" "a1" { blogPage with LastModificationDate := 3 } helloStored
      (by decide) (by decide)
    revert this
    decide

/-! ## Policies -/

/-- C4, amended: in every datastore reached from a datastore without pages
through successful CreatePage calls whose supplied policy is empty, PRIVATE or
PUBLIC and successful UpdatePage calls whose supplied policy is PRIVATE or
PUBLIC, the policy of each stored page is PRIVATE or PUBLIC, so that GetPage
returns a page to a caller whose current user name is not the user name of the
page only when the policy of the page is PUBLIC. -/
theorem policies_of_reachable (ds : Datastore)
    (h : PagesReachable (fun page => page.Policy = "" ∨ knownPolicy page.Policy)
      (fun page => knownPolicy page.Policy) ds) :
    (∀ userName pageName page, ds.page? userName pageName = some page →
      knownPolicy page.Policy) ∧
    (∀ app : App, app.repository.ds = ds → ∀ userName pageName page,
      (app.GetPage userName pageName).1 = Except.ok page →
      (App.CurrentUserName { app with
        repository := ⟨app.repository.ds, app.repository.faults.tail⟩ }).1 ≠ userName →
      page.Policy = PolicyPUBLIC) := by
  have hinv : ∀ userName pageName page, ds.page? userName pageName = some page →
      knownPolicy page.Policy := by
    induction h with
    | start ds h =>
      intro userName pageName page hp
      simp [Datastore.page?, h, kvGet] at hp
    | createPage app now page _ hpage hok ih =>
      intro userName pageName p hp
      obtain ⟨_, _, hds⟩ := CreatePage_ok app now page hok
      rw [hds] at hp
      simp only [Datastore.page?, kvGet_kvPut, pageKey] at hp
      split_ifs at hp with hk
      · simp only [Option.some.injEq] at hp
        subst hp
        rw [createdPage_eq]
        simp only []
        rcases hpage with hpage | hpage
        · rw [if_pos hpage]; exact Or.inl rfl
        · have : page.Policy ≠ "" := by
            rcases hpage with h1 | h1 <;> rw [h1] <;> decide
          rw [if_neg this]; exact hpage
      · exact ih userName pageName p hp
    | updatePage app now page pageTags _ hpage hok ih =>
      intro userName pageName p hp
      obtain ⟨_, _, old, _, hds⟩ := UpdatePage_ok app now page pageTags hok
      rw [hds] at hp
      simp only [Datastore.page?, kvGet_kvPut, pageKey] at hp
      split_ifs at hp with hk
      · simp only [Option.some.injEq] at hp
        subst hp
        exact hpage
      · exact ih userName pageName p hp
  refine ⟨hinv, ?_⟩
  intro app happ userName pageName page hget hcaller
  obtain ⟨hp, hpriv⟩ := GetPage_ok app userName pageName page hget
  rw [happ] at hp
  rcases hinv userName pageName page hp with h1 | h1
  · exact absurd (hpriv h1) hcaller
  · exact h1

/-- Witness of C4 amended: the datastore with the private page `(alice, blog)` is
reached by a CreatePage of alice without policy, and the policy of the page
is a known one. -/
theorem policies_of_reachable_witness :
    PagesReachable (fun page => page.Policy = "" ∨ knownPolicy page.Policy)
      (fun page => knownPolicy page.Policy) blogStore ∧
    knownPolicy blogPage.Policy :=
  have hreach : PagesReachable (fun page => page.Policy = "" ∨ knownPolicy page.Policy)
      (fun page => knownPolicy page.Policy) blogStore :=
    PagesReachable.createPage (healthyApp accountsStore (loggedIn aliceIdent)) 1
      { blogPage with Policy := "" } (PagesReachable.start accountsStore rfl)
      (Or.inl rfl) (by decide)
  ⟨hreach, (policies_of_reachable blogStore hreach).1 "alice" "blog" blogPage (by decide)⟩

/-- Counterexample to C4 as stated: alice creates her page with the policy
"FRIENDS"; CreatePage stores it as supplied, the stored policy is neither
PRIVATE nor PUBLIC, and GetPage returns the page to bob. -/
theorem unknown_policy_reachable :
    PagesReachable (fun _ => True) (fun _ => True) friendsStore ∧
    friendsStore.page? "alice" "blog" = some friendsPage ∧
    ¬ knownPolicy friendsPage.Policy ∧
    (App.CurrentUserName (healthyApp friendsStore (loggedIn bobIdent))).1 = "bob" ∧
    ((healthyApp friendsStore (loggedIn bobIdent)).GetPage "alice" "blog").1 =
      Except.ok friendsPage := by
  refine ⟨?_, by decide, ?_, by decide, rfl⟩
  · exact PagesReachable.createPage (healthyApp accountsStore (loggedIn aliceIdent)) 1
      friendsPage (PagesReachable.start accountsStore rfl) trivial (by decide)
  · unfold knownPolicy
    decide

/-! ## Usage records -/

/-- C7, amended: after every successful UpdatePage(page, schema) the image ids of
the Usage records stored under the page are exactly the results of
`page.Tags.Tag(key)` for the keys described with the kind "imageId" in the
schema, so no Usage record that existed before the call survives unless it is
derived again; the result of `Tag` is the empty string for a key it does not
find in the tag list, and a Usage record with that empty image id is then
stored.  For a tag list sorted by key with unique keys the records are thus
the values of the present tags whose key is described with the kind
"imageId", and the empty image id when such a key has no tag.  The Usage
records of the other pages are unchanged. -/
theorem UpdatePage_usages (app : App) (now : Time) (page : Page)
    (pageTags : TagDescriptionList) (h : (app.UpdatePage now page pageTags).1 = none) :
    (∀ imgID,
      imgID ∈ (app.UpdatePage now page pageTags).2.repository.ds.usagesOf
          page.UserName page.Name ↔
        ∃ t ∈ pageTags, t.Kind = "imageId" ∧ page.Tags.Tag t.Key = imgID) ∧
    (page.Tags.Sorted → ∀ imgID,
      (imgID ∈ (app.UpdatePage now page pageTags).2.repository.ds.usagesOf
          page.UserName page.Name ↔
        ∃ t ∈ pageTags, t.Kind = "imageId" ∧
          ((⟨t.Key, imgID⟩ : Tag) ∈ page.Tags ∨
            ((∀ tag ∈ page.Tags, tag.Key ≠ t.Key) ∧ imgID = "")))) ∧
    (∀ userName pageName imgID, (userName, pageName) ≠ (page.UserName, page.Name) →
      (imgID ∈ (app.UpdatePage now page pageTags).2.repository.ds.usagesOf userName pageName ↔
        imgID ∈ app.repository.ds.usagesOf userName pageName)) := by
  obtain ⟨_, _, old, _, hds⟩ := UpdatePage_ok app now page pageTags h
  rw [hds]
  have hfirst : ∀ imgID,
      imgID ∈ Datastore.usagesOf
          { app.repository.ds with
            pages := kvPut pageKey
              { page with CreationDate := old.CreationDate, LastModificationDate := now }
              app.repository.ds.pages,
            usages := usagesStored
              { page with CreationDate := old.CreationDate, LastModificationDate := now }
              pageTags
              (app.repository.ds.usages.filter
                (fun e => !decide (e.1 = (page.UserName, page.Name)))) }
          page.UserName page.Name ↔
        ∃ t ∈ pageTags, t.Kind = "imageId" ∧ page.Tags.Tag t.Key = imgID := by
    intro imgID
    simp only [mem_usagesOf, mem_usagesStored, List.mem_filter, Bool.not_eq_true',
      decide_eq_false_iff_not, Prod.mk.injEq, true_and, Usage.mk.injEq, not_true_eq_false,
      and_false, false_and, or_false]
    constructor
    · rintro ⟨t, ht, hk, he⟩
      exact ⟨t, ht, hk, he.symm⟩
    · rintro ⟨t, ht, hk, he⟩
      exact ⟨t, ht, hk, he.symm⟩
  refine ⟨hfirst, ?_, ?_⟩
  · intro hs imgID
    rw [hfirst imgID]
    constructor
    · rintro ⟨t, ht, hk, he⟩
      refine ⟨t, ht, hk, ?_⟩
      by_cases hex : ∃ tag ∈ page.Tags, tag.Key = t.Key
      · obtain ⟨tag, hmem, hkey⟩ := hex
        left
        have hv := Tag_of_mem page.Tags hs t.Key tag.Value (by
          rw [← hkey]
          exact hmem)
        rw [he] at hv
        rw [hv, ← hkey]
        exact hmem
      · right
        have hno : ∀ tag ∈ page.Tags, tag.Key ≠ t.Key :=
          fun tag hmem hkey => hex ⟨tag, hmem, hkey⟩
        exact ⟨hno, by rw [← he, Tag_of_not_mem page.Tags t.Key hno]⟩
    · rintro ⟨t, ht, hk, hmem | ⟨hno, he⟩⟩
      · exact ⟨t, ht, hk, Tag_of_mem page.Tags hs t.Key imgID hmem⟩
      · exact ⟨t, ht, hk, by rw [he, Tag_of_not_mem page.Tags t.Key hno]⟩
  · intro userName pageName imgID hne
    simp only [mem_usagesOf, mem_usagesStored, List.mem_filter, Bool.not_eq_true',
      decide_eq_false_iff_not, Prod.mk.injEq, Usage.mk.injEq]
    constructor
    · rintro (⟨t, _, _, he, _⟩ | ⟨⟨h1, _⟩, _⟩)
      · exact absurd he (by simpa using hne)
      · exact h1
    · intro h1
      right
      refine ⟨⟨h1, by simpa using hne⟩, ?_⟩
      intro t _ _ heq
      simp only [usageKey, Prod.mk.injEq] at heq
      exact hne (by rw [heq.1, heq.2.1])

/-- Witness of C7 amended: alice updates her page, tagged with the cover "img42";
the stale record "img7" is gone and the record "img42" is stored. -/
theorem UpdatePage_usages_witness :
    (App.UpdatePage
        (healthyApp { blogStore with usages := [(("alice", "blog"), ⟨"img7"⟩)] }
          (loggedIn aliceIdent))
        9 { blogPage with Tags := [⟨"cover", "img42"⟩] } coverSchema).2.repository.ds.usagesOf
        "alice" "blog" = ["img42"] ∧
    ("img42" ∈ (App.UpdatePage
        (healthyApp { blogStore with usages := [(("alice", "blog"), ⟨"img7"⟩)] }
          (loggedIn aliceIdent))
        9 { blogPage with Tags := [⟨"cover", "img42"⟩] } coverSchema).2.repository.ds.usagesOf
        "alice" "blog" ↔
      ∃ t ∈ coverSchema, t.Kind = "imageId" ∧
        TagList.Tag [⟨"cover", "img42"⟩] t.Key = "img42") :=
  ⟨by decide,
    (UpdatePage_usages
      (healthyApp { blogStore with usages := [(("alice", "blog"), ⟨"img7"⟩)] }
        (loggedIn aliceIdent))
      9 { blogPage with Tags := [⟨"cover", "img42"⟩] } coverSchema (by decide)).1 "img42"⟩

/-- Counterexample to C7 as stated: alice updates her page, which has no tag, with
a schema that describes the tag "cover" with the kind "imageId".  No tag of
the page is present, so the specification expects no Usage record, and
UpdatePage stores the Usage record with the empty image id. -/
theorem usage_stored_for_absent_tag :
    ((healthyApp blogStore (loggedIn aliceIdent)).UpdatePage 9 blogPage coverSchema).1 = none ∧
    blogPage.Tags = [] ∧
    imageTagValues blogPage coverSchema = [] ∧
    ((healthyApp blogStore (loggedIn aliceIdent)).UpdatePage 9 blogPage
      coverSchema).2.repository.ds.usagesOf "alice" "blog" = [""] := by
  decide

/-! ## Lemmas: `SetTag` on sorted tag lists -/

/-- The order of the keys is total. -/
theorem stringLess_total (a b : String) (h1 : stringLess a b = false) (h2 : a ≠ b) :
    stringLess b a = true := by
  rw [stringLess_iff]
  have h : ¬ a < b := by
    rw [← stringLess_iff, h1]
    simp
  rcases lt_trichotomy a b with h3 | h3 | h3
  · exact absurd h3 h
  · exact absurd h3 h2
  · exact h3

theorem stringLess_irrefl (a : String) : stringLess a a = false := by
  cases h : stringLess a a with
  | false => rfl
  | true => exact absurd ((stringLess_iff a a).mp h) (lt_irrefl a)

theorem stringLess_trans (a b c : String) (h1 : stringLess a b = true)
    (h2 : stringLess b c = true) : stringLess a c = true := by
  rw [stringLess_iff] at h1 h2 ⊢
  exact lt_trans h1 h2

theorem stringLess_asymm (a b : String) (h1 : stringLess a b = true) :
    stringLess b a = false := by
  cases h : stringLess b a with
  | false => rfl
  | true =>
    rw [stringLess_iff] at h1 h
    exact absurd h1 (lt_asymm h)

/-- On a sorted tag list the binary search for the key of a tag of the list
returns the index of the tag. -/
theorem sortSearch_of_get (l : TagList) (hs : l.Sorted) (m : Nat) (t : Tag)
    (em : l.get? m = some t) : sortSearch l.length (keyAtLeast l t.Key) = m := by
  have hm : m < l.length := by
    rcases Nat.lt_or_ge m l.length with h | h
    · exact h
    · rw [List.get?_eq_none.mpr h] at em
      exact absurd em (by simp)
  have hget : l[m] = t := by
    rw [List.get?_eq_getElem?, List.getElem?_eq_getElem hm] at em
    exact Option.some.inj em
  have hspec := sortSearchLoop_spec (keyAtLeast l t.Key) l.length 0 l.length (Nat.zero_le _)
    (by omega) (fun a b hab hb ha => keyAtLeast_mono l hs t.Key a b hab hb ha)
  obtain ⟨_, h2, h3, h4⟩ := hspec
  have hfm : keyAtLeast l t.Key m = true := by
    rw [keyAtLeast_of_get l t.Key m _ em, stringLess_irrefl]
    rfl
  have hrm : sortSearchLoop (keyAtLeast l t.Key) l.length 0 l.length ≤ m := by
    by_contra hcon
    have := h3 m (Nat.zero_le _) (by omega)
    rw [hfm] at this
    exact absurd this (by simp)
  unfold sortSearch
  rcases Nat.eq_or_lt_of_le hrm with e | e
  · exact e
  · exfalso
    have hrl : sortSearchLoop (keyAtLeast l t.Key) l.length 0 l.length < l.length := by omega
    have hfr := h4 hrl
    have er : l.get? (sortSearchLoop (keyAtLeast l t.Key) l.length 0 l.length) =
        some l[sortSearchLoop (keyAtLeast l t.Key) l.length 0 l.length] := by
      simp [List.get?_eq_getElem?, hrl]
    rw [keyAtLeast_of_get l t.Key _ _ er] at hfr
    have hlt := (List.pairwise_iff_getElem.mp hs) _ m hrl hm e
    rw [hget] at hlt
    rw [hlt] at hfr
    exact absurd hfr (by simp)

/-- The insertion of a tag puts it in the list and keeps the others. -/
theorem mem_insertTag (t x : Tag) (l : TagList) : x ∈ insertTag t l ↔ x = t ∨ x ∈ l := by
  induction l with
  | nil => simp [insertTag]
  | cons u rest ih =>
    unfold insertTag
    split_ifs
    · simp
    · simp only [List.mem_cons, ih]
      tauto

/-- The insertion of a tag with a new key in a sorted list gives a sorted list. -/
theorem insertTag_sorted (t : Tag) (l : TagList) (hs : l.Sorted)
    (hnew : ∀ u ∈ l, u.Key ≠ t.Key) : TagList.Sorted (insertTag t l) := by
  induction l with
  | nil => simp [insertTag, TagList.Sorted]
  | cons u rest ih =>
    unfold TagList.Sorted at hs ih ⊢
    rw [List.pairwise_cons] at hs
    obtain ⟨hu, hrest⟩ := hs
    unfold insertTag
    by_cases hlt : stringLess t.Key u.Key = true
    · rw [if_pos hlt]
      rw [List.pairwise_cons, List.pairwise_cons]
      refine ⟨?_, hu, hrest⟩
      intro a ha
      rcases List.mem_cons.mp ha with e | e
      · rw [e]; exact hlt
      · exact stringLess_trans _ _ _ hlt (hu a e)
    · rw [if_neg hlt]
      rw [List.pairwise_cons]
      refine ⟨?_, ih hrest (fun v hv => hnew v (List.mem_cons_of_mem _ hv))⟩
      intro a ha
      rcases (mem_insertTag t a rest).mp ha with e | e
      · rw [e]
        exact stringLess_total _ _ (by simpa using hlt)
          (fun h => hnew u (List.mem_cons_self _ _) h.symm)
      · exact hu a e

/-- The insertion of a tag whose key is not smaller than a key of the list puts
it at the end. -/
theorem insertTag_last (t : Tag) (l : TagList)
    (h : ∀ u ∈ l, stringLess t.Key u.Key = false) : insertTag t l = l ++ [t] := by
  induction l with
  | nil => rfl
  | cons u rest ih =>
    unfold insertTag
    rw [h u (List.mem_cons_self _ _)]
    simp only [Bool.false_eq_true, if_false, List.cons_append]
    rw [ih (fun v hv => h v (List.mem_cons_of_mem _ hv))]

theorem foldl_insertTag_sorted (l acc : TagList)
    (hs : TagList.Sorted (acc ++ l)) :
    l.foldl (fun sorted t => insertTag t sorted) acc = acc ++ l := by
  induction l generalizing acc with
  | nil => simp
  | cons t rest ih =>
    rw [List.foldl_cons]
    have hlast : insertTag t acc = acc ++ [t] := by
      apply insertTag_last
      intro u hu
      unfold TagList.Sorted at hs
      rw [List.pairwise_append] at hs
      exact stringLess_asymm _ _ (hs.2.2 u hu t (List.mem_cons_self _ _))
    rw [hlast]
    rw [ih (acc ++ [t]) (by simpa using hs)]
    simp

/-- The sort leaves a sorted list as it is. -/
theorem sortSort_sorted (l : TagList) (hs : l.Sorted) : sortSort l = l := by
  unfold sortSort
  rw [foldl_insertTag_sorted l [] (by simpa using hs)]
  rfl

theorem sortSort_append (l : TagList) (t : Tag) :
    sortSort (l ++ [t]) = insertTag t (sortSort l) := by
  unfold sortSort
  rw [List.foldl_append]
  rfl

/-- SetTag on a sorted list that has the key: the value of the tag is replaced. -/
theorem SetTag_of_get (l : TagList) (hs : l.Sorted) (m : Nat) (t : Tag) (value : String)
    (em : l.get? m = some t) :
    l.SetTag t.Key value = l.set m { t with Value := value } := by
  unfold TagList.SetTag
  simp only [sortSearch_of_get l hs m t em, em, if_true]

/-- SetTag on a sorted list that does not have the key: the tag is inserted. -/
theorem SetTag_of_not_mem (l : TagList) (hs : l.Sorted) (key value : String)
    (h : ∀ t ∈ l, t.Key ≠ key) :
    l.SetTag key value = insertTag ⟨key, value⟩ l := by
  unfold TagList.SetTag
  simp only []
  rw [sortSort_append, sortSort_sorted l hs]
  cases hg : l.get? (sortSearch l.length (keyAtLeast l key)) with
  | none => rfl
  | some t =>
    have hmem : t ∈ l := List.get?_mem hg
    simp only [h t hmem, if_false]

/-- Two tags of a sorted list that have the same key are at the same index. -/
theorem sorted_key_inj (l : TagList) (hs : l.Sorted) (a b : Nat) (ha : a < l.length)
    (hb : b < l.length) (h : (l[a]).Key = (l[b]).Key) : a = b := by
  unfold TagList.Sorted at hs
  rw [List.pairwise_iff_getElem] at hs
  rcases Nat.lt_trichotomy a b with h1 | h1 | h1
  · have := hs a b ha hb h1
    rw [h, stringLess_irrefl] at this
    exact absurd this (by simp)
  · exact h1
  · have := hs b a hb ha h1
    rw [h, stringLess_irrefl] at this
    exact absurd this (by simp)

/-- Replacing a tag of a sorted list by a tag with the same key keeps the list
sorted. -/
theorem set_sorted (l : TagList) (hs : l.Sorted) (m : Nat) (t t' : Tag)
    (em : l.get? m = some t) (hk : t'.Key = t.Key) : TagList.Sorted (l.set m t') := by
  obtain ⟨hm, hget⟩ := List.get?_eq_some.mp em
  have e : l[m] = t := hget
  unfold TagList.Sorted at hs ⊢
  rw [List.pairwise_iff_getElem] at hs ⊢
  intro a b ha hb hab
  rw [List.length_set] at ha hb
  have := hs a b ha hb hab
  rw [List.getElem_set, List.getElem_set]
  split_ifs with h1 h2 h2
  · omega
  · subst h1; rw [hk, ← e]; exact this
  · subst h2; rw [hk, ← e]; exact this
  · exact this

/-- The tags of a sorted list after the replacement of a tag by a tag with the
same key. -/
theorem mem_set_tag (l : TagList) (hs : l.Sorted) (m : Nat) (t t' : Tag)
    (em : l.get? m = some t) (x : Tag) :
    x ∈ l.set m t' ↔ x = t' ∨ (x ∈ l ∧ x.Key ≠ t.Key) := by
  obtain ⟨hm, hget⟩ := List.get?_eq_some.mp em
  have e : l[m] = t := hget
  constructor
  · intro hx
    obtain ⟨j, hj, hxj⟩ := List.getElem_of_mem hx
    rw [List.getElem_set] at hxj
    rw [List.length_set] at hj
    split_ifs at hxj with h1
    · exact Or.inl hxj.symm
    · refine Or.inr ⟨?_, ?_⟩
      · rw [← hxj]; exact List.getElem_mem hj
      · intro hkey
        rw [← hxj, ← e] at hkey
        exact h1 (sorted_key_inj l hs j m hj hm hkey).symm
  · rintro (hx | ⟨hx, hkey⟩)
    · rw [hx]; exact List.mem_set l m hm t'
    · obtain ⟨j, hj, hxj⟩ := List.getElem_of_mem hx
      have hne : m ≠ j := by
        intro h1
        subst h1
        rw [← hxj, e] at hkey
        exact hkey rfl
      have hj' : j < (l.set m t').length := by rw [List.length_set]; exact hj
      have : (l.set m t')[j] = x := by rw [List.getElem_set_ne hne, hxj]
      rw [← this]
      exact List.getElem_mem hj'

/-- SetTag keeps a sorted list sorted. -/
theorem SetTag_sorted (l : TagList) (hs : l.Sorted) (key value : String) :
    TagList.Sorted (l.SetTag key value) := by
  by_cases hex : ∃ t ∈ l, t.Key = key
  · obtain ⟨t, ht, hk⟩ := hex
    obtain ⟨m, hm, hget⟩ := List.getElem_of_mem ht
    have em : l.get? m = some t := by simp [List.get?_eq_getElem?, hm, hget]
    subst hk
    rw [SetTag_of_get l hs m t value em]
    exact set_sorted l hs m t _ em rfl
  · have hno : ∀ t ∈ l, t.Key ≠ key := fun t ht hk => hex ⟨t, ht, hk⟩
    rw [SetTag_of_not_mem l hs key value hno]
    exact insertTag_sorted _ l hs hno

/-- The tags of a sorted list after SetTag: the tag set, and the tags that have
another key. -/
theorem mem_SetTag (l : TagList) (hs : l.Sorted) (key value : String) (x : Tag) :
    x ∈ l.SetTag key value ↔ x = ⟨key, value⟩ ∨ (x ∈ l ∧ x.Key ≠ key) := by
  by_cases hex : ∃ t ∈ l, t.Key = key
  · obtain ⟨t, ht, hk⟩ := hex
    obtain ⟨m, hm, hget⟩ := List.getElem_of_mem ht
    have em : l.get? m = some t := by simp [List.get?_eq_getElem?, hm, hget]
    subst hk
    rw [SetTag_of_get l hs m t value em]
    exact mem_set_tag l hs m t _ em x
  · have hno : ∀ t ∈ l, t.Key ≠ key := fun t ht hk => hex ⟨t, ht, hk⟩
    rw [SetTag_of_not_mem l hs key value hno, mem_insertTag]
    constructor
    · rintro (h | h)
      · exact Or.inl h
      · exact Or.inr ⟨h, hno x h⟩
    · rintro (h | h)
      · exact Or.inl h
      · exact Or.inr h.1

/-- On a sorted list, `Tag` after `SetTag` with the same key returns the value. -/
theorem Tag_SetTag (l : TagList) (hs : l.Sorted) (key value : String) :
    (l.SetTag key value).Tag key = value :=
  Tag_of_mem _ (SetTag_sorted l hs key value) key value
    ((mem_SetTag l hs key value _).mpr (Or.inl rfl))

/-- On a sorted list, `SetTag` does not change what `Tag` returns for another
key. -/
theorem Tag_SetTag_ne (l : TagList) (hs : l.Sorted) (key value other : String)
    (hne : other ≠ key) : (l.SetTag key value).Tag other = l.Tag other := by
  by_cases hex : ∃ t ∈ l, t.Key = other
  · obtain ⟨t, ht, hk⟩ := hex
    have ht' : (⟨other, t.Value⟩ : Tag) ∈ l := by rw [← hk]; exact ht
    rw [Tag_of_mem l hs other t.Value ht']
    exact Tag_of_mem _ (SetTag_sorted l hs key value) other t.Value
      ((mem_SetTag l hs key value _).mpr (Or.inr ⟨ht', hne⟩))
  · have hno : ∀ t ∈ l, t.Key ≠ other := fun t ht hk => hex ⟨t, ht, hk⟩
    rw [Tag_of_not_mem l other hno]
    apply Tag_of_not_mem
    intro x hx
    rcases (mem_SetTag l hs key value x).mp hx with h | h
    · rw [h]; exact fun h' => hne h'.symm
    · exact hno x h.1

/-! ## CreatePage and the user name of the page -/

/-- A CreatePage that fails leaves the stored entities as they were. -/
theorem CreatePage_error (app : App) (now : Time) (page : Page) (err : Error)
    (h : (app.CreatePage now page).1 = some err) :
    (app.CreatePage now page).2.repository.ds = app.repository.ds := by
  have hds := CurrentUserName_ds app
  unfold App.CreatePage at h ⊢
  generalize app.CurrentUserName = c at hds h ⊢
  rcases c with ⟨cur, app1⟩
  simp only [] at hds h ⊢
  by_cases hcur : cur = ""
  · simp only [hcur, if_true]
    exact hds
  · simp only [hcur, if_false] at h ⊢
    rw [errorOf_eq_some] at h
    rw [RunInTransaction_error _ _ err h, hds]

/-- Counterexample to C11: alice, logged in, calls CreatePage with a page whose
UserName is "bob"; the call succeeds and the page is stored under `(alice, blog)`. -/
theorem CreatePage_other_user_name_accepted :
    (healthyApp accountsStore (loggedIn aliceIdent)).CurrentUserName.1 = "alice" ∧
    bobsBlogPage.UserName = "bob" ∧
    ((healthyApp accountsStore (loggedIn aliceIdent)).CreatePage 1 bobsBlogPage).1 = none ∧
    ((healthyApp accountsStore (loggedIn aliceIdent)).CreatePage 1
      bobsBlogPage).2.repository.ds.page? "alice" "blog" = some blogPage := by
  decide

/-- C11, as the code has it: CreatePage does not compare the caller with the
UserName field of the supplied page, it ignores the field.  The result is the
same whatever the field holds; an anonymous caller is refused with
NotAuthorized and nothing is written; no page under a user name other than
the one of the caller is written or changed; on success the page is stored
under the user name of the caller and the supplied page name; and on a
datastore without failures the call of a logged-in caller who has no page of
that name succeeds. -/
theorem CreatePage_ignores_UserName (app : App) (now : Time) (page : Page) :
    (∀ userName, app.CreatePage now { page with UserName := userName } =
      app.CreatePage now page) ∧
    (app.CurrentUserName.1 = "" →
      (app.CreatePage now page).1 = some (Error.NotAuthorizedError "Update page") ∧
      (app.CreatePage now page).2.repository.ds = app.repository.ds) ∧
    (∀ userName pageName, userName ≠ app.CurrentUserName.1 →
      (app.CreatePage now page).2.repository.ds.page? userName pageName =
        app.repository.ds.page? userName pageName) ∧
    ((app.CreatePage now page).1 = none →
      app.CurrentUserName.1 ≠ "" ∧
      (app.CreatePage now page).2.repository.ds.page? app.CurrentUserName.1 page.Name =
        some (createdPage app.CurrentUserName.1 now page) ∧
      (createdPage app.CurrentUserName.1 now page).UserName = app.CurrentUserName.1) ∧
    (app.repository.faults = [] → app.CurrentUserName.1 ≠ "" →
      app.repository.ds.page? app.CurrentUserName.1 page.Name = none →
      (app.CreatePage now page).1 = none) := by
  refine ⟨?_, ?_, ?_, ?_, ?_⟩
  · intro userName
    unfold App.CreatePage
    have : ∀ cur, createdPage cur now { page with UserName := userName } =
        createdPage cur now page := fun cur => by
      simp only [createdPage_eq]
    simp only [this]
  · intro hanon
    have hds := CurrentUserName_ds app
    unfold App.CreatePage
    generalize app.CurrentUserName = c at hds hanon ⊢
    rcases c with ⟨cur, app1⟩
    simp only [] at hds hanon ⊢
    subst hanon
    simp only [if_true]
    exact ⟨trivial, hds⟩
  · intro userName pageName hne
    cases hr : (app.CreatePage now page).1 with
    | some err => rw [CreatePage_error app now page err hr]
    | none =>
      obtain ⟨_, _, h3⟩ := CreatePage_ok app now page hr
      have hu : (createdPage app.CurrentUserName.1 now page).UserName =
          app.CurrentUserName.1 := by rw [createdPage_eq]
      rw [h3]
      simp only [Datastore.page?, kvGet_kvPut, pageKey, hu, Prod.mk.injEq]
      rw [if_neg (fun hk => hne hk.1)]
  · intro hr
    obtain ⟨h1, _, h3⟩ := CreatePage_ok app now page hr
    refine ⟨h1, ?_, by rw [createdPage_eq]⟩
    have hu : (createdPage app.CurrentUserName.1 now page).UserName =
        app.CurrentUserName.1 := by rw [createdPage_eq]
    have hn : (createdPage app.CurrentUserName.1 now page).Name = page.Name := by
      rw [createdPage_eq]
    rw [h3]
    simp only [Datastore.page?, kvGet_kvPut, pageKey, hu, hn, if_true]
  · intro hf hcur hp
    have hhealthy := CurrentUserName_healthy app hf
    unfold App.CreatePage
    generalize app.CurrentUserName = c at hhealthy hcur hp ⊢
    rcases c with ⟨cur, app1⟩
    simp only [] at hhealthy hcur hp ⊢
    subst hhealthy
    rcases app1 with ⟨⟨ds, faults⟩, ui⟩
    simp only [] at hf hp
    subst hf
    have hu : (createdPage cur now page).UserName = cur := by rw [createdPage_eq]
    have hn : (createdPage cur now page).Name = page.Name := by rw [createdPage_eq]
    simp only [hcur, if_false, Repository.RunInTransaction, createPageTx_eq, hu, hn, hp,
      List.head?_nil, List.tail_nil, reduceCtorEq, Option.isSome_none, Bool.false_eq_true,
      commit_healthy, errorOf]

/-- Witness of C11 as amended: alice, logged in, calls CreatePage with a page
whose UserName is "bob". -/
theorem CreatePage_ignores_UserName_witness :
    (healthyApp accountsStore (loggedIn aliceIdent)).CreatePage 1 bobsBlogPage =
      (healthyApp accountsStore (loggedIn aliceIdent)).CreatePage 1 blogPage ∧
    ((healthyApp accountsStore (loggedIn aliceIdent)).CreatePage 1
      bobsBlogPage).2.repository.ds.page? "bob" "blog" = none ∧
    ((healthyApp accountsStore (loggedIn aliceIdent)).CreatePage 1
      bobsBlogPage).2.repository.ds.page? "alice" "blog" = some blogPage ∧
    ((healthyApp accountsStore anonymous).CreatePage 1 bobsBlogPage).1 =
      some (Error.NotAuthorizedError "Update page") :=
  ⟨((CreatePage_ignores_UserName (healthyApp accountsStore (loggedIn aliceIdent)) 1
      bobsBlogPage).1 "alice").symm.trans rfl,
    (CreatePage_ignores_UserName (healthyApp accountsStore (loggedIn aliceIdent)) 1
      bobsBlogPage).2.2.1 "bob" "blog" (by decide),
    ((CreatePage_ignores_UserName (healthyApp accountsStore (loggedIn aliceIdent)) 1
      bobsBlogPage).2.2.2.1 (by decide)).2.1,
    ((CreatePage_ignores_UserName (healthyApp accountsStore anonymous) 1
      bobsBlogPage).2.1 rfl).1⟩

/-! ## CreateItem with an empty item -/

/-- Counterexample to C12: alice calls CreateItem on her page with an item that
has no content and no URL; the error returned is the plain error that
`fmt.Errorf` builds, which is not a `DataError`. -/
theorem CreateItem_empty_item_plain_error :
    (healthyApp blogStore (loggedIn aliceIdent)).CurrentUserName.1 = "alice" ∧
    emptyItem.Content = "" ∧ emptyItem.URL = "" ∧
    ((healthyApp blogStore (loggedIn aliceIdent)).CreateItem 5 id (fun _ => "a1") 1
        "alice" "blog" emptyItem).map (fun r => r.1) =
      some (Except.error (Error.errorString
        "Empty item not allowed. Either content or URL must be provided: %#v")) ∧
    ∀ field message,
      ((healthyApp blogStore (loggedIn aliceIdent)).CreateItem 5 id (fun _ => "a1") 1
          "alice" "blog" emptyItem).map (fun r => r.1) ≠
        some (Except.error (Error.DataError field message)) := by
  refine ⟨by decide, rfl, rfl, rfl, ?_⟩
  intro field message h
  have h' : some (Except.error (Error.errorString
      "Empty item not allowed. Either content or URL must be provided: %#v")) =
      some (Except.error (Error.DataError field message) : Except Error Item) := h
  simp at h'

/-- C12, as the code has it: CreateItem called by the owner of the page with an
item whose content and URL are both empty returns, whatever the ID generator
and the fuel, the plain error "Empty item not allowed..." of `fmt.Errorf`,
which is not a `DataError`; the stored entities are unchanged, so no item is
stored and the page keeps its last modification date. -/
theorem CreateItem_empty_item (app : App) (now : Time) (markdownToHTML : String → String)
    (generateID : Nat → String) (fuel : Nat) (userName pageName : String) (i : Item)
    (howner : app.CurrentUserName.1 = userName) (hname : userName ≠ "")
    (hempty : i.Content = "" ∧ i.URL = "") :
    (app.CreateItem now markdownToHTML generateID fuel userName pageName i).map
        (fun r => r.1) =
      some (Except.error (Error.errorString
        "Empty item not allowed. Either content or URL must be provided: %#v")) ∧
    (∀ field message,
      (app.CreateItem now markdownToHTML generateID fuel userName pageName i).map
          (fun r => r.1) ≠
        some (Except.error (Error.DataError field message))) ∧
    (app.CreateItem now markdownToHTML generateID fuel userName pageName i).map
        (fun r => r.2.repository.ds) = some app.repository.ds ∧
    (∀ itemID,
      (app.CreateItem now markdownToHTML generateID fuel userName pageName i).map
          (fun r => r.2.repository.ds.item? userName pageName itemID) =
        some (app.repository.ds.item? userName pageName itemID)) ∧
    (app.CreateItem now markdownToHTML generateID fuel userName pageName i).map
        (fun r => r.2.repository.ds.page? userName pageName) =
      some (app.repository.ds.page? userName pageName) := by
  have hds := CurrentUserName_ds app
  unfold App.CreateItem
  generalize app.CurrentUserName = c at hds howner ⊢
  rcases c with ⟨cur, app1⟩
  simp only [] at hds howner ⊢
  subst howner
  have hcond : ¬ (cur = "" ∨ cur ≠ cur) := by
    simp only [ne_eq, not_true, or_false]
    exact hname
  simp only [hcond, if_false, hempty, and_self, if_true, Option.map_some', hds]
  refine ⟨trivial, ?_, trivial, fun _ => trivial, trivial⟩
  intro field message h
  simp at h

/-- Witness of C12 as amended: alice calls CreateItem on her page with an empty
item. -/
theorem CreateItem_empty_item_witness :
    ((healthyApp blogStore (loggedIn aliceIdent)).CreateItem 5 id (fun _ => "a1") 1
        "alice" "blog" emptyItem).map (fun r => r.1) =
      some (Except.error (Error.errorString
        "Empty item not allowed. Either content or URL must be provided: %#v")) ∧
    ((healthyApp blogStore (loggedIn aliceIdent)).CreateItem 5 id (fun _ => "a1") 1
        "alice" "blog" emptyItem).map (fun r => r.2.repository.ds) = some blogStore :=
  have h := CreateItem_empty_item (healthyApp blogStore (loggedIn aliceIdent)) 5 id
    (fun _ => "a1") 1 "alice" "blog" emptyItem (by decide) (by decide) ⟨rfl, rfl⟩
  ⟨h.1, h.2.2.1⟩

/-! ## The ids of the items of a page -/

/-- On a datastore without failures the loop of CreateItem stops at the first
unused id, when there is one within the fuel. -/
theorem uniqueItemID_healthy (generateID : Nat → String) (userName pageName : String)
    (ds : Datastore) (fuel k0 k : Nat) (h0 : k0 ≤ k) (hk : k < k0 + fuel)
    (hfree : ds.item? userName pageName (generateID k) = none) :
    ∃ k', k0 ≤ k' ∧ k' ≤ k ∧ ds.item? userName pageName (generateID k') = none ∧
      uniqueItemID generateID userName pageName fuel k0 ⟨ds, []⟩ =
        some (Except.ok (generateID k'), ⟨ds, []⟩) := by
  induction fuel generalizing k0 with
  | zero => omega
  | succ fuel ih =>
    unfold uniqueItemID
    simp only [FindItem_eq, List.head?_nil, reduceCtorEq, if_false, List.tail_nil]
    cases hi : ds.item? userName pageName (generateID k0) with
    | none =>
      simp only [Option.isSome_none]
      exact ⟨k0, le_refl _, h0, hi, rfl⟩
    | some it =>
      simp only [Option.isSome_some]
      have hne : k0 ≠ k := by
        intro e
        subst e
        rw [hfree] at hi
        exact absurd hi (by simp)
      obtain ⟨k', h1, h2, h3, h4⟩ := ih (k0 + 1) (by omega) (by omega)
      exact ⟨k', by omega, h2, h3, h4⟩

/-- CreateItem on a datastore without failures, called by the owner with an item
that is not empty and an ID generator that gives an unused id within the fuel:
the item is stored under the first unused id; the call fails with the error of
the second transaction when the page is not stored, and succeeds when it is. -/
theorem CreateItem_healthy (app : App) (now : Time) (markdownToHTML : String → String)
    (generateID : Nat → String) (fuel : Nat) (userName pageName : String) (i : Item) (k : Nat)
    (hf : app.repository.faults = []) (howner : app.CurrentUserName.1 = userName)
    (hname : userName ≠ "") (hvalid : ¬ (i.Content = "" ∧ i.URL = ""))
    (hk : k < fuel) (hfree : app.repository.ds.item? userName pageName (generateID k) = none) :
    ∃ k', k' ≤ k ∧ app.repository.ds.item? userName pageName (generateID k') = none ∧
      (app.repository.ds.page? userName pageName = none →
        app.CreateItem now markdownToHTML generateID fuel userName pageName i =
          some (Except.error (Error.NotInDatastoreError "Page" pageName),
            { app with repository := ⟨{ app.repository.ds with
                items := kvPut itemKey ((userName, pageName),
                  { i with HTMLContent := markdownToHTML i.Content, CreationDate := now,
                           LastModificationDate := now, ID := generateID k' })
                  app.repository.ds.items }, []⟩ })) ∧
      (∀ page, app.repository.ds.page? userName pageName = some page →
        app.CreateItem now markdownToHTML generateID fuel userName pageName i =
          some (Except.ok { i with HTMLContent := markdownToHTML i.Content, CreationDate := now,
                                   LastModificationDate := now, ID := generateID k' },
            { app with repository := ⟨{ app.repository.ds with
                items := kvPut itemKey ((userName, pageName),
                  { i with HTMLContent := markdownToHTML i.Content, CreationDate := now,
                           LastModificationDate := now, ID := generateID k' })
                  app.repository.ds.items,
                pages := kvPut pageKey { page with LastModificationDate := now }
                  app.repository.ds.pages }, []⟩ })) := by
  have hhealthy := CurrentUserName_healthy app hf
  unfold App.CreateItem
  generalize app.CurrentUserName = c at hhealthy howner ⊢
  rcases c with ⟨cur, app1⟩
  simp only [] at hhealthy howner ⊢
  subst hhealthy howner
  rcases app1 with ⟨⟨ds, faults⟩, ui⟩
  simp only [] at hf hfree ⊢
  subst hf
  obtain ⟨k', _, h2, h3, h4⟩ := uniqueItemID_healthy generateID cur pageName ds fuel 0 k
    (Nat.zero_le _) (by omega) hfree
  refine ⟨k', h2, h3, ?_, ?_⟩
  · intro hp
    simp only [Datastore.page?] at hp
    simp only [hname, ne_eq, not_true, or_self, if_false, hvalid, createItemTx, h4,
      StoreItem_eq, List.head?_nil, reduceCtorEq, List.tail_nil, commit_healthy, thenPageDate,
      Repository.RunInTransaction, pageDateTx_healthy, Datastore.page?, hp]
  · intro page hp
    simp only [Datastore.page?] at hp
    simp only [hname, ne_eq, not_true, or_self, if_false, hvalid, createItemTx, h4,
      StoreItem_eq, List.head?_nil, reduceCtorEq, List.tail_nil, commit_healthy, thenPageDate,
      Repository.RunInTransaction, pageDateTx_healthy, Datastore.page?, hp]

theorem kvGet_eq_none {κ α : Type} [DecidableEq κ] (key : α → κ) (k : κ) (l : List α) :
    kvGet key k l = none ↔ ∀ e ∈ l, key e ≠ k := by
  induction l with
  | nil => simp [kvGet]
  | cons e rest ih =>
    unfold kvGet
    by_cases h : key e = k
    · simp [h]
    · simp [h, ih]

theorem kvDelete_of_absent {κ α : Type} [DecidableEq κ] (key : α → κ) (k : κ) (l : List α)
    (h : kvGet key k l = none) : kvDelete key k l = l := by
  rw [kvGet_eq_none] at h
  unfold kvDelete
  rw [List.filter_eq_self]
  intro e he
  simp [h e he]

theorem mem_itemsOf (ds : Datastore) (u n : String) (item : Item) :
    item ∈ ds.itemsOf u n ↔ ((u, n), item) ∈ ds.items := by
  unfold Datastore.itemsOf
  simp only [List.mem_map, List.mem_filter, decide_eq_true_eq]
  constructor
  · rintro ⟨e, ⟨he, hk⟩, hi⟩
    rw [← hk, ← hi]
    exact he
  · intro h
    exact ⟨_, ⟨h, rfl⟩, rfl⟩

/-- The items of a page after an item was stored in it under an unused id. -/
theorem itemsOf_put_fresh (ds : Datastore) (u n : String) (stored : Item) (pages : List Page)
    (h : ds.item? u n stored.ID = none) :
    Datastore.itemsOf
        { ds with items := kvPut itemKey ((u, n), stored) ds.items, pages := pages } u n =
      stored :: ds.itemsOf u n := by
  have h' : kvGet itemKey (u, n, stored.ID) ds.items = none := by
    simp only [Datastore.item?, Option.map_eq_none'] at h
    exact h
  simp only [Datastore.itemsOf, kvPut, itemKey, kvDelete_of_absent itemKey _ _ h',
    List.filter_cons, decide_True, if_true, List.map_cons]

/-- The items of the other pages after an item was stored in a page. -/
theorem itemsOf_put_other (ds : Datastore) (u n : String) (stored : Item) (pages : List Page)
    (u' n' : String) (h : (u', n') ≠ (u, n)) :
    Datastore.itemsOf
        { ds with items := kvPut itemKey ((u, n), stored) ds.items, pages := pages } u' n' =
      ds.itemsOf u' n' := by
  have hne : ¬ (u, n) = (u', n') := fun e => h e.symm
  simp only [Datastore.itemsOf, kvPut, kvDelete, itemKey, List.filter_cons, hne, decide_False,
    Bool.false_eq_true, if_false, List.filter_filter]
  congr 1
  apply List.filter_congr
  intro e _
  by_cases he : e.1 = (u', n')
  · have hk : ¬ (u' = u ∧ n' = n ∧ e.2.ID = stored.ID) := by
      rintro ⟨h1, h2, _⟩
      exact h (by rw [h1, h2])
    simp [he, hk]
  · simp [he]

/-- C13: a successful CreateItem stores the new item under an id that no item of
the page had before the call; every item stored before the call, in this page
or another, is still stored unchanged; the items of the page are the new item
and the items it had, one more than before, the items of the other pages are
the same, and the ids of the items of the page stay distinct.  This holds for
every datastore content, every ID generator and every schedule of datastore
failures.  On a datastore without failures the call of the owner succeeds
when the page is stored, the item is not empty and the generator gives an
unused id within the fuel. -/
theorem CreateItem_unique_id (app : App) (now : Time) (markdownToHTML : String → String)
    (generateID : Nat → String) (fuel : Nat) (userName pageName : String) (i : Item) :
    (∀ j app', app.CreateItem now markdownToHTML generateID fuel userName pageName i =
        some (Except.ok j, app') →
      app.repository.ds.item? userName pageName j.ID = none ∧
      app'.repository.ds.item? userName pageName j.ID = some j ∧
      (∀ u n id item, app.repository.ds.item? u n id = some item →
        app'.repository.ds.item? u n id = some item) ∧
      app'.repository.ds.itemsOf userName pageName =
        j :: app.repository.ds.itemsOf userName pageName ∧
      (app'.repository.ds.itemsOf userName pageName).length =
        (app.repository.ds.itemsOf userName pageName).length + 1 ∧
      (∀ u n, (u, n) ≠ (userName, pageName) →
        app'.repository.ds.itemsOf u n = app.repository.ds.itemsOf u n) ∧
      (((app.repository.ds.itemsOf userName pageName).map (fun item => item.ID)).Nodup →
        ((app'.repository.ds.itemsOf userName pageName).map (fun item => item.ID)).Nodup)) ∧
    (∀ page k, app.repository.faults = [] → app.CurrentUserName.1 = userName →
      userName ≠ "" → ¬ (i.Content = "" ∧ i.URL = "") →
      app.repository.ds.page? userName pageName = some page →
      k < fuel → app.repository.ds.item? userName pageName (generateID k) = none →
      ∃ j app', app.CreateItem now markdownToHTML generateID fuel userName pageName i =
        some (Except.ok j, app')) := by
  constructor
  · intro j app' h
    obtain ⟨_, _, _, _, hfresh, page, _, hds⟩ :=
      CreateItem_ok app app' now markdownToHTML generateID fuel userName pageName i j h
    have hitems : app'.repository.ds.itemsOf userName pageName =
        j :: app.repository.ds.itemsOf userName pageName := by
      rw [hds]
      exact itemsOf_put_fresh _ _ _ _ _ hfresh
    refine ⟨hfresh, ?_, ?_, hitems, ?_, ?_, ?_⟩
    · rw [hds, item?_put]
      simp
    · intro u n id item hi
      rw [hds, item?_put]
      split_ifs with hk
      · exfalso
        simp only [Prod.mk.injEq] at hk
        obtain ⟨e1, e2, e3⟩ := hk
        subst e1 e2 e3
        rw [hfresh] at hi
        exact absurd hi (by simp)
      · exact hi
    · rw [hitems, List.length_cons]
    · intro u n hne
      rw [hds]
      exact itemsOf_put_other _ _ _ _ _ _ _ hne
    · intro hnodup
      rw [hitems, List.map_cons, List.nodup_cons]
      refine ⟨?_, hnodup⟩
      intro hmem
      obtain ⟨item, hitem, hid⟩ := List.mem_map.mp hmem
      rw [mem_itemsOf] at hitem
      have hnone : kvGet itemKey (userName, pageName, j.ID) app.repository.ds.items = none := by
        simp only [Datastore.item?, Option.map_eq_none'] at hfresh
        exact hfresh
      rw [kvGet_eq_none] at hnone
      have := hnone _ hitem
      simp only [itemKey] at this hid
      rw [hid] at this
      exact this rfl
  · intro page k hf howner hname hvalid hp hk hfree
    obtain ⟨k', _, _, _, h2⟩ := CreateItem_healthy app now markdownToHTML generateID fuel
      userName pageName i k hf howner hname hvalid hk hfree
    exact ⟨_, _, h2 page hp⟩

/-- Witness of C13: alice creates a second item in her page at time 7; the
generator gives the id "a1", which is taken, and then "a2". -/
theorem CreateItem_unique_id_witness :
    (healthyApp helloStore (loggedIn aliceIdent)).CreateItem 7 id exampleIDs 2 "alice" "blog"
        helloItem = some (Except.ok secondStored, healthyApp secondStore (loggedIn aliceIdent)) ∧
    helloStore.item? "alice" "blog" "a2" = none ∧
    secondStore.item? "alice" "blog" "a2" = some secondStored ∧
    secondStore.item? "alice" "blog" "a1" = some helloStored ∧
    (secondStore.itemsOf "alice" "blog").length = (helloStore.itemsOf "alice" "blog").length + 1 :=
  have h := (CreateItem_unique_id (healthyApp helloStore (loggedIn aliceIdent)) 7 id
    exampleIDs 2 "alice" "blog" helloItem).1 secondStored
    (healthyApp secondStore (loggedIn aliceIdent)) rfl
  ⟨rfl, h.1, h.2.1, h.2.2.1 "alice" "blog" "a1" helloStored (by decide), h.2.2.2.2.1⟩

/-! ## UpdateItem and the tags of the item -/

/-- UpdateItem on a datastore without failures, called by the owner with an item
that is not empty, for a stored item of a stored page: the call succeeds. -/
theorem UpdateItem_healthy (app : App) (now : Time) (markdownToHTML : String → String)
    (userName pageName : String) (i oldItem : Item) (page : Page) (updateTags : Bool)
    (hf : app.repository.faults = []) (howner : app.CurrentUserName.1 = userName)
    (hname : userName ≠ "") (hvalid : ¬ (i.Content = "" ∧ i.URL = ""))
    (hitem : app.repository.ds.item? userName pageName i.ID = some oldItem)
    (hpage : app.repository.ds.page? userName pageName = some page) :
    (app.UpdateItem now markdownToHTML userName pageName i updateTags).1 =
      Except.ok { i with HTMLContent := markdownToHTML i.Content, LastModificationDate := now,
                         CreationDate := oldItem.CreationDate,
                         Tags := if updateTags then i.Tags else oldItem.Tags } := by
  have hhealthy := CurrentUserName_healthy app hf
  unfold App.UpdateItem
  generalize app.CurrentUserName = c at hhealthy howner ⊢
  rcases c with ⟨cur, app1⟩
  simp only [] at hhealthy howner ⊢
  subst hhealthy howner
  rcases app1 with ⟨⟨ds, faults⟩, ui⟩
  simp only [] at hf hitem hpage ⊢
  subst hf
  simp only [Datastore.page?] at hpage
  cases updateTags <;>
    simp only [hname, ne_eq, not_true, or_self, if_false, hvalid, updateItemTx, GetItem_eq,
      hitem, StoreItem_eq, List.head?_nil, reduceCtorEq, List.tail_nil, commit_healthy,
      thenPageDate, Repository.RunInTransaction, pageDateTx_healthy, Datastore.page?, hpage,
      Bool.not_false, Bool.not_true, if_true, Bool.false_eq_true]

/-- C14: after a successful UpdateItem with updateTags = false the item stored
under the id has the tag list and the creation date of the item that was
stored under it before the call, whatever the caller supplied for them; on a
datastore without failures the call of the owner for a stored item of a stored
page, with an item that is not empty, succeeds. -/
theorem UpdateItem_keeps_tags (app : App) (now : Time) (markdownToHTML : String → String)
    (userName pageName : String) (i : Item) :
    (∀ j, (app.UpdateItem now markdownToHTML userName pageName i false).1 = Except.ok j →
      ∃ oldItem, app.repository.ds.item? userName pageName i.ID = some oldItem ∧
        (app.UpdateItem now markdownToHTML userName pageName i false).2.repository.ds.item?
          userName pageName i.ID = some j ∧
        j.Tags = oldItem.Tags ∧ j.CreationDate = oldItem.CreationDate) ∧
    (∀ oldItem page, app.repository.faults = [] → app.CurrentUserName.1 = userName →
      userName ≠ "" → ¬ (i.Content = "" ∧ i.URL = "") →
      app.repository.ds.item? userName pageName i.ID = some oldItem →
      app.repository.ds.page? userName pageName = some page →
      ∃ j, (app.UpdateItem now markdownToHTML userName pageName i false).1 = Except.ok j) := by
  constructor
  · intro j h
    obtain ⟨_, _, ⟨oldItem, h1, h2⟩, page, _, hds⟩ :=
      UpdateItem_ok app now markdownToHTML userName pageName i j false h
    refine ⟨oldItem, h1, ?_, by rw [h2]; rfl, by rw [h2]⟩
    have hid : j.ID = i.ID := by rw [h2]
    rw [hds, item?_put, hid]
    simp
  · intro oldItem page hf howner hname hvalid hitem hpage
    exact ⟨_, UpdateItem_healthy app now markdownToHTML userName pageName i oldItem page false
      hf howner hname hvalid hitem hpage⟩

/-- Witness of C14: alice updates her item "a1" at time 8 and supplies the tags
"b" and "a"; the stored item keeps its empty tag list and its creation date 5. -/
theorem UpdateItem_keeps_tags_witness :
    helloStore.item? "alice" "blog" "a1" = some helloStored ∧
    retaggedItem.Tags = [⟨"b", "2"⟩, ⟨"a", "1"⟩] ∧
    ((healthyApp helloStore (loggedIn aliceIdent)).UpdateItem 8 id "alice" "blog"
      retaggedItem false).2.repository.ds.item? "alice" "blog" "a1" =
        some { helloStored with LastModificationDate := 8 } ∧
    helloStored.Tags = [] ∧ helloStored.CreationDate = 5 := by
  obtain ⟨oldItem, h1, h2, _, _⟩ :=
    (UpdateItem_keeps_tags (healthyApp helloStore (loggedIn aliceIdent)) 8 id "alice" "blog"
      retaggedItem).1 { helloStored with LastModificationDate := 8 } rfl
  exact ⟨by decide, rfl, h2, rfl, rfl⟩

/-- Counterexample to C15: alice updates her item "a1" with updateTags = true and
the tags "b" and "a", in this order; the call succeeds and the tag list is
stored as supplied, which is not in ascending key order: `Tag` does not find
the key "b" in it. -/
theorem UpdateItem_stores_unsorted_tags :
    ((healthyApp helloStore (loggedIn aliceIdent)).UpdateItem 8 id "alice" "blog"
      retaggedItem true).1 =
      Except.ok { helloStored with LastModificationDate := 8, Tags := unsortedTags } ∧
    (((healthyApp helloStore (loggedIn aliceIdent)).UpdateItem 8 id "alice" "blog"
      retaggedItem true).2.repository.ds.item? "alice" "blog" "a1").map (fun item => item.Tags) =
      some [⟨"b", "2"⟩, ⟨"a", "1"⟩] ∧
    stringLess "a" "b" = true ∧
    ¬ TagList.Sorted [⟨"b", "2"⟩, ⟨"a", "1"⟩] ∧
    TagList.Tag [⟨"b", "2"⟩, ⟨"a", "1"⟩] "b" = "" := by
  refine ⟨rfl, by decide, by decide, ?_, by decide⟩
  unfold TagList.Sorted
  decide

/-- C15, as the code has it: after a successful UpdateItem with updateTags =
true the item stored under the id has the supplied tag list, pair for pair and
in the supplied order: UpdateItem does not sort it, and the stored list is in
ascending key order exactly when the supplied list is. -/
theorem UpdateItem_stores_supplied_tags (app : App) (now : Time)
    (markdownToHTML : String → String) (userName pageName : String) (i j : Item)
    (h : (app.UpdateItem now markdownToHTML userName pageName i true).1 = Except.ok j) :
    (app.UpdateItem now markdownToHTML userName pageName i true).2.repository.ds.item?
      userName pageName i.ID = some j ∧
    j.Tags = i.Tags ∧ (TagList.Sorted j.Tags ↔ TagList.Sorted i.Tags) := by
  obtain ⟨_, _, ⟨oldItem, h1, h2⟩, page, _, hds⟩ :=
    UpdateItem_ok app now markdownToHTML userName pageName i j true h
  have hid : j.ID = i.ID := by rw [h2]
  have htags : j.Tags = i.Tags := by rw [h2]; rfl
  refine ⟨?_, htags, by rw [htags]⟩
  rw [hds, item?_put, hid]
  simp

/-- Witness of C15 as amended: alice updates her item "a1" with the tags "b" and
"a". -/
theorem UpdateItem_stores_supplied_tags_witness :
    ((healthyApp helloStore (loggedIn aliceIdent)).UpdateItem 8 id "alice" "blog"
      retaggedItem true).2.repository.ds.item? "alice" "blog" "a1" =
      some { helloStored with LastModificationDate := 8, Tags := unsortedTags } ∧
    unsortedTags = retaggedItem.Tags :=
  have h := UpdateItem_stores_supplied_tags (healthyApp helloStore (loggedIn aliceIdent)) 8 id
    "alice" "blog" retaggedItem { helloStored with LastModificationDate := 8, Tags := unsortedTags }
    rfl
  ⟨h.1, h.2.1⟩

/-! ## SetItemTag -/

theorem item?_key (ds : Datastore) (u n id : String) (item : Item)
    (h : ds.item? u n id = some item) : item.ID = id := by
  unfold Datastore.item? at h
  cases hg : kvGet itemKey (u, n, id) ds.items with
  | none => rw [hg] at h; simp at h
  | some e =>
    rw [hg] at h
    simp only [Option.map_some', Option.some.injEq] at h
    have := kvGet_key itemKey (u, n, id) ds.items e hg
    simp only [itemKey, Prod.mk.injEq] at this
    rw [← h]
    exact this.2.2

/-- SetItemTag with the empty key fails and writes nothing. -/
theorem SetItemTag_empty_key (app : App) (now : Time) (userName pageName itemID tagValue : String) :
    (app.SetItemTag now userName pageName itemID "" tagValue).1 ≠ none ∧
    (app.SetItemTag now userName pageName itemID "" tagValue).2.repository.ds =
      app.repository.ds ∧
    (app.CurrentUserName.1 = userName → userName ≠ "" →
      (app.SetItemTag now userName pageName itemID "" tagValue).1 =
        some (Error.errorString "Empty tag key not allowed.")) := by
  have hds := CurrentUserName_ds app
  unfold App.SetItemTag
  generalize app.CurrentUserName = c at hds ⊢
  rcases c with ⟨cur, app1⟩
  simp only [] at hds ⊢
  by_cases hcond : cur = "" ∨ cur ≠ userName
  · simp only [hcond, if_true]
    refine ⟨by simp, hds, ?_⟩
    intro h1 h2
    rcases hcond with h | h
    · exact absurd (h1 ▸ h) h2
    · exact absurd h1 h
  · simp only [hcond, if_false, if_true]
    exact ⟨by simp, hds, fun _ _ => trivial⟩

/-- SetItemTag on a datastore without failures, called by the owner with a key
that is not empty, for a stored item of a stored page: the call succeeds. -/
theorem SetItemTag_healthy (app : App) (now : Time)
    (userName pageName itemID tagKey tagValue : String) (oldItem : Item) (page : Page)
    (hf : app.repository.faults = []) (howner : app.CurrentUserName.1 = userName)
    (hname : userName ≠ "") (hkey : tagKey ≠ "")
    (hitem : app.repository.ds.item? userName pageName itemID = some oldItem)
    (hpage : app.repository.ds.page? userName pageName = some page) :
    (app.SetItemTag now userName pageName itemID tagKey tagValue).1 = none := by
  have hhealthy := CurrentUserName_healthy app hf
  unfold App.SetItemTag
  generalize app.CurrentUserName = c at hhealthy howner ⊢
  rcases c with ⟨cur, app1⟩
  simp only [] at hhealthy howner ⊢
  subst hhealthy howner
  rcases app1 with ⟨⟨ds, faults⟩, ui⟩
  simp only [] at hf hitem hpage ⊢
  subst hf
  simp only [Datastore.page?] at hpage
  simp only [hname, ne_eq, not_true, or_self, if_false, hkey, setItemTagTx, GetItem_eq,
    hitem, StoreItem_eq, List.head?_nil, reduceCtorEq, List.tail_nil, commit_healthy,
    Repository.RunInTransaction, pageDateTx_healthy, Datastore.page?, hpage, errorOf]

/-- C16: SetItemTag on a stored item whose tag list is in ascending key order
with unique keys.  With the empty key the call fails and the stored entities
are unchanged, the error being "Empty tag key not allowed." for the owner.
After a successful call, the item stored under the id is the one stored before
with the last modification date set to the call time and the tag list changed
by SetTag: `Tag` returns the given value for the key and what it returned
before for every other key, the tags with another key are the same, and the
list is still sorted; the page is the one stored before with the last
modification date set to the call time.  On a datastore without failures the
call of the owner with a key that is not empty, for a stored item of a stored
page, succeeds. -/
theorem SetItemTag_sets_tag (app : App) (now : Time)
    (userName pageName itemID tagKey tagValue : String) :
    ((app.SetItemTag now userName pageName itemID "" tagValue).1 ≠ none ∧
      (app.SetItemTag now userName pageName itemID "" tagValue).2.repository.ds =
        app.repository.ds ∧
      (app.CurrentUserName.1 = userName → userName ≠ "" →
        (app.SetItemTag now userName pageName itemID "" tagValue).1 =
          some (Error.errorString "Empty tag key not allowed."))) ∧
    (∀ oldItem, app.repository.ds.item? userName pageName itemID = some oldItem →
      TagList.Sorted oldItem.Tags →
      (app.SetItemTag now userName pageName itemID tagKey tagValue).1 = none →
      ∃ newTags page,
        (app.SetItemTag now userName pageName itemID tagKey tagValue).2.repository.ds.item?
          userName pageName itemID =
            some { oldItem with LastModificationDate := now, Tags := newTags } ∧
        TagList.Tag newTags tagKey = tagValue ∧
        (∀ other, other ≠ tagKey → TagList.Tag newTags other = TagList.Tag oldItem.Tags other) ∧
        (∀ t : Tag, t.Key ≠ tagKey → (t ∈ newTags ↔ t ∈ oldItem.Tags)) ∧
        TagList.Sorted newTags ∧
        app.repository.ds.page? userName pageName = some page ∧
        (app.SetItemTag now userName pageName itemID tagKey tagValue).2.repository.ds.page?
          userName pageName = some { page with LastModificationDate := now }) ∧
    (∀ oldItem page, app.repository.faults = [] → app.CurrentUserName.1 = userName →
      userName ≠ "" → tagKey ≠ "" →
      app.repository.ds.item? userName pageName itemID = some oldItem →
      app.repository.ds.page? userName pageName = some page →
      (app.SetItemTag now userName pageName itemID tagKey tagValue).1 = none) := by
  refine ⟨SetItemTag_empty_key app now userName pageName itemID tagValue, ?_, ?_⟩
  · intro oldItem hitem hs h
    obtain ⟨_, _, _, old', h1, page, hp, hds⟩ :=
      SetItemTag_ok app now userName pageName itemID tagKey tagValue h
    rw [hitem] at h1
    simp only [Option.some.injEq] at h1
    subst h1
    have hid := item?_key _ _ _ _ _ hitem
    obtain ⟨hk1, hk2⟩ := page?_key _ _ _ _ hp
    refine ⟨oldItem.Tags.SetTag tagKey tagValue, page, ?_, Tag_SetTag _ hs _ _,
      fun other hne => Tag_SetTag_ne _ hs _ _ _ hne, ?_, SetTag_sorted _ hs _ _, hp, ?_⟩
    · rw [hds, item?_put]
      simp only [hid, if_true]
    · intro t ht
      rw [mem_SetTag _ hs]
      constructor
      · rintro (e | e)
        · rw [e] at ht
          exact absurd rfl ht
        · exact e.1
      · intro e
        exact Or.inr ⟨e, ht⟩
    · rw [hds]
      simp only [Datastore.page?, kvGet_kvPut, pageKey, hk1, hk2, if_true]
  · intro oldItem page hf howner hname hkey hitem hpage
    exact SetItemTag_healthy app now userName pageName itemID tagKey tagValue oldItem page
      hf howner hname hkey hitem hpage

/-- Witness of C16: alice sets the tag "price" of her item "a1", which has the
tags "color" and "size", at time 9. -/
theorem SetItemTag_sets_tag_witness :
    taggedStore.item? "alice" "blog" "a1" = some taggedStored ∧
    ((healthyApp taggedStore (loggedIn aliceIdent)).SetItemTag 9 "alice" "blog" "a1" "price"
      "12").1 = none ∧
    ((healthyApp taggedStore (loggedIn aliceIdent)).SetItemTag 9 "alice" "blog" "a1" ""
      "12").1 = some (Error.errorString "Empty tag key not allowed.") ∧
    ((healthyApp taggedStore (loggedIn aliceIdent)).SetItemTag 9 "alice" "blog" "a1" "price"
      "12").2.repository.ds.item? "alice" "blog" "a1" =
        some { taggedStored with
          LastModificationDate := 9,
          Tags := [⟨"color", "red"⟩, ⟨"price", "12"⟩, ⟨"size", "L"⟩] } ∧
    TagList.Tag [⟨"color", "red"⟩, ⟨"price", "12"⟩, ⟨"size", "L"⟩] "price" = "12" ∧
    TagList.Tag [⟨"color", "red"⟩, ⟨"price", "12"⟩, ⟨"size", "L"⟩] "size" =
      TagList.Tag taggedStored.Tags "size" ∧
    TagList.Sorted [⟨"color", "red"⟩, ⟨"price", "12"⟩, ⟨"size", "L"⟩] := by
  have h := SetItemTag_sets_tag (healthyApp taggedStore (loggedIn aliceIdent)) 9 "alice" "blog"
    "a1" "price" "12"
  obtain ⟨newTags, page, h1, h2, h3, _, h5, _, _⟩ :=
    h.2.1 taggedStored (by decide) (by unfold TagList.Sorted; decide) (by decide)
  have e : ((healthyApp taggedStore (loggedIn aliceIdent)).SetItemTag 9 "alice" "blog" "a1"
      "price" "12").2.repository.ds.item? "alice" "blog" "a1" =
        some { taggedStored with
          LastModificationDate := 9,
          Tags := [⟨"color", "red"⟩, ⟨"price", "12"⟩, ⟨"size", "L"⟩] } := by decide
  have e2 : some ([⟨"color", "red"⟩, ⟨"price", "12"⟩, ⟨"size", "L"⟩] : TagList) = some newTags :=
    congrArg (Option.map (fun item : Item => item.Tags)) (e.symm.trans h1)
  have e3 := Option.some.inj e2
  subst e3
  exact ⟨by decide, by decide, h.1.2.2 (by decide) (by decide), e, h2,
    h3 "size" (by decide), h5⟩

/-! ## CreateItem on a page that is not stored -/

theorem uniqueItemID_error (generateID : Nat → String) (userName pageName : String)
    (fuel k : Nat) (repo : Repository) (err : Error) (repo' : Repository)
    (h : uniqueItemID generateID userName pageName fuel k repo =
      some (Except.error err, repo')) : err = Error.datastore := by
  induction fuel generalizing k repo with
  | zero => simp [uniqueItemID] at h
  | succ fuel ih =>
    unfold uniqueItemID at h
    simp only [FindItem_eq] at h
    by_cases h0 : repo.faults.head? = some true
    · simp only [h0, if_true, Option.some.injEq, Prod.mk.injEq, Except.error.injEq] at h
      exact h.1.symm
    · simp only [h0, if_false] at h
      cases hi : repo.ds.item? userName pageName (generateID k) with
      | none => simp [hi] at h
      | some it =>
        simp only [hi, Option.isSome_some] at h
        exact ih (k + 1) _ h

/-- The errors of the first transaction function of CreateItem are errors of the
datastore. -/
theorem createItemTx_error (generateID : Nat → String) (fuel : Nat) (userName pageName : String)
    (i : Item) (repo : Repository) (err : Error) (repo' : Repository)
    (h : createItemTx generateID fuel userName pageName i repo =
      some (Except.error err, repo')) : err = Error.datastore := by
  unfold createItemTx at h
  rcases hu : uniqueItemID generateID userName pageName fuel 0 repo with _ | ⟨_ | id, repo1⟩
  · rw [hu] at h; simp at h
  · rw [hu] at h
    simp only [Option.some.injEq, Prod.mk.injEq, Except.error.injEq] at h
    rw [← h.1]
    exact uniqueItemID_error _ _ _ _ _ _ _ _ hu
  · rw [hu] at h
    simp only [StoreItem_eq] at h
    by_cases h0 : repo1.faults.head? = some true
    · simp only [h0, if_true, Option.some.injEq, Prod.mk.injEq, Except.error.injEq] at h
      exact h.1.symm
    · simp [h0] at h

/-- The error of a transaction is the error of its function or an error of the
datastore. -/
theorem commit_error_cases {α : Type} (repo : Repository) (r : Except Error α × Repository)
    (err : Error) (h : (repo.commit r).1 = Except.error err) :
    r.1 = Except.error err ∨ err = Error.datastore := by
  unfold Repository.commit at h
  rcases r with ⟨_ | a, txRepo⟩
  · left
    exact h
  · right
    simp only [call_eq] at h
    split_ifs at h with hc
    simp only [Except.error.injEq] at h
    exact h.symm

/-- A CreateItem that returns the error NotInDatastoreError has stored the item. -/
theorem CreateItem_NotInDatastoreError (app app' : App) (now : Time)
    (markdownToHTML : String → String) (generateID : Nat → String) (fuel : Nat)
    (userName pageName : String) (i : Item) (typ name : String)
    (h : app.CreateItem now markdownToHTML generateID fuel userName pageName i =
      some (Except.error (Error.NotInDatastoreError typ name), app')) :
    ∃ id, app.repository.ds.item? userName pageName id = none ∧
      app'.repository.ds = { app.repository.ds with
        items := kvPut itemKey ((userName, pageName),
          { i with HTMLContent := markdownToHTML i.Content, CreationDate := now,
                   LastModificationDate := now, ID := id }) app.repository.ds.items } := by
  have hds := CurrentUserName_ds app
  unfold App.CreateItem at h
  generalize app.CurrentUserName = c at hds h ⊢
  rcases c with ⟨cur, app1⟩
  simp only [] at hds h ⊢
  by_cases hcond : cur = "" ∨ cur ≠ userName
  · simp [hcond] at h
  · simp only [hcond, if_false] at h
    by_cases hempty : i.Content = "" ∧ i.URL = ""
    · simp [hempty] at h
    · simp only [hempty, if_false] at h
      rcases hc : createItemTx generateID fuel userName pageName
          { i with HTMLContent := markdownToHTML i.Content,
                   CreationDate := now, LastModificationDate := now } app1.repository
        with _ | ⟨r1, repo1⟩
      · rw [hc] at h; simp at h
      · rw [hc] at h
        simp only [Option.some.injEq] at h
        unfold thenPageDate at h
        rcases hcm : app1.repository.commit (r1, repo1) with ⟨_ | j, repo2⟩
        · rw [hcm] at h
          simp only [Prod.mk.injEq, Except.error.injEq] at h
          have hcm1 : (app1.repository.commit (r1, repo1)).1 =
              Except.error (Error.NotInDatastoreError typ name) := by rw [hcm, h.1]
          rcases commit_error_cases _ _ _ hcm1 with h1 | h1
          · simp only [] at h1
            subst h1
            have := createItemTx_error _ _ _ _ _ _ _ _ hc
            exact absurd this (by simp)
          · exact absurd h1 (by simp)
        · rw [hcm] at h
          simp only [] at h
          have hcm1 : (app1.repository.commit (r1, repo1)).1 = Except.ok j := by rw [hcm]
          obtain ⟨h6, h7⟩ := commit_ok _ _ _ hcm1
          simp only [] at h6 h7
          subst h6
          rw [hcm] at h7
          simp only [] at h7
          obtain ⟨h8, h9, _, h11⟩ := createItemTx_ok _ _ _ _ _ _ _ _ hc
          rcases ht : repo2.RunInTransaction
            (pageDateTx userName pageName j.LastModificationDate) with ⟨e | u, repo3⟩
          · rw [ht] at h
            simp only [Prod.mk.injEq, Except.error.injEq] at h
            have ht1 : (repo2.RunInTransaction
                (pageDateTx userName pageName j.LastModificationDate)).1 = Except.error e := by
              rw [ht]
            have h12 := RunInTransaction_error _ _ _ ht1
            rw [ht] at h12
            simp only [] at h12
            refine ⟨j.ID, ?_, ?_⟩
            · rw [← hds]; exact h8
            · rw [← h.2]
              simp only []
              rw [h12, h7, h11, hds, h9]
          · rw [ht] at h
            simp at h

/-- C17: CreateItem on a page that is not stored, on a datastore without
failures, called by the owner with an item that is not empty and an ID
generator that gives an unused id within the fuel: the call returns the error
NotInDatastoreError "Page" of the second transaction, and the item written by
the first transaction is stored afterwards under the page key, with the first
unused id, although no page is stored under that key.  Whatever the failures
of the datastore, the call does not succeed when the page is not stored, and
when it returns the error NotInDatastoreError the item is stored afterwards
under an id that was unused. -/
theorem CreateItem_without_page (app : App) (now : Time) (markdownToHTML : String → String)
    (generateID : Nat → String) (fuel : Nat) (userName pageName : String) (i : Item) (k : Nat)
    (hpage : app.repository.ds.page? userName pageName = none) :
    (∀ j app', app.CreateItem now markdownToHTML generateID fuel userName pageName i ≠
      some (Except.ok j, app')) ∧
    (∀ typ name app', app.CreateItem now markdownToHTML generateID fuel userName pageName i =
        some (Except.error (Error.NotInDatastoreError typ name), app') →
      ∃ id, app.repository.ds.item? userName pageName id = none ∧
        app'.repository.ds.item? userName pageName id =
          some { i with HTMLContent := markdownToHTML i.Content, CreationDate := now,
                        LastModificationDate := now, ID := id }) ∧
    (app.repository.faults = [] → app.CurrentUserName.1 = userName → userName ≠ "" →
      ¬ (i.Content = "" ∧ i.URL = "") → k < fuel →
      app.repository.ds.item? userName pageName (generateID k) = none →
      ∃ k', k' ≤ k ∧ app.repository.ds.item? userName pageName (generateID k') = none ∧
        (app.CreateItem now markdownToHTML generateID fuel userName pageName i).map
            (fun r => r.1) =
          some (Except.error (Error.NotInDatastoreError "Page" pageName)) ∧
        (app.CreateItem now markdownToHTML generateID fuel userName pageName i).map
            (fun r => r.2.repository.ds.item? userName pageName (generateID k')) =
          some (some { i with HTMLContent := markdownToHTML i.Content, CreationDate := now,
                              LastModificationDate := now, ID := generateID k' }) ∧
        (app.CreateItem now markdownToHTML generateID fuel userName pageName i).map
            (fun r => r.2.repository.ds.page? userName pageName) = some none) := by
  refine ⟨?_, ?_, ?_⟩
  · intro j app' h
    obtain ⟨_, _, _, _, _, page, hp, _⟩ :=
      CreateItem_ok app app' now markdownToHTML generateID fuel userName pageName i j h
    rw [hpage] at hp
    exact absurd hp (by simp)
  · intro typ name app' h
    obtain ⟨id, h1, h2⟩ := CreateItem_NotInDatastoreError app app' now markdownToHTML
      generateID fuel userName pageName i typ name h
    refine ⟨id, h1, ?_⟩
    rw [h2]
    simp only [Datastore.item?, kvGet_kvPut, itemKey, if_true, Option.map_some']
  · intro hf howner hname hvalid hk hfree
    obtain ⟨k', h1, h2, h3, _⟩ := CreateItem_healthy app now markdownToHTML generateID fuel
      userName pageName i k hf howner hname hvalid hk hfree
    refine ⟨k', h1, h2, ?_, ?_, ?_⟩
    · rw [h3 hpage]
      rfl
    · rw [h3 hpage]
      simp only [Option.map_some', Datastore.item?, kvGet_kvPut, itemKey, if_true]
    · rw [h3 hpage]
      simp only [Option.map_some']
      exact congrArg some hpage

/-- Witness of C17: alice creates an item in the page `(alice, blog)`, which is
not stored. -/
theorem CreateItem_without_page_witness :
    accountsStore.page? "alice" "blog" = none ∧
    ((healthyApp accountsStore (loggedIn aliceIdent)).CreateItem 5 id (fun _ => "a1") 1
        "alice" "blog" helloItem).map (fun r => r.1) =
      some (Except.error (Error.NotInDatastoreError "Page" "blog")) ∧
    ((healthyApp accountsStore (loggedIn aliceIdent)).CreateItem 5 id (fun _ => "a1") 1
        "alice" "blog" helloItem).map (fun r => r.2.repository.ds) = some orphanStore ∧
    orphanStore.item? "alice" "blog" "a1" = some helloStored ∧
    orphanStore.page? "alice" "blog" = none := by
  obtain ⟨k', hk', _, h1, h2, h3⟩ :=
    (CreateItem_without_page (healthyApp accountsStore (loggedIn aliceIdent)) 5 id
      (fun _ => "a1") 1 "alice" "blog" helloItem 0 (by decide)).2.2 rfl (by decide) (by decide)
      (by decide) (by decide) (by decide)
  exact ⟨by decide, h1, rfl, by decide, by decide⟩

/-! ## UpdateTemplate -/

/-- An UpdateTemplate that fails leaves the stored entities as they were. -/
theorem UpdateTemplate_error (app : App) (now : Time) (userName pageName newTemplateID : String)
    (err : Error) (h : (app.UpdateTemplate now userName pageName newTemplateID).1 = some err) :
    (app.UpdateTemplate now userName pageName newTemplateID).2.repository.ds =
      app.repository.ds := by
  have hds := CurrentUserName_ds app
  unfold App.UpdateTemplate at h ⊢
  generalize app.CurrentUserName = c at hds h ⊢
  rcases c with ⟨cur, app1⟩
  simp only [] at hds h ⊢
  by_cases hcond : cur = "" ∨ cur ≠ userName
  · simp only [hcond, if_true]
    exact hds
  · simp only [hcond, if_false] at h ⊢
    rw [errorOf_eq_some] at h
    rw [RunInTransaction_error _ _ err h, hds]

/-- UpdateTemplate on a datastore without failures, called by the owner for a
stored page: the call succeeds. -/
theorem UpdateTemplate_healthy (app : App) (now : Time)
    (userName pageName newTemplateID : String) (page : Page)
    (hf : app.repository.faults = []) (howner : app.CurrentUserName.1 = userName)
    (hname : userName ≠ "")
    (hpage : app.repository.ds.page? userName pageName = some page) :
    (app.UpdateTemplate now userName pageName newTemplateID).1 = none := by
  have hhealthy := CurrentUserName_healthy app hf
  unfold App.UpdateTemplate
  generalize app.CurrentUserName = c at hhealthy howner ⊢
  rcases c with ⟨cur, app1⟩
  simp only [] at hhealthy howner ⊢
  subst hhealthy howner
  rcases app1 with ⟨⟨ds, faults⟩, ui⟩
  simp only [] at hf hpage ⊢
  subst hf
  by_cases ht : page.TemplateID = newTemplateID
  · simp only [hname, ne_eq, not_true, or_self, if_false, updateTemplateTx, GetPage_eq, hpage,
      ht, if_true, List.head?_nil, reduceCtorEq, Repository.RunInTransaction,
      List.tail_nil, commit_healthy, errorOf]
  · simp only [hname, ne_eq, not_true, or_self, if_false, updateTemplateTx, GetPage_eq, hpage,
      ht, StorePage_eq, List.head?_nil, reduceCtorEq, Repository.RunInTransaction,
      List.tail_nil, commit_healthy, errorOf]

/-- C18: UpdateTemplate on a stored page.  After a successful call, when the new
template id is the stored one the stored entities are unchanged, and otherwise
the page stored under the key is the one stored before with the new template
id and the call time as last modification date, the other pages and the other
entities being unchanged.  A call that fails changes nothing.  On a datastore
without failures the call of the owner succeeds. -/
theorem UpdateTemplate_effect (app : App) (now : Time)
    (userName pageName newTemplateID : String) (page : Page)
    (hpage : app.repository.ds.page? userName pageName = some page) :
    ((app.UpdateTemplate now userName pageName newTemplateID).1 = none →
      (page.TemplateID = newTemplateID →
        (app.UpdateTemplate now userName pageName newTemplateID).2.repository.ds =
          app.repository.ds) ∧
      (page.TemplateID ≠ newTemplateID →
        (app.UpdateTemplate now userName pageName newTemplateID).2.repository.ds.page?
          userName pageName =
            some { page with LastModificationDate := now, TemplateID := newTemplateID } ∧
        (app.UpdateTemplate now userName pageName newTemplateID).2.repository.ds =
          { app.repository.ds with
            pages := kvPut pageKey
              { page with LastModificationDate := now, TemplateID := newTemplateID }
              app.repository.ds.pages } ∧
        (∀ u n, (u, n) ≠ (userName, pageName) →
          (app.UpdateTemplate now userName pageName newTemplateID).2.repository.ds.page? u n =
            app.repository.ds.page? u n))) ∧
    ((app.UpdateTemplate now userName pageName newTemplateID).1 ≠ none →
      (app.UpdateTemplate now userName pageName newTemplateID).2.repository.ds =
        app.repository.ds) ∧
    (app.repository.faults = [] → app.CurrentUserName.1 = userName → userName ≠ "" →
      (app.UpdateTemplate now userName pageName newTemplateID).1 = none) := by
  refine ⟨?_, ?_, ?_⟩
  · intro h
    obtain ⟨_, _, page', hp, hds⟩ := UpdateTemplate_ok app now userName pageName newTemplateID h
    rw [hpage] at hp
    simp only [Option.some.injEq] at hp
    subst hp
    obtain ⟨hk1, hk2⟩ := page?_key _ _ _ _ hpage
    constructor
    · intro ht
      rw [hds, if_pos ht]
    · intro ht
      rw [hds, if_neg ht]
      refine ⟨?_, rfl, ?_⟩
      · simp only [Datastore.page?, kvGet_kvPut, pageKey, hk1, hk2, if_true]
      · intro u n hne
        simp only [Datastore.page?, kvGet_kvPut, pageKey, hk1, hk2]
        rw [if_neg hne]
  · intro h
    cases hr : (app.UpdateTemplate now userName pageName newTemplateID).1 with
    | none => exact absurd hr h
    | some err => exact UpdateTemplate_error app now userName pageName newTemplateID err hr
  · intro hf howner hname
    exact UpdateTemplate_healthy app now userName pageName newTemplateID page hf howner hname
      hpage

/-- Witness of C18: alice sets the template of her page to "wall" at time 9, and
sets it to "blog2col", the stored one. -/
theorem UpdateTemplate_effect_witness :
    blogStore.page? "alice" "blog" = some blogPage ∧
    ((healthyApp blogStore (loggedIn aliceIdent)).UpdateTemplate 9 "alice" "blog" "wall").1 =
      none ∧
    ((healthyApp blogStore (loggedIn aliceIdent)).UpdateTemplate 9 "alice" "blog"
      "wall").2.repository.ds.page? "alice" "blog" =
        some { blogPage with LastModificationDate := 9, TemplateID := "wall" } ∧
    ((healthyApp blogStore (loggedIn aliceIdent)).UpdateTemplate 9 "alice" "blog"
      "blog2col").1 = none ∧
    ((healthyApp blogStore (loggedIn aliceIdent)).UpdateTemplate 9 "alice" "blog"
      "blog2col").2.repository.ds = blogStore :=
  have h1 := UpdateTemplate_effect (healthyApp blogStore (loggedIn aliceIdent)) 9 "alice" "blog"
    "wall" blogPage (by decide)
  have h2 := UpdateTemplate_effect (healthyApp blogStore (loggedIn aliceIdent)) 9 "alice" "blog"
    "blog2col" blogPage (by decide)
  ⟨by decide, h1.2.2 rfl (by decide) (by decide),
    ((h1.1 (h1.2.2 rfl (by decide) (by decide))).2 (by decide)).1,
    h2.2.2 rfl (by decide) (by decide),
    (h2.1 (h2.2.2 rfl (by decide) (by decide))).1 (by decide)⟩

/-! ## DeletePage and the Usage records -/

/-- What a successful DeletePage does: the items of the page and the page are
removed. -/
theorem DeletePage_ok (app : App) (userName pageName : String)
    (h : (app.DeletePage userName pageName).1 = none) :
    app.CurrentUserName.1 = userName ∧ userName ≠ "" ∧
    (app.DeletePage userName pageName).2.repository.ds =
      { app.repository.ds with
        items := app.repository.ds.items.filter
          (fun e => !decide (e.1 = (userName, pageName))),
        pages := kvDelete pageKey (userName, pageName) app.repository.ds.pages } := by
  have hds := CurrentUserName_ds app
  unfold App.DeletePage at h ⊢
  generalize app.CurrentUserName = c at hds h ⊢
  rcases c with ⟨cur, app1⟩
  simp only [] at hds h ⊢
  by_cases hcond : cur = "" ∨ cur ≠ userName
  · simp [hcond] at h
  · simp only [hcond, if_false] at h ⊢
    simp only [not_or, ne_eq, not_not] at hcond
    obtain ⟨hc1, hc2⟩ := hcond
    subst hc2
    simp only [DeleteItemsFromPage_eq, DeletePage_eq] at h ⊢
    by_cases h0 : app1.repository.faults.head? = some true
    · simp only [h0, if_true] at h
      exact absurd h (by simp)
    · by_cases h1 : app1.repository.faults.tail.head? = some true
      · simp only [h0, h1, if_true, if_false] at h
        exact absurd h (by simp)
      · by_cases h2 : app1.repository.faults.tail.tail.head? = some true
        · simp only [h0, h1, h2, if_true, if_false] at h
          exact absurd h (by simp)
        · simp only [h0, h1, h2, if_false, hds]
          exact ⟨trivial, hc1, trivial⟩

/-- No item is stored under a page whose items were removed. -/
theorem item?_filter_page (items : List ((String × String) × Item)) (u n id : String) :
    kvGet itemKey (u, n, id) (items.filter (fun e => !decide (e.1 = (u, n)))) = none := by
  rw [kvGet_eq_none]
  intro e he
  simp only [List.mem_filter, Bool.not_eq_true', decide_eq_false_iff_not] at he
  intro hk
  simp only [itemKey, Prod.mk.injEq] at hk
  exact he.2 (Prod.ext hk.1 hk.2.1)

/-- C19, as the code has it: after a successful DeletePage no page is stored
under the key and no item is stored under the page, but the Usage records are
all left as they were, those of the deleted page included: DeletePage calls
DeleteItemsFromPage and the DeletePage of the repository, and never
DeleteUsages. -/
theorem DeletePage_leaves_usages (app : App) (userName pageName : String)
    (h : (app.DeletePage userName pageName).1 = none) :
    (app.DeletePage userName pageName).2.repository.ds.page? userName pageName = none ∧
    (∀ itemID,
      (app.DeletePage userName pageName).2.repository.ds.item? userName pageName itemID =
        none) ∧
    (app.DeletePage userName pageName).2.repository.ds.itemsOf userName pageName = [] ∧
    (app.DeletePage userName pageName).2.repository.ds.usages = app.repository.ds.usages ∧
    (app.DeletePage userName pageName).2.repository.ds.usagesOf userName pageName =
      app.repository.ds.usagesOf userName pageName := by
  obtain ⟨_, _, hds⟩ := DeletePage_ok app userName pageName h
  rw [hds]
  refine ⟨?_, ?_, ?_, rfl, rfl⟩
  · simp only [Datastore.page?, kvGet_kvDelete, if_true]
  · intro itemID
    simp only [Datastore.item?, item?_filter_page, Option.map_none']
  · simp only [Datastore.itemsOf, List.filter_filter, List.map_eq_nil_iff, List.filter_eq_nil_iff]
    intro e _
    by_cases he : e.1 = (userName, pageName) <;> simp [he]

/-- Witness of C19: alice updates her page with the cover image "img1", which
stores a Usage record, and deletes the page: the page and its item are gone,
and the Usage record of the deleted page is still stored. -/
theorem DeletePage_leaves_usages_witness :
    ((healthyApp helloStore (loggedIn aliceIdent)).UpdatePage 8 coverPage coverSchema).1 =
      none ∧
    ((healthyApp helloStore (loggedIn aliceIdent)).UpdatePage 8 coverPage
      coverSchema).2.repository.ds = coverStore ∧
    ((healthyApp coverStore (loggedIn aliceIdent)).DeletePage "alice" "blog").1 = none ∧
    ((healthyApp coverStore (loggedIn aliceIdent)).DeletePage "alice" "blog").2.repository.ds =
      leftoverStore ∧
    leftoverStore.page? "alice" "blog" = none ∧
    leftoverStore.item? "alice" "blog" "a1" = none ∧
    leftoverStore.usagesOf "alice" "blog" = ["img1"] ∧
    ((healthyApp coverStore (loggedIn aliceIdent)).DeletePage "alice"
      "blog").2.repository.ds.usagesOf "alice" "blog" = coverStore.usagesOf "alice" "blog" :=
  ⟨by decide, by decide, by decide, by decide, by decide, by decide, by decide,
    (DeletePage_leaves_usages (healthyApp coverStore (loggedIn aliceIdent)) "alice" "blog"
      (by decide)).2.2.2.2⟩

/-! ## `Tag` after `SetTag` -/

/-- C20: on a tag list in ascending key order with unique keys, `Tag` after
`SetTag` with the same key returns the value that was set: the list then holds
the tag with the key and the value, and it is still in ascending key order
with unique keys, so that the binary search of `Tag` finds the tag. -/
theorem SetTag_then_Tag (l : TagList) (hs : TagList.Sorted l) (k v : String) :
    TagList.Tag (TagList.SetTag l k v) k = v ∧
    (⟨k, v⟩ : Tag) ∈ TagList.SetTag l k v ∧
    TagList.Sorted (TagList.SetTag l k v) := by
  have hsorted := SetTag_sorted l hs k v
  have hmem : (⟨k, v⟩ : Tag) ∈ TagList.SetTag l k v :=
    (mem_SetTag l hs k v _).mpr (Or.inl rfl)
  exact ⟨Tag_of_mem _ hsorted k v hmem, hmem, hsorted⟩

/-- Witness of C20: the tag "price" is added to the tags "color" and "size", and
the value of the tag "size" is replaced. -/
theorem SetTag_then_Tag_witness :
    TagList.Sorted [⟨"color", "red"⟩, ⟨"size", "L"⟩] ∧
    TagList.SetTag [⟨"color", "red"⟩, ⟨"size", "L"⟩] "price" "12" =
      [⟨"color", "red"⟩, ⟨"price", "12"⟩, ⟨"size", "L"⟩] ∧
    TagList.Tag (TagList.SetTag [⟨"color", "red"⟩, ⟨"size", "L"⟩] "price" "12") "price" = "12" ∧
    TagList.SetTag [⟨"color", "red"⟩, ⟨"size", "L"⟩] "size" "M" =
      [⟨"color", "red"⟩, ⟨"size", "M"⟩] ∧
    TagList.Tag (TagList.SetTag [⟨"color", "red"⟩, ⟨"size", "L"⟩] "size" "M") "size" = "M" :=
  ⟨by unfold TagList.Sorted; decide, by decide,
    (SetTag_then_Tag [⟨"color", "red"⟩, ⟨"size", "L"⟩] (by unfold TagList.Sorted; decide)
      "price" "12").1, by decide,
    (SetTag_then_Tag [⟨"color", "red"⟩, ⟨"size", "L"⟩] (by unfold TagList.Sorted; decide)
      "size" "M").1⟩

/-! ## Sequences of SetTag calls -/

/-- A tag list in strictly ascending key order is in ascending key order. -/
theorem Ascending_of_Sorted (l : TagList) (hs : TagList.Sorted l) : TagList.Ascending l := by
  unfold TagList.Sorted at hs
  unfold TagList.Ascending
  exact hs.imp (fun h => stringLess_asymm _ _ h)

/-- The insertion of a tag in a list in ascending key order gives a list in
ascending key order. -/
theorem insertTag_ascending (t : Tag) (l : TagList) (hs : TagList.Ascending l) :
    TagList.Ascending (insertTag t l) := by
  induction l with
  | nil => simp [insertTag, TagList.Ascending]
  | cons u rest ih =>
    unfold TagList.Ascending at hs ih ⊢
    rw [List.pairwise_cons] at hs
    obtain ⟨hu, hrest⟩ := hs
    unfold insertTag
    by_cases hlt : stringLess t.Key u.Key = true
    · rw [if_pos hlt, List.pairwise_cons, List.pairwise_cons]
      refine ⟨?_, hu, hrest⟩
      intro a ha
      rcases List.mem_cons.mp ha with e | e
      · rw [e]; exact stringLess_asymm _ _ hlt
      · cases hc : stringLess a.Key t.Key with
        | false => rfl
        | true =>
          have := stringLess_trans _ _ _ hc hlt
          rw [hu a e] at this
          exact absurd this (by simp)
    · rw [if_neg hlt, List.pairwise_cons]
      refine ⟨?_, ih hrest⟩
      intro a ha
      rcases (mem_insertTag t a rest).mp ha with e | e
      · rw [e]
        simpa using hlt
      · exact hu a e

/-- The sort gives a list in ascending key order. -/
theorem sortSort_ascending (l : TagList) : TagList.Ascending (sortSort l) := by
  unfold sortSort
  have : ∀ (l acc : TagList), TagList.Ascending acc →
      TagList.Ascending (l.foldl (fun sorted t => insertTag t sorted) acc) := by
    intro l
    induction l with
    | nil => intro acc h; exact h
    | cons t rest ih =>
      intro acc h
      rw [List.foldl_cons]
      exact ih _ (insertTag_ascending t acc h)
  exact this l [] (by simp [TagList.Ascending])

/-- The sort keeps the tags of the list. -/
theorem mem_sortSort (l : TagList) (x : Tag) : x ∈ sortSort l ↔ x ∈ l := by
  unfold sortSort
  have : ∀ (l acc : TagList),
      x ∈ l.foldl (fun sorted t => insertTag t sorted) acc ↔ x ∈ acc ∨ x ∈ l := by
    intro l
    induction l with
    | nil => intro acc; simp
    | cons t rest ih =>
      intro acc
      rw [List.foldl_cons, ih, mem_insertTag, List.mem_cons]
      tauto
  rw [this l []]
  simp

/-- The tags with a key, in a list: whether the key is present. -/
theorem present_SetTag (l : TagList) (hs : TagList.Sorted l) (key value other : String) :
    (∃ t ∈ TagList.SetTag l key value, t.Key = other) ↔
      other = key ∨ ∃ t ∈ l, t.Key = other := by
  constructor
  · rintro ⟨t, ht, hk⟩
    rcases (mem_SetTag l hs key value t).mp ht with e | e
    · left
      rw [← hk, e]
    · exact Or.inr ⟨t, e.1, hk⟩
  · rintro (e | ⟨t, ht, hk⟩)
    · exact ⟨⟨key, value⟩, (mem_SetTag l hs key value _).mpr (Or.inl rfl), e.symm⟩
    · by_cases hkey : other = key
      · exact ⟨⟨key, value⟩, (mem_SetTag l hs key value _).mpr (Or.inl rfl), hkey.symm⟩
      · exact ⟨t, (mem_SetTag l hs key value _).mpr (Or.inr ⟨ht, fun h => hkey (hk ▸ h)⟩), hk⟩

/-- A sequence of calls of SetTag on a sorted list: the list stays sorted and its
keys are those it had and those of the calls. -/
theorem setTags_spec (calls : List (String × String)) (l : TagList) (hs : TagList.Sorted l) :
    TagList.Sorted (setTags l calls) ∧
    ∀ key, (∃ t ∈ setTags l calls, t.Key = key) ↔
      ((∃ t ∈ l, t.Key = key) ∨ ∃ call ∈ calls, call.1 = key) := by
  induction calls generalizing l with
  | nil => simp [setTags, hs]
  | cons call rest ih =>
    have h1 := SetTag_sorted l hs call.1 call.2
    obtain ⟨h2, h3⟩ := ih (TagList.SetTag l call.1 call.2) h1
    refine ⟨h2, ?_⟩
    intro key
    have h4 := h3 key
    simp only [setTags, List.foldl_cons] at h4 ⊢
    rw [h4, present_SetTag l hs]
    simp only [List.mem_cons, exists_eq_or_imp]
    constructor
    · rintro ((e | e) | e)
      · exact Or.inr (Or.inl e.symm)
      · exact Or.inl e
      · exact Or.inr (Or.inr e)
    · rintro (e | e | e)
      · exact Or.inl (Or.inr e)
      · exact Or.inl (Or.inl e.symm)
      · exact Or.inr e

/-- C21: after any sequence of SetTag calls on the empty tag list, the list is in
strictly ascending key order, so that its keys are unique, and a key is the
key of a tag of the list exactly when it is the key of one of the calls. -/
theorem SetTag_sequence_sorted (calls : List (String × String)) :
    TagList.Sorted (setTags [] calls) ∧
    ((setTags [] calls).map (fun t => t.Key)).Nodup ∧
    ∀ key, (∃ t ∈ setTags [] calls, t.Key = key) ↔ ∃ call ∈ calls, call.1 = key := by
  obtain ⟨h1, h2⟩ := setTags_spec calls [] (by simp [TagList.Sorted])
  refine ⟨h1, ?_, ?_⟩
  · unfold TagList.Sorted at h1
    rw [List.Nodup, List.pairwise_map]
    refine h1.imp ?_
    intro a b hab heq
    rw [heq, stringLess_irrefl] at hab
    exact absurd hab (by simp)
  · intro key
    rw [h2 key]
    simp

/-- Witness of C21: the keys "b", "a", "c" and "a" again are set on the empty
list. -/
theorem SetTag_sequence_sorted_witness :
    setTags [] [("b", "2"), ("a", "1"), ("c", "3"), ("a", "0")] =
      [⟨"a", "0"⟩, ⟨"b", "2"⟩, ⟨"c", "3"⟩] ∧
    TagList.Sorted (setTags [] [("b", "2"), ("a", "1"), ("c", "3"), ("a", "0")]) :=
  ⟨by decide, (SetTag_sequence_sorted [("b", "2"), ("a", "1"), ("c", "3"), ("a", "0")]).1⟩

/-! ## SetTag and Tag on arbitrary and on sorted lists -/

/-- Putting at an index the element that is there leaves the list as it is. -/
theorem set_self {α : Type} (l : List α) (m : Nat) (t : α) (h : l.get? m = some t) :
    l.set m t = l := by
  induction l generalizing m with
  | nil => rfl
  | cons u rest ih =>
    cases m with
    | zero =>
      simp only [List.get?_cons_zero, Option.some.injEq] at h
      rw [List.set_cons_zero, h]
    | succ m =>
      simp only [List.get?_cons_succ] at h
      rw [List.set_cons_succ, ih m h]

/-- The insertion of a tag makes the list one tag longer. -/
theorem length_insertTag (t : Tag) (l : TagList) : (insertTag t l).length = l.length + 1 := by
  induction l with
  | nil => rfl
  | cons u rest ih =>
    unfold insertTag
    split_ifs
    · rfl
    · simp only [List.length_cons, ih]

/-- Counterexample to C22: on the list of the tags "a", "c" and "b", which is not
sorted, the binary search of SetTag finds the key "c" at the index 1; SetTag
replaces the value there and leaves the list in its order, with "b" after
"c". -/
theorem SetTag_unsorted_stays_unsorted :
    acbTags = [⟨"a", "1"⟩, ⟨"c", "3"⟩, ⟨"b", "2"⟩] ∧
    TagList.SetTag acbTags "c" "9" = [⟨"a", "1"⟩, ⟨"c", "9"⟩, ⟨"b", "2"⟩] ∧
    stringLess "b" "c" = true ∧
    ¬ TagList.Ascending (TagList.SetTag acbTags "c" "9") := by
  refine ⟨rfl, by decide, by decide, ?_⟩
  unfold TagList.Ascending
  decide

/-- C22, as the code has it: SetTag keeps a list in strictly ascending key order
in strictly ascending key order.  On any list, when the binary search returns
the index of a tag with the key, SetTag replaces the value of that tag and the
keys of the list stay in the order they were in, sorted or not; otherwise it
appends the tag and sorts, and the list is in ascending key order afterwards,
with the key twice if the list had it where the search did not look. -/
theorem SetTag_sorted_or_resorted (l : TagList) (key value : String) :
    (TagList.Sorted l → TagList.Sorted (TagList.SetTag l key value)) ∧
    (∀ t, l.get? (sortSearch l.length (keyAtLeast l key)) = some t → t.Key = key →
      TagList.SetTag l key value =
        l.set (sortSearch l.length (keyAtLeast l key)) { t with Value := value } ∧
      (TagList.SetTag l key value).map (fun u => u.Key) = l.map (fun u => u.Key)) ∧
    ((∀ t, l.get? (sortSearch l.length (keyAtLeast l key)) = some t → t.Key ≠ key) →
      TagList.SetTag l key value = sortSort (l ++ [⟨key, value⟩]) ∧
      TagList.Ascending (TagList.SetTag l key value) ∧
      ∀ x, x ∈ TagList.SetTag l key value ↔ x ∈ l ∨ x = ⟨key, value⟩) := by
  refine ⟨fun hs => SetTag_sorted l hs key value, ?_, ?_⟩
  · intro t hget hk
    have heq : TagList.SetTag l key value =
        l.set (sortSearch l.length (keyAtLeast l key)) { t with Value := value } := by
      unfold TagList.SetTag
      simp only [hget, hk, if_true]
    refine ⟨heq, ?_⟩
    rw [heq, List.map_set]
    apply set_self
    rw [List.get?_eq_getElem?, List.getElem?_map, ← List.get?_eq_getElem?, hget]
    rfl
  · intro hmiss
    have heq : TagList.SetTag l key value = sortSort (l ++ [⟨key, value⟩]) := by
      unfold TagList.SetTag
      simp only []
      cases hg : l.get? (sortSearch l.length (keyAtLeast l key)) with
      | none => rfl
      | some t => simp only [hmiss t hg, if_false]
    refine ⟨heq, ?_, ?_⟩
    · rw [heq]
      exact sortSort_ascending _
    · intro x
      rw [heq, mem_sortSort, List.mem_append, List.mem_singleton]

/-- Witness of C22 as amended: on the unsorted list of the tags "b" and "a" the
binary search misses the key "b"; SetTag appends the tag and sorts, which
leaves the key "b" twice in a list in ascending key order. -/
theorem SetTag_sorted_or_resorted_witness :
    TagList.SetTag [⟨"b", "2"⟩, ⟨"a", "1"⟩] "b" "9" =
      [⟨"a", "1"⟩, ⟨"b", "2"⟩, ⟨"b", "9"⟩] ∧
    TagList.Ascending (TagList.SetTag [⟨"b", "2"⟩, ⟨"a", "1"⟩] "b" "9") ∧
    TagList.Sorted (TagList.SetTag [⟨"a", "1"⟩, ⟨"b", "2"⟩] "b" "9") :=
  ⟨by decide,
    ((SetTag_sorted_or_resorted [⟨"b", "2"⟩, ⟨"a", "1"⟩] "b" "9").2.2 (by decide)).2.1,
    (SetTag_sorted_or_resorted [⟨"a", "1"⟩, ⟨"b", "2"⟩] "b" "9").1
      (by unfold TagList.Sorted; decide)⟩

/-- C23: on a tag list in ascending key order with unique keys, `Tag` returns the
value of the tag of the list that has the key when there is one, and the empty
string when no tag of the list has the key.  `Tag` has a value receiver and
assigns to nothing: its result is the returned string only. -/
theorem Tag_lookup (l : TagList) (hs : TagList.Sorted l) (key : String) :
    (∀ t ∈ l, t.Key = key → TagList.Tag l key = t.Value) ∧
    ((∀ t ∈ l, t.Key ≠ key) → TagList.Tag l key = "") := by
  constructor
  · intro t ht hk
    have ht' : (⟨key, t.Value⟩ : Tag) ∈ l := by rw [← hk]; exact ht
    exact Tag_of_mem l hs key t.Value ht'
  · intro hno
    exact Tag_of_not_mem l key hno

/-- Witness of C23: lookups in the tags "color" and "size". -/
theorem Tag_lookup_witness :
    TagList.Sorted [⟨"color", "red"⟩, ⟨"size", "L"⟩] ∧
    TagList.Tag [⟨"color", "red"⟩, ⟨"size", "L"⟩] "size" = "L" ∧
    TagList.Tag [⟨"color", "red"⟩, ⟨"size", "L"⟩] "price" = "" :=
  ⟨by unfold TagList.Sorted; decide,
    (Tag_lookup [⟨"color", "red"⟩, ⟨"size", "L"⟩] (by unfold TagList.Sorted; decide) "size").1
      ⟨"size", "L"⟩ (by decide) rfl,
    (Tag_lookup [⟨"color", "red"⟩, ⟨"size", "L"⟩] (by unfold TagList.Sorted; decide) "price").2
      (by decide)⟩

/-- The length of a sorted list after SetTag. -/
theorem length_SetTag (l : TagList) (hs : TagList.Sorted l) (key value : String) :
    ((∀ t ∈ l, t.Key ≠ key) → (TagList.SetTag l key value).length = l.length + 1) ∧
    ((∃ t ∈ l, t.Key = key) → (TagList.SetTag l key value).length = l.length) := by
  constructor
  · intro hno
    rw [SetTag_of_not_mem l hs key value hno, length_insertTag]
  · rintro ⟨t, ht, hk⟩
    obtain ⟨m, hm, hget⟩ := List.getElem_of_mem ht
    have em : l.get? m = some t := by simp [List.get?_eq_getElem?, hm, hget]
    subst hk
    rw [SetTag_of_get l hs m t value em, List.length_set]

/-- C28: on a tag list in ascending key order with unique keys, SetTag with the
key `key` changes nothing for another key: `Tag` returns for it what it
returned before, the list holds a tag with it exactly when it did before, and
this tag is the same; the list is one tag longer when no tag had the key
`key`, and as long as before when one had it. -/
theorem SetTag_frame (l : TagList) (hs : TagList.Sorted l) (key value other : String)
    (hne : other ≠ key) :
    TagList.Tag (TagList.SetTag l key value) other = TagList.Tag l other ∧
    ((∃ t ∈ TagList.SetTag l key value, t.Key = other) ↔ ∃ t ∈ l, t.Key = other) ∧
    (∀ t : Tag, t.Key = other → (t ∈ TagList.SetTag l key value ↔ t ∈ l)) ∧
    ((∀ t ∈ l, t.Key ≠ key) → (TagList.SetTag l key value).length = l.length + 1) ∧
    ((∃ t ∈ l, t.Key = key) → (TagList.SetTag l key value).length = l.length) := by
  refine ⟨Tag_SetTag_ne l hs key value other hne, ?_, ?_, (length_SetTag l hs key value).1,
    (length_SetTag l hs key value).2⟩
  · rw [present_SetTag l hs]
    constructor
    · rintro (e | e)
      · exact absurd e hne
      · exact e
    · exact fun e => Or.inr e
  · intro t hk
    rw [mem_SetTag l hs]
    constructor
    · rintro (e | e)
      · rw [e] at hk
        exact absurd hk.symm hne
      · exact e.1
    · intro e
      exact Or.inr ⟨e, fun h => hne (hk ▸ h)⟩

/-- Witness of C28: the tag "price" is set on the tags "color" and "size", and
the tag "size" is set on them. -/
theorem SetTag_frame_witness :
    TagList.Tag (TagList.SetTag [⟨"color", "red"⟩, ⟨"size", "L"⟩] "price" "12") "size" =
      TagList.Tag [⟨"color", "red"⟩, ⟨"size", "L"⟩] "size" ∧
    (TagList.SetTag [⟨"color", "red"⟩, ⟨"size", "L"⟩] "price" "12").length = 3 ∧
    (TagList.SetTag [⟨"color", "red"⟩, ⟨"size", "L"⟩] "size" "M").length = 2 :=
  ⟨(SetTag_frame [⟨"color", "red"⟩, ⟨"size", "L"⟩] (by unfold TagList.Sorted; decide)
      "price" "12" "size" (by decide)).1,
    (SetTag_frame [⟨"color", "red"⟩, ⟨"size", "L"⟩] (by unfold TagList.Sorted; decide)
      "price" "12" "size" (by decide)).2.2.2.1 (by decide),
    (SetTag_frame [⟨"color", "red"⟩, ⟨"size", "L"⟩] (by unfold TagList.Sorted; decide)
      "size" "M" "color" (by decide)).2.2.2.2 ⟨⟨"size", "L"⟩, by decide, rfl⟩⟩

/-! ## DefaultTo -/

theorem DefaultTo_cons (l : TagList) (tag : TagDescription) (rest : TagDescriptionList) :
    TagList.DefaultTo l (tag :: rest) = TagList.DefaultTo (defaultStep l tag) rest := rfl

theorem defaultStep_sorted (l : TagList) (hs : TagList.Sorted l) (tag : TagDescription) :
    TagList.Sorted (defaultStep l tag) := by
  unfold defaultStep
  split_ifs
  · exact SetTag_sorted l hs _ _
  · exact hs

theorem DefaultTo_sorted (d : TagDescriptionList) (l : TagList) (hs : TagList.Sorted l) :
    TagList.Sorted (TagList.DefaultTo l d) := by
  induction d generalizing l with
  | nil => exact hs
  | cons tag rest ih =>
    rw [DefaultTo_cons]
    exact ih _ (defaultStep_sorted l hs tag)

/-- One step of DefaultTo keeps the tags that have another key, and those whose
value is not empty. -/
theorem defaultStep_keeps (l : TagList) (hs : TagList.Sorted l) (tag : TagDescription)
    (t : Tag) (ht : t ∈ l) (h : t.Key ≠ tag.Key ∨ t.Value ≠ "") : t ∈ defaultStep l tag := by
  unfold defaultStep
  split_ifs with hempty
  · rw [mem_SetTag l hs]
    right
    refine ⟨ht, ?_⟩
    rcases h with h | h
    · exact h
    · intro hk
      have ht' : (⟨tag.Key, t.Value⟩ : Tag) ∈ l := by rw [← hk]; exact ht
      rw [Tag_of_mem l hs tag.Key t.Value ht'] at hempty
      exact h hempty
  · exact ht

/-- The tags after one step of DefaultTo are tags of the list or the default. -/
theorem defaultStep_origin (l : TagList) (hs : TagList.Sorted l) (tag : TagDescription)
    (t : Tag) (ht : t ∈ defaultStep l tag) :
    t ∈ l ∨ t = ⟨tag.Key, tag.DefaultValue⟩ := by
  unfold defaultStep at ht
  split_ifs at ht with hempty
  · rcases (mem_SetTag l hs _ _ t).mp ht with e | e
    · exact Or.inr e
    · exact Or.inl e.1
  · exact Or.inl ht

/-- One step of DefaultTo does not change what `Tag` returns for another key. -/
theorem defaultStep_Tag_ne (l : TagList) (hs : TagList.Sorted l) (tag : TagDescription)
    (key : String) (hne : key ≠ tag.Key) :
    TagList.Tag (defaultStep l tag) key = TagList.Tag l key := by
  unfold defaultStep
  split_ifs
  · exact Tag_SetTag_ne l hs _ _ key hne
  · rfl

/-- DefaultTo keeps the tags whose value is not empty. -/
theorem DefaultTo_keeps_value (d : TagDescriptionList) (l : TagList) (hs : TagList.Sorted l)
    (t : Tag) (ht : t ∈ l) (hv : t.Value ≠ "") : t ∈ TagList.DefaultTo l d := by
  induction d generalizing l with
  | nil => exact ht
  | cons tag rest ih =>
    rw [DefaultTo_cons]
    exact ih _ (defaultStep_sorted l hs tag) (defaultStep_keeps l hs tag t ht (Or.inr hv))

/-- DefaultTo keeps the tags whose key is not described. -/
theorem DefaultTo_keeps_other (d : TagDescriptionList) (l : TagList) (hs : TagList.Sorted l)
    (t : Tag) (ht : t ∈ l) (hk : ∀ tag ∈ d, tag.Key ≠ t.Key) : t ∈ TagList.DefaultTo l d := by
  induction d generalizing l with
  | nil => exact ht
  | cons tag rest ih =>
    rw [DefaultTo_cons]
    exact ih _ (defaultStep_sorted l hs tag)
      (defaultStep_keeps l hs tag t ht
        (Or.inl (fun h => hk tag (List.mem_cons_self _ _) h.symm)))
      (fun tag' h' => hk tag' (List.mem_cons_of_mem _ h'))

/-- The tags after DefaultTo are tags of the list or defaults. -/
theorem DefaultTo_origin (d : TagDescriptionList) (l : TagList) (hs : TagList.Sorted l)
    (t : Tag) (ht : t ∈ TagList.DefaultTo l d) :
    t ∈ l ∨ ∃ tag ∈ d, t = ⟨tag.Key, tag.DefaultValue⟩ := by
  induction d generalizing l with
  | nil => exact Or.inl ht
  | cons tag rest ih =>
    rw [DefaultTo_cons] at ht
    rcases ih _ (defaultStep_sorted l hs tag) ht with h | ⟨tag', h1, h2⟩
    · rcases defaultStep_origin l hs tag t h with e | e
      · exact Or.inl e
      · exact Or.inr ⟨tag, List.mem_cons_self _ _, e⟩
    · exact Or.inr ⟨tag', List.mem_cons_of_mem _ h1, h2⟩

/-- DefaultTo with descriptions of distinct keys: the default value is set for
every described key for which `Tag` returned the empty string. -/
theorem DefaultTo_fills (d : TagDescriptionList) (l : TagList) (hs : TagList.Sorted l)
    (hd : (d.map (fun tag => tag.Key)).Nodup) (tag : TagDescription) (htag : tag ∈ d)
    (hempty : TagList.Tag l tag.Key = "") :
    (⟨tag.Key, tag.DefaultValue⟩ : Tag) ∈ TagList.DefaultTo l d := by
  induction d generalizing l with
  | nil => simp at htag
  | cons tag0 rest ih =>
    rw [DefaultTo_cons]
    rw [List.map_cons, List.nodup_cons] at hd
    obtain ⟨hd1, hd2⟩ := hd
    have hs1 := defaultStep_sorted l hs tag0
    rcases List.mem_cons.mp htag with e | e
    · subst e
      apply DefaultTo_keeps_other rest _ hs1
      · unfold defaultStep
        rw [if_pos hempty]
        exact (mem_SetTag l hs _ _ _).mpr (Or.inl rfl)
      · intro tag' h' hk
        apply hd1
        exact List.mem_map.mpr ⟨tag', h', hk⟩
    · have hne : tag.Key ≠ tag0.Key := by
        intro hk
        apply hd1
        rw [← hk]
        exact List.mem_map.mpr ⟨tag, e, rfl⟩
      apply ih _ hs1 hd2 e
      rw [defaultStep_Tag_ne l hs tag0 tag.Key hne]
      exact hempty

/-- Counterexample to C24: the list holds the tag "color" with the empty value,
and the description of "color" has the default value "red"; after DefaultTo
the tag that was present has the value "red", not the value it had. -/
theorem DefaultTo_replaces_empty_value :
    TagList.Sorted [⟨"color", ""⟩] ∧
    ([colorDefault].map (fun tag => tag.Key)).Nodup ∧
    TagList.DefaultTo [⟨"color", ""⟩] [colorDefault] = [⟨"color", "red"⟩] := by
  refine ⟨?_, by decide, by decide⟩
  unfold TagList.Sorted
  decide

/-- C24, as the code has it: DefaultTo on a tag list in ascending key order with
unique keys and descriptions of distinct keys.  For every described key for
which `Tag` returns the empty string, which is the case when no tag has the
key and also when the tag with the key has the empty value, the list holds
afterwards the tag with the key and the default value.  The tags whose value
is not empty and the tags whose key is not described are kept as they were.
Every tag of the list afterwards is a tag it had or a default, and the list
is still in ascending key order with unique keys. -/
theorem DefaultTo_fills_missing_or_empty (l : TagList) (hs : TagList.Sorted l)
    (d : TagDescriptionList) (hd : (d.map (fun tag => tag.Key)).Nodup) :
    (∀ tag ∈ d, TagList.Tag l tag.Key = "" →
      (⟨tag.Key, tag.DefaultValue⟩ : Tag) ∈ TagList.DefaultTo l d ∧
      TagList.Tag (TagList.DefaultTo l d) tag.Key = tag.DefaultValue) ∧
    (∀ tag ∈ d, (∀ t ∈ l, t.Key ≠ tag.Key) →
      (⟨tag.Key, tag.DefaultValue⟩ : Tag) ∈ TagList.DefaultTo l d) ∧
    (∀ t ∈ l, t.Value ≠ "" → t ∈ TagList.DefaultTo l d) ∧
    (∀ t ∈ l, (∀ tag ∈ d, tag.Key ≠ t.Key) → t ∈ TagList.DefaultTo l d) ∧
    (∀ t ∈ TagList.DefaultTo l d, t ∈ l ∨ ∃ tag ∈ d, t = ⟨tag.Key, tag.DefaultValue⟩) ∧
    TagList.Sorted (TagList.DefaultTo l d) := by
  have hsorted := DefaultTo_sorted d l hs
  refine ⟨?_, ?_, ?_, ?_, ?_, hsorted⟩
  · intro tag htag hempty
    have hmem := DefaultTo_fills d l hs hd tag htag hempty
    exact ⟨hmem, Tag_of_mem _ hsorted _ _ hmem⟩
  · intro tag htag hno
    exact DefaultTo_fills d l hs hd tag htag (Tag_of_not_mem l tag.Key hno)
  · intro t ht hv
    exact DefaultTo_keeps_value d l hs t ht hv
  · intro t ht hk
    exact DefaultTo_keeps_other d l hs t ht hk
  · intro t ht
    exact DefaultTo_origin d l hs t ht

/-- Witness of C24 as amended: the list holds "color" with the empty value and
"price"; the descriptions give "red" for "color" and nothing for "size". -/
theorem DefaultTo_fills_missing_or_empty_witness :
    TagList.DefaultTo [⟨"color", ""⟩, ⟨"price", "12"⟩] [colorDefault, sizeDefault] =
      [⟨"color", "red"⟩, ⟨"price", "12"⟩, ⟨"size", ""⟩] ∧
    (⟨"color", "red"⟩ : Tag) ∈
      TagList.DefaultTo [⟨"color", ""⟩, ⟨"price", "12"⟩] [colorDefault, sizeDefault] ∧
    (⟨"price", "12"⟩ : Tag) ∈
      TagList.DefaultTo [⟨"color", ""⟩, ⟨"price", "12"⟩] [colorDefault, sizeDefault] ∧
    TagList.Sorted
      (TagList.DefaultTo [⟨"color", ""⟩, ⟨"price", "12"⟩] [colorDefault, sizeDefault]) :=
  have h := DefaultTo_fills_missing_or_empty [⟨"color", ""⟩, ⟨"price", "12"⟩]
    (by unfold TagList.Sorted; decide) [colorDefault, sizeDefault] (by decide)
  ⟨by decide, (h.1 colorDefault (by decide) (by decide)).1,
    h.2.2.1 ⟨"price", "12"⟩ (by decide) (by decide), h.2.2.2.2.2⟩

/-- A step of DefaultTo leaves the list as it is when `Tag` returns a value that
is not empty for the key, and when the list holds the default. -/
theorem defaultStep_fixed (l : TagList) (hs : TagList.Sorted l) (tag : TagDescription)
    (h : TagList.Tag l tag.Key ≠ "" ∨ (⟨tag.Key, tag.DefaultValue⟩ : Tag) ∈ l) :
    defaultStep l tag = l := by
  unfold defaultStep
  split_ifs with hempty
  · rcases h with h | h
    · exact absurd hempty h
    · obtain ⟨m, hm, hget⟩ := List.getElem_of_mem h
      have em : l.get? m = some ⟨tag.Key, tag.DefaultValue⟩ := by
        simp [List.get?_eq_getElem?, hm, hget]
      have := SetTag_of_get l hs m ⟨tag.Key, tag.DefaultValue⟩ tag.DefaultValue em
      simp only [] at this
      rw [this]
      exact set_self l m _ em
  · rfl

/-- What makes a step of DefaultTo leave the list as it is stays true after a
step for any description. -/
theorem defaultStep_settled (l : TagList) (hs : TagList.Sorted l) (tag other : TagDescription)
    (h : TagList.Tag l tag.Key ≠ "" ∨ (⟨tag.Key, tag.DefaultValue⟩ : Tag) ∈ l) :
    TagList.Tag (defaultStep l other) tag.Key ≠ "" ∨
      (⟨tag.Key, tag.DefaultValue⟩ : Tag) ∈ defaultStep l other := by
  by_cases hv : TagList.Tag l tag.Key = ""
  · have hmem : (⟨tag.Key, tag.DefaultValue⟩ : Tag) ∈ l := by
      rcases h with h | h
      · exact absurd hv h
      · exact h
    have hdv : tag.DefaultValue = "" := by
      rw [← Tag_of_mem l hs _ _ hmem]
      exact hv
    by_cases hk : other.Key = tag.Key
    · unfold defaultStep
      rw [hk, if_pos hv]
      by_cases ho : other.DefaultValue = ""
      · right
        rw [ho, hdv]
        exact (mem_SetTag l hs _ _ _).mpr (Or.inl rfl)
      · left
        rw [Tag_SetTag l hs]
        exact ho
    · right
      exact defaultStep_keeps l hs other _ hmem (Or.inl (fun e => hk e.symm))
  · left
    by_cases hk : other.Key = tag.Key
    · unfold defaultStep
      rw [hk, if_neg hv]
      exact hv
    · rw [defaultStep_Tag_ne l hs other tag.Key (fun e => hk e.symm)]
      exact hv

/-- After the step of DefaultTo for a description, a second step for it leaves
the list as it is. -/
theorem defaultStep_settles (l : TagList) (hs : TagList.Sorted l) (tag : TagDescription) :
    TagList.Tag (defaultStep l tag) tag.Key ≠ "" ∨
      (⟨tag.Key, tag.DefaultValue⟩ : Tag) ∈ defaultStep l tag := by
  unfold defaultStep
  split_ifs with hempty
  · right
    exact (mem_SetTag l hs _ _ _).mpr (Or.inl rfl)
  · left
    exact hempty

theorem DefaultTo_settled (d : TagDescriptionList) (l : TagList) (hs : TagList.Sorted l)
    (tag : TagDescription)
    (h : TagList.Tag l tag.Key ≠ "" ∨ (⟨tag.Key, tag.DefaultValue⟩ : Tag) ∈ l) :
    TagList.Tag (TagList.DefaultTo l d) tag.Key ≠ "" ∨
      (⟨tag.Key, tag.DefaultValue⟩ : Tag) ∈ TagList.DefaultTo l d := by
  induction d generalizing l with
  | nil => exact h
  | cons other rest ih =>
    rw [DefaultTo_cons]
    exact ih _ (defaultStep_sorted l hs other) (defaultStep_settled l hs tag other h)

theorem DefaultTo_settles (d : TagDescriptionList) (l : TagList) (hs : TagList.Sorted l)
    (tag : TagDescription) (htag : tag ∈ d) :
    TagList.Tag (TagList.DefaultTo l d) tag.Key ≠ "" ∨
      (⟨tag.Key, tag.DefaultValue⟩ : Tag) ∈ TagList.DefaultTo l d := by
  induction d generalizing l with
  | nil => simp at htag
  | cons other rest ih =>
    rw [DefaultTo_cons]
    have hs1 := defaultStep_sorted l hs other
    rcases List.mem_cons.mp htag with e | e
    · subst e
      exact DefaultTo_settled rest _ hs1 tag (defaultStep_settles l hs tag)
    · exact ih _ hs1 e

/-- C29: on a tag list in ascending key order with unique keys, DefaultTo applied
a second time with the same descriptions leaves the list as the first
application left it, whatever the descriptions, repeated keys and empty
default values included. -/
theorem DefaultTo_idempotent (l : TagList) (hs : TagList.Sorted l) (d : TagDescriptionList) :
    TagList.DefaultTo (TagList.DefaultTo l d) d = TagList.DefaultTo l d := by
  have hsorted := DefaultTo_sorted d l hs
  have hfixed : ∀ tag ∈ d, defaultStep (TagList.DefaultTo l d) tag = TagList.DefaultTo l d :=
    fun tag htag => defaultStep_fixed _ hsorted tag (DefaultTo_settles d l hs tag htag)
  generalize TagList.DefaultTo l d = r at hfixed
  clear hsorted
  induction d with
  | nil => rfl
  | cons tag rest ih =>
    rw [DefaultTo_cons, hfixed tag (List.mem_cons_self _ _)]
    exact ih (fun tag' h' => hfixed tag' (List.mem_cons_of_mem _ h'))

/-- Witness of C29: descriptions with the key "size" twice, first without default
value and then with the default "M", and the key "color". -/
theorem DefaultTo_idempotent_witness :
    TagList.DefaultTo [⟨"price", "12"⟩]
        [sizeDefault, colorDefault, { sizeDefault with DefaultValue := "M" }] =
      [⟨"color", "red"⟩, ⟨"price", "12"⟩, ⟨"size", "M"⟩] ∧
    TagList.DefaultTo
        (TagList.DefaultTo [⟨"price", "12"⟩]
          [sizeDefault, colorDefault, { sizeDefault with DefaultValue := "M" }])
        [sizeDefault, colorDefault, { sizeDefault with DefaultValue := "M" }] =
      TagList.DefaultTo [⟨"price", "12"⟩]
        [sizeDefault, colorDefault, { sizeDefault with DefaultValue := "M" }] :=
  ⟨by decide,
    DefaultTo_idempotent [⟨"price", "12"⟩] (by unfold TagList.Sorted; decide)
      [sizeDefault, colorDefault, { sizeDefault with DefaultValue := "M" }]⟩

/-! ## The current identity -/

/-- The method `GetIdentity`, in closed form. -/
theorem GetIdentity_eq (repo : Repository) (ident : Ident) :
    repo.GetIdentity ident =
      (if repo.faults.head? = some true then Except.error Error.datastore
       else match repo.ds.identities.find?
           (fun id => decide (id.Provider = ident.Provider ∧ id.Identity = ident.Identity)) with
         | none => Except.error (Error.NotInDatastoreError "Identity" ident.Identity)
         | some id => Except.ok id, ⟨repo.ds, repo.faults.tail⟩) := by
  unfold Repository.GetIdentity
  rw [call_eq]
  split_ifs with h
  · rfl
  · simp only []
    split <;> rename_i h' <;> simp only [h']

/-- A caller whose current user name is empty is refused by every operation on
the page of a user with a name. -/
theorem anonymous_is_rejected (app : App) (userName : String)
    (h : app.CurrentUserName.1 = "") (hname : userName ≠ "") :
    (∀ now page, (app.CreatePage now page).1 = some (Error.NotAuthorizedError "Update page")) ∧
    (∀ now page pageTags, page.UserName = userName →
      (app.UpdatePage now page pageTags).1 = some (Error.NotAuthorizedError "Update page")) ∧
    (∀ now pageName newTemplateID,
      (app.UpdateTemplate now userName pageName newTemplateID).1 =
        some (Error.NotAuthorizedError "Update page")) ∧
    (∀ pageName,
      (app.DeletePage userName pageName).1 = some (Error.NotAuthorizedError "Delete page")) ∧
    (∀ now markdownToHTML generateID fuel pageName i,
      (app.CreateItem now markdownToHTML generateID fuel userName pageName i).map
          (fun r => r.1) =
        some (Except.error (Error.NotAuthorizedError "Store item"))) ∧
    (∀ markdownToHTML pageName i,
      (app.PutItem markdownToHTML userName pageName i).1 =
        Except.error (Error.NotAuthorizedError "Store item")) ∧
    (∀ now markdownToHTML pageName i updateTags,
      (app.UpdateItem now markdownToHTML userName pageName i updateTags).1 =
        Except.error (Error.NotAuthorizedError "Store item")) ∧
    (∀ now pageName itemID tagKey tagValue,
      (app.SetItemTag now userName pageName itemID tagKey tagValue).1 =
        some (Error.NotAuthorizedError "Store item")) ∧
    (∀ pageName itemID,
      (app.DeleteItem userName pageName itemID).1 =
        some (Error.NotAuthorizedError "Delete page")) := by
  have h' : app.CurrentUserName.1 = "" ∨ app.CurrentUserName.1 ≠ userName := Or.inl h
  refine ⟨?_, ?_, ?_, ?_, ?_, ?_, ?_, ?_, ?_⟩
  · intro now page
    unfold App.CreatePage
    simp only [h, if_true]
  · intro now page pageTags hp
    subst hp
    unfold App.UpdatePage
    simp only [h', if_true]
  · intro now pageName newTemplateID
    unfold App.UpdateTemplate
    simp only [h', if_true]
  · intro pageName
    unfold App.DeletePage
    simp only [h', if_true]
  · intro now markdownToHTML generateID fuel pageName i
    unfold App.CreateItem
    simp only [h', if_true, Option.map_some']
  · intro markdownToHTML pageName i
    unfold App.PutItem
    simp only [h', if_true]
  · intro now markdownToHTML pageName i updateTags
    unfold App.UpdateItem
    simp only [h', if_true]
  · intro now pageName itemID tagKey tagValue
    unfold App.SetItemTag
    simp only [h', if_true]
  · intro pageName itemID
    unfold App.DeleteItem
    simp only [h', if_true]

/-- C27: the three outcomes of CurrentIdentity.  When the user interactor reports
an empty external id, CurrentIdentity returns the empty Identity and no error.
When it reports an external id, the read of the datastore succeeds and no
Identity record has the provider and the id, CurrentIdentity returns
ErrFirstUserConnection with an Identity that carries the reported ident and
an empty user name.  When a record has them, CurrentIdentity returns the
record that the query finds and no error.  CurrentUserName returns the empty
string in the first two cases and whenever CurrentIdentity returns an error,
and a caller whose current user name is empty is refused by every operation on
a page of a user with a name. -/
theorem CurrentIdentity_outcomes (app : App) :
    (∀ ident, app.userInteractor.CurrentIdentity = Except.ok ident → ident.Identity = "" →
      app.CurrentIdentity.1 = (Identity.zero, none) ∧ app.CurrentUserName.1 = "") ∧
    (∀ ident, app.userInteractor.CurrentIdentity = Except.ok ident → ident.Identity ≠ "" →
      app.repository.faults.head? ≠ some true →
      app.repository.ds.identities.find?
        (fun id => decide (id.Provider = ident.Provider ∧ id.Identity = ident.Identity)) =
          none →
      app.CurrentIdentity.1 =
        ({ toIdent := ident, UserName := "" }, some Error.ErrFirstUserConnection) ∧
      app.CurrentUserName.1 = "") ∧
    (∀ ident id, app.userInteractor.CurrentIdentity = Except.ok ident → ident.Identity ≠ "" →
      app.repository.faults.head? ≠ some true →
      app.repository.ds.identities.find?
        (fun id => decide (id.Provider = ident.Provider ∧ id.Identity = ident.Identity)) =
          some id →
      app.CurrentIdentity.1 = (id, none) ∧ app.CurrentUserName.1 = id.UserName ∧
      id ∈ app.repository.ds.identities ∧ id.toIdent = ident) ∧
    (∀ err, app.CurrentIdentity.1.2 = some err → app.CurrentUserName.1 = "") ∧
    (app.CurrentUserName.1 = "" → ∀ userName, userName ≠ "" →
      (∀ now page, (app.CreatePage now page).1 = some (Error.NotAuthorizedError "Update page")) ∧
      (∀ now page pageTags, page.UserName = userName →
        (app.UpdatePage now page pageTags).1 = some (Error.NotAuthorizedError "Update page")) ∧
      (∀ now pageName newTemplateID,
        (app.UpdateTemplate now userName pageName newTemplateID).1 =
          some (Error.NotAuthorizedError "Update page")) ∧
      (∀ pageName,
        (app.DeletePage userName pageName).1 = some (Error.NotAuthorizedError "Delete page")) ∧
      (∀ now markdownToHTML generateID fuel pageName i,
        (app.CreateItem now markdownToHTML generateID fuel userName pageName i).map
            (fun r => r.1) =
          some (Except.error (Error.NotAuthorizedError "Store item"))) ∧
      (∀ markdownToHTML pageName i,
        (app.PutItem markdownToHTML userName pageName i).1 =
          Except.error (Error.NotAuthorizedError "Store item")) ∧
      (∀ now markdownToHTML pageName i updateTags,
        (app.UpdateItem now markdownToHTML userName pageName i updateTags).1 =
          Except.error (Error.NotAuthorizedError "Store item")) ∧
      (∀ now pageName itemID tagKey tagValue,
        (app.SetItemTag now userName pageName itemID tagKey tagValue).1 =
          some (Error.NotAuthorizedError "Store item")) ∧
      (∀ pageName itemID,
        (app.DeleteItem userName pageName itemID).1 =
          some (Error.NotAuthorizedError "Delete page"))) := by
  refine ⟨?_, ?_, ?_, ?_, ?_⟩
  · intro ident hi hempty
    unfold App.CurrentUserName App.CurrentIdentity
    simp only [hi, hempty, if_true]
    exact ⟨trivial, rfl⟩
  · intro ident hi hne hcall hnone
    unfold App.CurrentUserName App.CurrentIdentity
    simp only [hi, hne, if_false, GetIdentity_eq, hcall, hnone]
    exact ⟨trivial, trivial⟩
  · intro ident id hi hne hcall hsome
    have hmem := List.mem_of_find?_eq_some hsome
    have hp := List.find?_some hsome
    simp only [decide_eq_true_eq] at hp
    unfold App.CurrentUserName App.CurrentIdentity
    simp only [hi, hne, if_false, GetIdentity_eq, hcall, hsome]
    refine ⟨trivial, trivial, hmem, ?_⟩
    rcases id with ⟨⟨p, i⟩, u⟩
    rcases ident with ⟨p', i'⟩
    simp only [] at hp
    simp only [Ident.mk.injEq]
    exact hp
  · intro err herr
    unfold App.CurrentUserName
    rcases hc : app.CurrentIdentity with ⟨⟨identity, e⟩, app1⟩
    rw [hc] at herr
    simp only [] at herr
    subst herr
    rfl
  · intro h userName hname
    exact anonymous_is_rejected app userName h hname

/-- Witness of C27: an anonymous request, the first request of carol, who has no
Identity record, and a request of alice. -/
theorem CurrentIdentity_outcomes_witness :
    (App.CurrentIdentity (healthyApp accountsStore anonymous)).1 = (Identity.zero, none) ∧
    (App.CurrentIdentity (healthyApp accountsStore (loggedIn carolIdent))).1 =
      ({ toIdent := carolIdent, UserName := "" }, some Error.ErrFirstUserConnection) ∧
    (App.CurrentUserName (healthyApp accountsStore (loggedIn carolIdent))).1 = "" ∧
    (App.CurrentIdentity (healthyApp accountsStore (loggedIn aliceIdent))).1 =
      ({ toIdent := aliceIdent, UserName := "alice" }, none) ∧
    (App.CurrentUserName (healthyApp accountsStore (loggedIn aliceIdent))).1 = "alice" ∧
    ((healthyApp blogStore (loggedIn carolIdent)).DeletePage "alice" "blog").1 =
      some (Error.NotAuthorizedError "Delete page") :=
  have ha := CurrentIdentity_outcomes (healthyApp accountsStore anonymous)
  have hc := CurrentIdentity_outcomes (healthyApp accountsStore (loggedIn carolIdent))
  have hal := CurrentIdentity_outcomes (healthyApp accountsStore (loggedIn aliceIdent))
  have hb := CurrentIdentity_outcomes (healthyApp blogStore (loggedIn carolIdent))
  ⟨(ha.1 ⟨"", ""⟩ rfl rfl).1,
    (hc.2.1 carolIdent rfl (by decide) (by decide) (by decide)).1,
    (hc.2.1 carolIdent rfl (by decide) (by decide) (by decide)).2,
    (hal.2.2.1 aliceIdent ⟨aliceIdent, "alice"⟩ rfl (by decide) (by decide) (by decide)).1,
    (hal.2.2.1 aliceIdent ⟨aliceIdent, "alice"⟩ rfl (by decide) (by decide) (by decide)).2.1,
    (hb.2.2.2.2 (by decide) "alice" (by decide)).2.2.2.1 "blog"⟩

/-! ## IsUsed -/

/-- C26, as the code behaves: whenever the query of `IsUsed` succeeds, `IsUsed`
returns true with a nil error, whatever the Usage records of the datastore are;
so it returns true also when no Usage record references the image id. -/
theorem IsUsed_true_when_query_succeeds (repo : Repository) (imgID : String)
    (h : repo.faults.head? ≠ some true) :
    repo.IsUsed imgID = ((true, none), ⟨repo.ds, repo.faults.tail⟩) := by
  unfold Repository.IsUsed Repository.usageKeys
  rw [call_eq]
  simp only [if_neg h]
  rfl

/-- C26 on a datastore without any Usage record: `IsUsed("img1")` is true. -/
theorem IsUsed_true_when_query_succeeds_witness :
    (⟨Datastore.empty, []⟩ : Repository).faults.head? ≠ some true ∧
    Datastore.empty.usages = [] ∧
    (⟨Datastore.empty, []⟩ : Repository).IsUsed "img1" =
      ((true, none), ⟨Datastore.empty, []⟩) :=
  ⟨by decide, rfl, IsUsed_true_when_query_succeeds ⟨Datastore.empty, []⟩ "img1" (by decide)⟩

/-! ## The limit of a page query -/

/-- An integer in the range of a Go `int` is its own value. -/
theorem wrapInt_small (x : Int) (h0 : -(2 ^ 63) ≤ x) (h1 : x < 2 ^ 63) : wrapInt x = x := by
  unfold wrapInt
  omega

/-- The method `Query.Limit` within the range of `int32`. -/
theorem Query_Limit_ok (q : Query) (limit : Int) (h0 : -(2 ^ 31) ≤ limit)
    (h1 : limit ≤ 2 ^ 31 - 1) : q.Limit limit = { q with limit := limit } := by
  unfold Query.Limit
  rw [if_neg (by omega)]

/-- The method `Query.Limit` outside of the range of `int32`. -/
theorem Query_Limit_overflow (q : Query) (limit : Int)
    (h : limit < -(2 ^ 31) ∨ limit > 2 ^ 31 - 1) :
    q.Limit limit = { q with err := some Error.datastore } := by
  unfold Query.Limit
  rw [if_pos h]

/-- The method `Query.GetAll` of a query without error, when the call to the
service succeeds. -/
theorem Query_GetAll_ok (q : Query) (repo : Repository) (hq : q.err = none)
    (hcall : repo.faults.head? ≠ some true) :
    q.GetAll repo =
      ((if 0 ≤ q.limit then (q.results repo.ds.pages).take q.limit.toNat
        else q.results repo.ds.pages, none), ⟨repo.ds, repo.faults.tail⟩) := by
  unfold Query.GetAll
  rw [hq, call_eq]
  simp only [if_neg hcall]

/-- The pages that `GetAll` of a page query returns with a positive limit are
not more than the limit, whatever the query and the datastore. -/
theorem aePageQuery_GetAll_length (q : aePageQuery) (repo repo' : Repository)
    (pages : List Page) (more : Bool) (h0 : 0 < q.limit)
    (h : q.GetAll repo = (Except.ok (pages, more), repo')) : (pages.length : Int) ≤ q.limit := by
  unfold aePageQuery.GetAll at h
  split at h
  · exact absurd (congrArg Prod.fst h) (by simp)
  · rename_i all _ repo1 _ _
    split_ifs at h with hc
    · have hp : pages = all.take q.limit.toNat := by
        have := congrArg Prod.fst h
        simp only [Except.ok.injEq, Prod.mk.injEq] at this
        exact this.1.symm
      rw [hp, List.length_take]
      omega
    · have hp : pages = all := by
        have := congrArg Prod.fst h
        simp only [Except.ok.injEq, Prod.mk.injEq] at this
        exact this.1.symm
      rw [hp]
      by_contra hlt
      exact hc ⟨h0, by omega⟩

/-- The method `Limit` of a page query with a limit between 0 and `2 ^ 31 - 2`:
the query asks for `limit + 1` pages. -/
theorem aePageQuery_Limit_ok (q : aePageQuery) (limit : Int) (h0 : 0 ≤ limit)
    (h1 : limit < 2 ^ 31 - 1) :
    q.Limit limit = { q := { q.q with limit := limit + 1 }, limit := limit } := by
  unfold aePageQuery.Limit
  rw [wrapInt_small _ (by omega) (by omega), Query_Limit_ok _ _ (by omega) (by omega)]

/-- The method `GetAll` of a page query on the pages that the query returns. -/
theorem aePageQuery_GetAll_of (query : Query) (limit : Int) (repo repo' : Repository)
    (pages : List Page) (h : query.GetAll repo = ((pages, none), repo')) :
    aePageQuery.GetAll { q := query, limit := limit } repo =
      if limit > 0 ∧ (pages.length : Int) > limit then
        (Except.ok (pages.take limit.toNat, true), repo')
      else (Except.ok (pages, false), repo') := by
  unfold aePageQuery.GetAll
  simp only []
  rw [h]

/-- The protocol of the limit, in closed form: with a limit between 1 and
`2 ^ 31 - 2`, the first pages of the full result and whether there are more. -/
theorem aePageQuery_Limit_GetAll (q : aePageQuery) (repo : Repository) (limit : Int)
    (hq : q.q.err = none) (hcall : repo.faults.head? ≠ some true)
    (h0 : 0 < limit) (h1 : limit < 2 ^ 31 - 1) :
    (q.Limit limit).GetAll repo =
      (Except.ok ((q.q.results repo.ds.pages).take limit.toNat,
        decide (limit < (q.q.results repo.ds.pages).length)),
        ⟨repo.ds, repo.faults.tail⟩) := by
  obtain ⟨k, rfl⟩ := Int.eq_ofNat_of_zero_le (le_of_lt h0)
  have hk : ((k : Int) + 1).toNat = k + 1 := by omega
  have hG := Query_GetAll_ok { q.q with limit := (k : Int) + 1 } repo hq hcall
  rw [if_pos (show (0 : Int) ≤ (k : Int) + 1 by omega)] at hG
  rw [aePageQuery_Limit_ok q k (by omega) h1, aePageQuery_GetAll_of _ _ _ _ _ hG]
  have hR : Query.results { q.q with limit := (k : Int) + 1 } repo.ds.pages =
      q.q.results repo.ds.pages := rfl
  rw [hR, hk, Int.toNat_ofNat, List.length_take]
  by_cases hn : k < (q.q.results repo.ds.pages).length
  · rw [if_pos ⟨h0, by omega⟩, List.take_take, min_eq_left (Nat.le_succ k)]
    have hd : decide ((k : Int) < ((q.q.results repo.ds.pages).length : Int)) = true :=
      decide_eq_true (by omega)
    rw [hd]
  · rw [if_neg (by omega), List.take_of_length_le (by omega), List.take_of_length_le (by omega)]
    have hd : decide ((k : Int) < ((q.q.results repo.ds.pages).length : Int)) = false :=
      decide_eq_false (by omega)
    rw [hd]

/-- The query of `ListOwnedPages` for a user name: the pages of that user name,
the latest modification first, without error. -/
theorem ownedQuery_eq (repo : Repository) (name : String) :
    ((repo.NewPageQuery).Filter "UserName=" name).Order "-LastModificationDate" =
      { q := { filter := [fun page => decide (page.UserName = name)],
               order := [fun a b => decide (b.LastModificationDate ≤ a.LastModificationDate)],
               limit := -1, err := none },
        limit := -1 } := by
  rfl

/-- App.ListOwnedPages for a current user, a call to the datastore that succeeds
and a limit between 1 and `2 ^ 31 - 2`. -/
theorem ListOwnedPages_of_CurrentUser (app app1 : App) (user : User) (limit : Int)
    (hu : app.CurrentUser = (Except.ok user, app1))
    (hcall : app1.repository.faults.head? ≠ some true)
    (h0 : 0 < limit) (h1 : limit < 2 ^ 31 - 1) :
    app.ListOwnedPages limit =
      (Except.ok
        (((((app1.repository.NewPageQuery).Filter "UserName=" user.Name).Order
            "-LastModificationDate").q.results app1.repository.ds.pages).take limit.toNat,
          decide (limit < ((((app1.repository.NewPageQuery).Filter "UserName=" user.Name).Order
            "-LastModificationDate").q.results app1.repository.ds.pages).length)),
        { app1 with repository := ⟨app1.repository.ds, app1.repository.faults.tail⟩ }) := by
  have hG := aePageQuery_Limit_GetAll
    (((app1.repository.NewPageQuery).Filter "UserName=" user.Name).Order "-LastModificationDate")
    app1.repository limit rfl hcall h0 h1
  unfold App.ListOwnedPages
  rw [hu]
  show (match ((((app1.repository.NewPageQuery).Filter "UserName=" user.Name).Order
        "-LastModificationDate").Limit limit).GetAll app1.repository with
    | (Except.error err, repo) => (Except.error err, { app1 with repository := repo })
    | (Except.ok (pages, bMore), repo) =>
      (Except.ok (pages, bMore), { app1 with repository := repo })) = _
  rw [hG]

/-- The method `Limit` with the limit 0 asks for one page, and `GetAll` then
returns the first page of the full result, if any, with no more announced. -/
theorem aePageQuery_Limit_zero (q : aePageQuery) (repo : Repository)
    (hq : q.q.err = none) (hcall : repo.faults.head? ≠ some true) :
    (q.Limit 0).GetAll repo =
      (Except.ok ((q.q.results repo.ds.pages).take 1, false), ⟨repo.ds, repo.faults.tail⟩) := by
  have hG := Query_GetAll_ok { q.q with limit := (0 : Int) + 1 } repo hq hcall
  rw [if_pos (show (0 : Int) ≤ (0 : Int) + 1 by omega)] at hG
  rw [aePageQuery_Limit_ok q 0 (by omega) (by omega), aePageQuery_GetAll_of _ _ _ _ _ hG]
  rw [if_neg (by omega)]
  rfl

/-- App.ListOwnedPages with a positive limit never returns more pages than the
limit. -/
theorem ListOwnedPages_length (app app' : App) (limit : Int) (pages : List Page) (more : Bool)
    (h0 : 0 < limit) (h : app.ListOwnedPages limit = (Except.ok (pages, more), app')) :
    (pages.length : Int) ≤ limit := by
  unfold App.ListOwnedPages at h
  generalize app.CurrentUser = cu at h
  rcases cu with ⟨_ | user, app1⟩
  · cases h
  · change (match ((((app1.repository.NewPageQuery).Filter "UserName=" user.Name).Order
          "-LastModificationDate").Limit limit).GetAll app1.repository with
      | (Except.error err, repo) => (Except.error err, { app1 with repository := repo })
      | (Except.ok (pages, bMore), repo) =>
        (Except.ok (pages, bMore), { app1 with repository := repo })) = _ at h
    generalize hr : ((((app1.repository.NewPageQuery).Filter "UserName=" user.Name).Order
          "-LastModificationDate").Limit limit).GetAll app1.repository = r at h
    rcases r with ⟨_ | ⟨pages1, more1⟩, repo1⟩
    · cases h
    · have hp : pages1 = pages := by
        have := congrArg Prod.fst h
        simp only [Except.ok.injEq, Prod.mk.injEq] at this
        exact this.1
      rw [← hp]
      exact aePageQuery_GetAll_length _ _ _ _ _ h0 hr

/-- C25, counterexample: with the limit 0, the query asks for one page and the
test `q.limit > 0` keeps the page: on a datastore with six pages, five of them
of alice, `Limit(0)` then `GetAll` returns one page and no more announced, and
`ListOwnedPages(0)` of alice returns her latest page and no more announced. -/
theorem ListOwnedPages_limit_zero :
    (NewQuery.results (pagesStore 5).pages).length = 6 ∧
    ((((Repository.mk (pagesStore 5) []).NewPageQuery).Limit 0).GetAll
        ⟨pagesStore 5, []⟩).1.map
      (fun r => (r.1.map (fun page => (page.UserName, page.Name)), r.2)) =
      Except.ok ([("alice", "p1")], false) ∧
    ((healthyApp (pagesStore 5) (loggedIn aliceIdent)).ListOwnedPages 0).1.map
      (fun r => (r.1.map (fun page => page.Name), r.2)) = Except.ok (["p5"], false) :=
  ⟨rfl, rfl, rfl⟩

/-- C25, amended: for every page query without error, every limit from 1 to
`2 ^ 31 - 2` and a call to the datastore that succeeds, `Limit(limit)` followed
by `GetAll` returns the first `min(n, limit)` pages of the full result of `n`
pages, in the order of the query, and announces more exactly when `n > limit`;
`ListOwnedPages(limit)` never returns more than `limit` pages, and for a current
user it returns the first `limit` pages of that user name, the latest
modification first, and whether there are more. -/
theorem PageQuery_limit_protocol (q : aePageQuery) (repo : Repository) (limit : Int)
    (hq : q.q.err = none) (hcall : repo.faults.head? ≠ some true)
    (h0 : 0 < limit) (h1 : limit < 2 ^ 31 - 1) :
    (q.Limit limit).GetAll repo =
      (Except.ok ((q.q.results repo.ds.pages).take limit.toNat,
        decide (limit < (q.q.results repo.ds.pages).length)),
        ⟨repo.ds, repo.faults.tail⟩) ∧
    (((q.q.results repo.ds.pages).take limit.toNat).length : Int) =
      min ((q.q.results repo.ds.pages).length : Int) limit ∧
    (∀ (app app1 : App) (pages : List Page) (more : Bool),
      app.ListOwnedPages limit = (Except.ok (pages, more), app1) →
        (pages.length : Int) ≤ limit) ∧
    (∀ (app app1 : App) (user : User),
      app.CurrentUser = (Except.ok user, app1) →
      app1.repository.faults.head? ≠ some true →
        app.ListOwnedPages limit =
          (Except.ok
            (((((app1.repository.NewPageQuery).Filter "UserName=" user.Name).Order
                "-LastModificationDate").q.results app1.repository.ds.pages).take limit.toNat,
              decide (limit <
                ((((app1.repository.NewPageQuery).Filter "UserName=" user.Name).Order
                  "-LastModificationDate").q.results app1.repository.ds.pages).length)),
            { app1 with
              repository := ⟨app1.repository.ds, app1.repository.faults.tail⟩ })) := by
  refine ⟨aePageQuery_Limit_GetAll q repo limit hq hcall h0 h1, ?_, ?_, ?_⟩
  · rw [List.length_take]
    omega
  · intro app app1 pages more h
    exact ListOwnedPages_length app app1 limit pages more h0 h
  · intro app app1 user hu hc
    exact ListOwnedPages_of_CurrentUser app app1 user limit hu hc h0 h1

/-- C25 with the limit 3 for alice: three pages and more announced when she has
five pages, three pages and no more when she has three, no page when she has
none. -/
theorem PageQuery_limit_protocol_witness :
    (NewQuery.err = none ∧ (Repository.mk (pagesStore 5) []).faults.head? ≠ some true ∧
      (0 : Int) < 3 ∧ (3 : Int) < 2 ^ 31 - 1) ∧
    ((((Repository.mk (pagesStore 5) []).NewPageQuery).Limit 3).GetAll
        ⟨pagesStore 5, []⟩).1.map
      (fun r => (r.1.map (fun page => (page.UserName, page.Name)), r.2)) =
      Except.ok ([("alice", "p1"), ("alice", "p2"), ("alice", "p3")], true) ∧
    ((healthyApp (pagesStore 5) (loggedIn aliceIdent)).ListOwnedPages 3).1.map
      (fun r => (r.1.map (fun page => page.Name), r.2)) =
      Except.ok (["p5", "p4", "p3"], true) ∧
    ((healthyApp (pagesStore 3) (loggedIn aliceIdent)).ListOwnedPages 3).1.map
      (fun r => (r.1.map (fun page => page.Name), r.2)) =
      Except.ok (["p3", "p2", "p1"], false) ∧
    ((healthyApp (pagesStore 0) (loggedIn aliceIdent)).ListOwnedPages 3).1.map
      (fun r => (r.1.map (fun page => page.Name), r.2)) = Except.ok ([], false) :=
  ⟨⟨rfl, by decide, by omega, by omega⟩,
    (congrArg (fun r => r.1.map
        (fun r => (r.1.map (fun page : Page => (page.UserName, page.Name)), r.2)))
      (PageQuery_limit_protocol ((Repository.mk (pagesStore 5) []).NewPageQuery)
        ⟨pagesStore 5, []⟩ 3 rfl (by decide) (by omega) (by omega)).1).trans rfl,
    (congrArg (fun r => r.1.map (fun r => (r.1.map (fun page : Page => page.Name), r.2)))
      ((PageQuery_limit_protocol ((Repository.mk (pagesStore 5) []).NewPageQuery)
        ⟨pagesStore 5, []⟩ 3 rfl (by decide) (by omega) (by omega)).2.2.2
        (healthyApp (pagesStore 5) (loggedIn aliceIdent)) _ _ rfl (by decide))).trans rfl,
    (congrArg (fun r => r.1.map (fun r => (r.1.map (fun page : Page => page.Name), r.2)))
      ((PageQuery_limit_protocol ((Repository.mk (pagesStore 5) []).NewPageQuery)
        ⟨pagesStore 5, []⟩ 3 rfl (by decide) (by omega) (by omega)).2.2.2
        (healthyApp (pagesStore 3) (loggedIn aliceIdent)) _ _ rfl (by decide))).trans rfl,
    (congrArg (fun r => r.1.map (fun r => (r.1.map (fun page : Page => page.Name), r.2)))
      ((PageQuery_limit_protocol ((Repository.mk (pagesStore 5) []).NewPageQuery)
        ⟨pagesStore 5, []⟩ 3 rfl (by decide) (by omega) (by omega)).2.2.2
        (healthyApp (pagesStore 0) (loggedIn aliceIdent)) _ _ rfl (by decide))).trans rfl⟩

/-! ## The handler editItem in the mode updateTag -/

/-- The loop of `editItem` on a form whose keys all have four bytes or more: no
panic, and the calls of `SetItemTag` that the specification describes, until
one fails. -/
theorem updateTagLoop_long_keys (userName pageName itemID : String) (clock : Nat → Time)
    (form : List (String × List String)) (h : ∀ e ∈ form, 4 ≤ e.1.utf8ByteSize)
    (n : Nat) (app : App) :
    updateTagLoop userName pageName itemID clock form n app =
      (some (setItemTags userName pageName itemID clock (specTagCalls form) n app).1,
        (setItemTags userName pageName itemID clock (specTagCalls form) n app).2) := by
  induction form generalizing n app with
  | nil => rfl
  | cons e rest ih =>
    obtain ⟨key, array⟩ := e
    have hk : keyHasTagMark key = some (decide (key.data.take 4 = ['t', 'a', 'g', '-'])) := by
      unfold keyHasTagMark
      rw [if_neg (by have := h (key, array) (List.mem_cons_self _ _); simp only at this; omega)]
    have ih' := fun n app => ih (fun e he => h e (List.mem_cons_of_mem _ he)) n app
    unfold updateTagLoop
    rw [hk]
    simp only []
    by_cases hc : key.data.take 4 = ['t', 'a', 'g', '-'] ∧ array.length > 0
    · have hs : specTagCalls ((key, array) :: rest) =
          (String.mk (key.data.drop 4), array.headD "") :: specTagCalls rest := by
        unfold specTagCalls
        rw [List.filter_cons_of_pos (by simp [hc.1, hc.2])]
        rfl
      rw [if_pos (by simpa using hc), hs]
      unfold setItemTags
      generalize app.SetItemTag (clock n) userName pageName itemID (String.mk (key.data.drop 4))
        (array.headD "") = r
      rcases r with ⟨_ | err, app1⟩
      · exact ih' (n + 1) app1
      · rfl
    · have hs : specTagCalls ((key, array) :: rest) = specTagCalls rest := by
        unfold specTagCalls
        rw [List.filter_cons_of_neg (by simpa using hc)]
      rw [if_neg (by simpa using hc), hs]
      exact ih' n app

/-- C30, as the code behaves: in the mode updateTag, when the loop of `editItem`
comes first to a form key of fewer than four bytes, the slice expression
`key[:4]` panics, whatever the values of the key and the rest of the form; on a
form whose keys all have four bytes or more, `editItem` does not panic and makes
the calls of `SetItemTag` that the specification describes, until one fails. -/
theorem editItem_short_key_panics (r : Request) (app : App) (clock : Nat → Time)
    (markdownToHTML : String → String) (key : String) (values : List String)
    (rest : List (String × List String))
    (hmode : r.mode = "updateTag") (hform : r.PostForm = (key, values) :: rest)
    (hkey : key.utf8ByteSize < 4) :
    editItem r app clock markdownToHTML = (Outcome.panic, app) ∧
    (∀ r1 : Request, r1.mode = "updateTag" → (∀ e ∈ r1.PostForm, 4 ≤ e.1.utf8ByteSize) →
      editItem r1 app clock markdownToHTML =
        (Outcome.returned
          (match (setItemTags r1.userName r1.pageName r1.itemID clock
              (specTagCalls r1.PostForm) 0 app).1 with
            | some err => Except.error err
            | none => Except.ok Item.zero),
          (setItemTags r1.userName r1.pageName r1.itemID clock
            (specTagCalls r1.PostForm) 0 app).2)) := by
  constructor
  · unfold editItem
    rw [if_pos hmode, hform]
    unfold updateTagLoop keyHasTagMark
    rw [if_pos hkey]
  · intro r1 hmode1 hlong
    unfold editItem
    rw [if_pos hmode1, updateTagLoop_long_keys _ _ _ _ _ hlong]
    generalize setItemTags r1.userName r1.pageName r1.itemID clock
      (specTagCalls r1.PostForm) 0 app = s
    rcases s with ⟨_ | err, app1⟩ <;> rfl

/-- C30 on the form with the single key "id": `editItem` panics; and on a form
with the keys "mode", "tag-color" and "tag-size", the latter without value, it
sets the tag "color" of the item to its first value. -/
theorem editItem_short_key_panics_witness :
    (shortKeyRequest.mode = "updateTag" ∧ shortKeyRequest.PostForm = [("id", ["x"])] ∧
      "id".utf8ByteSize < 4) ∧
    (editItem shortKeyRequest (healthyApp helloStore (loggedIn aliceIdent)) (fun _ => 9)
      (fun s => s)).1 = Outcome.panic ∧
    specTagCalls colorRequest.PostForm = [("color", "red")] ∧
    (editItem colorRequest (healthyApp helloStore (loggedIn aliceIdent)) (fun _ => 9)
      (fun s => s)).1 = Outcome.returned (Except.ok Item.zero) ∧
    ((editItem colorRequest (healthyApp helloStore (loggedIn aliceIdent)) (fun _ => 9)
      (fun s => s)).2.repository.ds.item? "alice" "blog" "a1").map (fun i => i.Tags) =
        some [⟨"color", "red"⟩] :=
  ⟨⟨rfl, rfl, by decide⟩,
    congrArg Prod.fst (editItem_short_key_panics shortKeyRequest
      (healthyApp helloStore (loggedIn aliceIdent)) (fun _ => 9) (fun s => s) "id" ["x"] []
      rfl rfl (by decide)).1,
    rfl, rfl, rfl⟩

/-! ## CreatePage on a page that is stored -/

/-- CreatePage of a logged-in caller who has no page of the name succeeds on a
datastore without failures. -/
theorem CreatePage_healthy (app : App) (now : Time) (page : Page)
    (hf : app.repository.faults = []) (hcur : app.CurrentUserName.1 ≠ "")
    (hp : app.repository.ds.page? app.CurrentUserName.1 page.Name = none) :
    (app.CreatePage now page).1 = none := by
  have hhealthy := CurrentUserName_healthy app hf
  unfold App.CreatePage
  generalize app.CurrentUserName = c at hhealthy hcur hp ⊢
  rcases c with ⟨cur, app1⟩
  simp only [] at hhealthy hcur hp ⊢
  subst hhealthy
  rcases app1 with ⟨⟨ds, faults⟩, ui⟩
  simp only [] at hf hp
  subst hf
  have hu : (createdPage cur now page).UserName = cur := by rw [createdPage_eq]
  have hn : (createdPage cur now page).Name = page.Name := by rw [createdPage_eq]
  simp only [hcur, if_false, Repository.RunInTransaction, createPageTx_eq, hu, hn, hp,
    List.head?_nil, List.tail_nil, reduceCtorEq, Option.isSome_none, Bool.false_eq_true,
    commit_healthy, errorOf]

/-- Counterexample to C10: the page `(bob, blog)` is stored, and alice, logged in,
calls CreatePage with a page of the same user name "bob" and name "blog".  The
call succeeds and the repository is changed: it now holds the page
`(alice, blog)` next to the page of bob. -/
theorem CreatePage_existing_other_owner :
    bobStore.page? bobsBlogPage.UserName bobsBlogPage.Name = some bobsBlogPage ∧
    (healthyApp bobStore (loggedIn aliceIdent)).CurrentUserName.1 = "alice" ∧
    ((healthyApp bobStore (loggedIn aliceIdent)).CreatePage 7 bobsBlogPage).1 = none ∧
    ((healthyApp bobStore (loggedIn aliceIdent)).CreatePage 7
      bobsBlogPage).2.repository.ds.pages =
      [{ blogPage with CreationDate := 7, LastModificationDate := 7 }, bobsBlogPage] ∧
    ((healthyApp bobStore (loggedIn aliceIdent)).CreatePage 7
      bobsBlogPage).2.repository.ds ≠ bobStore := by
  decide

/-- C10, as the code has it: CreatePage gives the page the user name of the
caller before it looks for a stored page, so the page that makes it fail is the
one stored under the user name of the caller and the name of the page.  When
that page is stored, CreatePage fails and the stored entities are unchanged,
with the error "Page already exists" on a datastore without failures for a
logged-in caller (first part).  This is the page with the user name and the
name of the supplied page when the caller creates the page under the own name,
and an anonymous caller is refused whatever the page (second part).  Whoever
the caller is and whatever the call returns, a page stored under the user name
and the name of the supplied page stays stored with all its attributes (third
part).  And a logged-in caller who has no page of the name succeeds on a
datastore without failures, also when another user has the page: the page is
then stored under the user name of the caller (fourth part). -/
theorem CreatePage_existing (app : App) (now : Time) (page old : Page) :
    (app.repository.ds.page? app.CurrentUserName.1 page.Name = some old →
      (app.CreatePage now page).1 ≠ none ∧
      (app.CreatePage now page).2.repository.ds = app.repository.ds ∧
      (app.CreatePage now page).2.repository.ds.page? app.CurrentUserName.1 page.Name =
        some old ∧
      (app.repository.faults = [] → app.CurrentUserName.1 ≠ "" →
        (app.CreatePage now page).1 = some (Error.errorString "Page already exists"))) ∧
    (app.repository.ds.page? page.UserName page.Name = some old →
      app.CurrentUserName.1 = page.UserName ∨ app.CurrentUserName.1 = "" →
      (app.CreatePage now page).1 ≠ none ∧
      (app.CreatePage now page).2.repository.ds = app.repository.ds ∧
      (app.CreatePage now page).2.repository.ds.page? page.UserName page.Name = some old) ∧
    (app.repository.ds.page? page.UserName page.Name = some old →
      (app.CreatePage now page).2.repository.ds.page? page.UserName page.Name = some old) ∧
    (app.repository.faults = [] → app.CurrentUserName.1 ≠ "" →
      app.repository.ds.page? app.CurrentUserName.1 page.Name = none →
      (app.CreatePage now page).1 = none ∧
      (app.CreatePage now page).2.repository.ds =
        { app.repository.ds with
          pages := kvPut pageKey
            (createdPage app.CurrentUserName.1 now page) app.repository.ds.pages } ∧
      (app.CreatePage now page).2.repository.ds.page? app.CurrentUserName.1 page.Name =
        some (createdPage app.CurrentUserName.1 now page)) := by
  have hu : (createdPage app.CurrentUserName.1 now page).UserName =
      app.CurrentUserName.1 := by rw [createdPage_eq]
  have hn : (createdPage app.CurrentUserName.1 now page).Name = page.Name := by
    rw [createdPage_eq]
  refine ⟨?_, ?_, ?_, ?_⟩
  · intro h
    exact CreatePage_of_existing app now page old h
  · intro h hcaller
    rcases hcaller with hc | hc
    · rw [← hc] at h
      obtain ⟨h1, h2, _, _⟩ := CreatePage_of_existing app now page old h
      rw [hc] at h
      exact ⟨h1, h2, by rw [h2]; exact h⟩
    · have hds := CurrentUserName_ds app
      unfold App.CreatePage
      generalize app.CurrentUserName = c at hds hc ⊢
      rcases c with ⟨cur, app1⟩
      simp only [] at hds hc ⊢
      subst hc
      simp only [if_true]
      exact ⟨by simp, hds, by rw [hds]; exact h⟩
  · intro h
    cases hr : (app.CreatePage now page).1 with
    | some err =>
      rw [CreatePage_error app now page err hr]
      exact h
    | none =>
      obtain ⟨_, hnone, h3⟩ := CreatePage_ok app now page hr
      rw [h3]
      simp only [Datastore.page?, kvGet_kvPut, pageKey, hu, hn, Prod.mk.injEq]
      by_cases hc : page.UserName = app.CurrentUserName.1
      · rw [hc] at h
        rw [h] at hnone
        exact absurd hnone (by simp)
      · rw [if_neg (fun hk => hc hk.1)]
        exact h
  · intro hf hcur hp
    have hr := CreatePage_healthy app now page hf hcur hp
    obtain ⟨_, _, h3⟩ := CreatePage_ok app now page hr
    refine ⟨hr, h3, ?_⟩
    rw [h3]
    simp only [Datastore.page?, kvGet_kvPut, pageKey, hu, hn, if_true]

/-- Witness of C10 as amended: alice creates `(alice, blog)` a second time, which
fails and changes nothing; and alice calls CreatePage with the page
`(bob, blog)` while bob has it: the page of bob stays as it is, and the call
succeeds and stores the page `(alice, blog)`. -/
theorem CreatePage_existing_witness :
    blogStore.page? "alice" "blog" = some blogPage ∧
    ((healthyApp blogStore (loggedIn aliceIdent)).CreatePage 7
        { blogPage with Title := "Other" }).1 =
      some (Error.errorString "Page already exists") ∧
    ((healthyApp blogStore (loggedIn aliceIdent)).CreatePage 7
        { blogPage with Title := "Other" }).2.repository.ds = blogStore ∧
    bobStore.page? "bob" "blog" = some bobsBlogPage ∧
    ((healthyApp bobStore (loggedIn aliceIdent)).CreatePage 7
        bobsBlogPage).2.repository.ds.page? "bob" "blog" = some bobsBlogPage ∧
    ((healthyApp bobStore (loggedIn aliceIdent)).CreatePage 7 bobsBlogPage).1 = none ∧
    ((healthyApp bobStore (loggedIn aliceIdent)).CreatePage 7
        bobsBlogPage).2.repository.ds.page? "alice" "blog" =
      some { blogPage with CreationDate := 7, LastModificationDate := 7 } :=
  ⟨by decide,
    ((CreatePage_existing (healthyApp blogStore (loggedIn aliceIdent)) 7
      { blogPage with Title := "Other" } blogPage).1 (by decide)).2.2.2 rfl (by decide),
    ((CreatePage_existing (healthyApp blogStore (loggedIn aliceIdent)) 7
      { blogPage with Title := "Other" } blogPage).2.1 (by decide) (Or.inl (by decide))).2.1,
    by decide,
    (CreatePage_existing (healthyApp bobStore (loggedIn aliceIdent)) 7
      bobsBlogPage bobsBlogPage).2.2.1 (by decide),
    ((CreatePage_existing (healthyApp bobStore (loggedIn aliceIdent)) 7
      bobsBlogPage bobsBlogPage).2.2.2 rfl (by decide) (by decide)).1,
    ((CreatePage_existing (healthyApp bobStore (loggedIn aliceIdent)) 7
      bobsBlogPage bobsBlogPage).2.2.2 rfl (by decide) (by decide)).2.2.trans (by decide)⟩

end Okinotes
